import Mathlib

/-!
# Identity reconciliation: the `POST /identify` handler

A shallow embedding of `src/index.ts`.  The `Contact` table is a list of rows in
table order together with the next value of the `SERIAL` sequence behind the
`id` column.  Every SQL statement the handler issues is a function on that
state; the handler itself is `identify`.

Conventions of the embedding:

* ids and timestamps are natural numbers (a timestamp is the value
  `new Date(x).getTime()` sees);
* `CURRENT_TIMESTAMP` is read from a `clock`: `clock k` is the time of the
  `k`-th writing statement of the call (counted from `0`);
* request fields are `Option String` (`none` for an absent or `null` field);
* a query returns rows in table order, an `UPDATE` rewrites rows in place and
  an `INSERT` appends a row whose id is the next value of the sequence;
* every statement succeeds; the only failure is the handler's own `throw`,
  which the `catch` block turns into a 500 answer.

The claims are stated over `WellFormed` tables (the link structure) and, where
link lookup or fresh ids matter, `SerialIds` tables (ids as the sequence hands
them out).
-/

namespace Bitespeed

/-- The `linkPrecedence` column: `'primary'` or `'secondary'`. -/
inductive LinkPrecedence where
  | primary
  | secondary
deriving DecidableEq, Repr

/-- A row of the `Contact` table (the `Contact` interface of `index.ts`). -/
structure Contact where
  id : Nat
  phonenumber : Option String
  email : Option String
  linkedid : Option Nat
  linkprecedence : LinkPrecedence
  createdat : Nat
  updatedat : Nat
  deletedat : Option Nat
deriving DecidableEq, Repr

/-- The table: its rows and the next value of the `id` sequence. -/
structure Db where
  rows : List Contact
  nextId : Nat
deriving DecidableEq, Repr

/-- The body of a request: `email` and `phoneNumber`. -/
structure Request where
  email : Option String
  phoneNumber : Option String
deriving DecidableEq, Repr

/-- The `contact` object of the answer. -/
structure Response where
  primaryContatctId : Nat
  emails : List String
  phoneNumbers : List String
  secondaryContactIds : List Nat
deriving DecidableEq, Repr

/-- JavaScript truthiness of a string-or-null value: `null`, `undefined` and
the empty string are falsy. -/
def truthy : Option String → Bool
  | some s => decide (s ≠ "")
  | none => false

/-- The expression `v || null`. -/
def orNull (v : Option String) : Option String :=
  if truthy v then v else none

/-- The expression `v ? [v] : []`. -/
def asList : Option String → List String
  | some s => if s ≠ "" then [s] else []
  | none => []

/-- The condition `deletedAt IS NULL`. -/
def live (c : Contact) : Bool :=
  c.deletedat.isNone

/-- The `WHERE` clause of the match query: `deletedAt IS NULL AND (email = $1 OR
phoneNumber = $2)`, where a disjunct is present only for a truthy field. -/
def matchesRow (req : Request) (c : Contact) : Bool :=
  live c &&
    ((truthy req.email && decide (c.email = req.email)) ||
     (truthy req.phoneNumber && decide (c.phonenumber = req.phoneNumber)))

/-- The rows of the match query (lines 57 to 86); no query is issued when both
fields are falsy. -/
def findMatches (db : Db) (req : Request) : List Contact :=
  if truthy req.email || truthy req.phoneNumber then
    db.rows.filter (matchesRow req)
  else []

/-- The call `map.set(c.id, c)` on a `Map` kept as its list of values in
insertion order: an existing key keeps its place and takes the new value. -/
def mapSet : List Contact → Contact → List Contact
  | [], c => [c]
  | x :: xs, c => if x.id = c.id then c :: xs else x :: mapSet xs c

/-- The array `uniqueContacts` (lines 110 to 114). -/
def uniqueContacts (rows : List Contact) : List Contact :=
  rows.foldl mapSet []

/-- The query `SELECT ... WHERE id = $1 AND deletedAt IS NULL`, first row. -/
def findLiveById (db : Db) (i : Nat) : Option Contact :=
  (db.rows.filter (fun c => decide (c.id = i) && live c)).head?

/-- One round of the loop of lines 119 to 135. -/
def resolveStep (db : Db) (m : List Contact) (c : Contact) : List Contact :=
  if c.linkprecedence = LinkPrecedence.primary then mapSet m c
  else
    match c.linkedid with
    | some l =>
      if l ≠ 0 then
        match findLiveById db l with
        | some p => mapSet m p
        | none => m
      else m
    | none => m

/-- The array `uniquePrimaries` (lines 117 to 137). -/
def uniquePrimaries (db : Db) (req : Request) : List Contact :=
  (uniqueContacts (findMatches db req)).foldl (resolveStep db) []

/-- The comparator of line 150 is not positive on `(a, b)`: `a` is created
earlier, or at the same time with an id that is not larger. -/
def olderOrEq (a b : Contact) : Prop :=
  a.createdat < b.createdat ∨ (a.createdat = b.createdat ∧ a.id ≤ b.id)

instance : DecidableRel olderOrEq := fun a b =>
  inferInstanceAs (Decidable (a.createdat < b.createdat ∨ (a.createdat = b.createdat ∧ a.id ≤ b.id)))

/-- The call `uniquePrimaries.sort(...)`: a stable sort by `(createdat, id)`. -/
def sortPrimaries (ps : List Contact) : List Contact :=
  ps.insertionSort olderOrEq

/-- The statement `UPDATE Contact SET linkPrecedence = 'secondary', linkedId = $2,
updatedAt = CURRENT_TIMESTAMP WHERE id = $3` on one row. -/
def demoteRow (ts survivor loser : Nat) (c : Contact) : Contact :=
  if c.id = loser then
    { c with linkprecedence := LinkPrecedence.secondary, linkedid := some survivor,
             updatedat := ts }
  else c

/-- The statement `UPDATE Contact SET linkedId = $1, updatedAt = CURRENT_TIMESTAMP
WHERE linkedId = $2` on one row. -/
def repointRow (ts survivor loser : Nat) (c : Contact) : Contact :=
  if c.linkedid = some loser then { c with linkedid := some survivor, updatedat := ts }
  else c

/-- The first `UPDATE` of the merge loop on the table. -/
def demote (ts survivor loser : Nat) (rows : List Contact) : List Contact :=
  rows.map (demoteRow ts survivor loser)

/-- The second `UPDATE` of the merge loop on the table. -/
def repoint (ts survivor loser : Nat) (rows : List Contact) : List Contact :=
  rows.map (repointRow ts survivor loser)

/-- The loop of lines 163 to 176 over the sorted primaries; `k` counts the
writing statements issued so far.  Returns the table and the new count. -/
def mergeLoop (clock : Nat → Nat) (survivor : Nat) :
    List Contact → Nat → List Contact → List Contact × Nat
  | [], k, rows => (rows, k)
  | p :: ps, k, rows =>
    if p.id ≠ survivor then
      mergeLoop clock survivor ps (k + 2)
        (repoint (clock (k + 1)) survivor p.id (demote (clock k) survivor p.id rows))
    else mergeLoop clock survivor ps k rows

/-- The condition `(id = $n OR linkedId = $n)`. -/
def inCluster (pid : Nat) (c : Contact) : Bool :=
  decide (c.id = pid) || decide (c.linkedid = some pid)

/-- The decision of lines 180 to 204. -/
def needNewSecondary (rows : List Contact) (req : Request) (pid : Nat) : Bool :=
  if truthy req.email && truthy req.phoneNumber then
    (rows.filter (fun c => decide (c.email = req.email) &&
      decide (c.phonenumber = req.phoneNumber) && live c && inCluster pid c)).length == 0
  else if truthy req.email && !truthy req.phoneNumber then
    (rows.filter (fun c => decide (c.email = req.email) && live c && inCluster pid c)).length == 0
  else if !truthy req.email && truthy req.phoneNumber then
    (rows.filter (fun c => decide (c.phonenumber = req.phoneNumber) && live c &&
      inCluster pid c)).length == 0
  else false

/-- A freshly inserted row: the columns the `INSERT` names, both timestamps
defaulting to `CURRENT_TIMESTAMP`, `deletedAt` null. -/
def newRow (i : Nat) (email phone : Option String) (linkedid : Option Nat)
    (prec : LinkPrecedence) (ts : Nat) : Contact :=
  { id := i, phonenumber := phone, email := email, linkedid := linkedid,
    linkprecedence := prec, createdat := ts, updatedat := ts, deletedat := none }

/-- An `INSERT INTO Contact (email, phoneNumber, linkedId, linkPrecedence)`: the id
comes from the sequence. -/
def insertContact (db : Db) (email phone : Option String) (linkedid : Option Nat)
    (prec : LinkPrecedence) (ts : Nat) : Db :=
  { rows := db.rows ++ [newRow db.nextId email phone linkedid prec ts],
    nextId := db.nextId + 1 }

/-- The query of lines 215 to 223: the live rows with `id = $1 OR linkedId = $1`,
`ORDER BY id`. -/
def allLinked (rows : List Contact) (pid : Nat) : List Contact :=
  (rows.filter (fun c => inCluster pid c && live c)).insertionSort (fun a b => a.id ≤ b.id)

/-- The guarded push `if (v && !acc.includes(v)) acc.push(v)`. -/
def pushNew (acc : List String) : Option String → List String
  | some s => if s ≠ "" ∧ s ∉ acc then acc ++ [s] else acc
  | none => acc

/-- The response arrays of lines 228 to 247. -/
def buildResponse (finalPrimary : Contact) (linked : List Contact) : Response :=
  let others := linked.filter (fun c => decide (c.id ≠ finalPrimary.id))
  { primaryContatctId := finalPrimary.id,
    emails := others.foldl (fun acc c => pushNew acc c.email) (asList finalPrimary.email),
    phoneNumbers :=
      others.foldl (fun acc c => pushNew acc c.phonenumber) (asList finalPrimary.phonenumber),
    secondaryContactIds := others.map (fun c => c.id) }

/-- The primary the handler settles on (lines 144 to 158): the only candidate,
or the first of the sorted candidates when there are several. -/
def finalPrimaryOf (p0 : Contact) (rest : List Contact) : Contact :=
  if (p0 :: rest).length > 1 then (sortPrimaries (p0 :: rest)).headD p0 else p0

/-- The table after lines 146 to 177, with the count of writing statements. -/
def mergeAll (clock : Nat → Nat) (db : Db) (p0 : Contact) (rest : List Contact) :
    List Contact × Nat :=
  if (p0 :: rest).length > 1 then
    mergeLoop clock (finalPrimaryOf p0 rest).id (sortPrimaries (p0 :: rest)) 0 db.rows
  else (db.rows, 0)

/-- The gap filler of lines 206 to 212: the `INSERT` of a secondary when one is
needed. -/
def fillGap (ts : Nat) (db1 : Db) (req : Request) (pid : Nat) : Db :=
  if needNewSecondary db1.rows req pid then
    insertContact db1 (orNull req.email) (orNull req.phoneNumber) (some pid)
      LinkPrecedence.secondary ts
  else db1

/-- The handler of `POST /identify` (lines 51 to 265).  An error stands for the
500 answer of the `catch` block. -/
def identify (clock : Nat → Nat) (db : Db) (req : Request) : Except String (Response × Db) :=
  if (findMatches db req).length = 0 then
    Except.ok
      ({ primaryContatctId := db.nextId,
         emails := asList req.email,
         phoneNumbers := asList req.phoneNumber,
         secondaryContactIds := [] },
       insertContact db (orNull req.email) (orNull req.phoneNumber) none
         LinkPrecedence.primary (clock 0))
  else
    match uniquePrimaries db req with
    | [] => Except.error "No primary contact found"
    | p0 :: rest =>
      let finalPrimary := finalPrimaryOf p0 rest
      let merged := mergeAll clock db p0 rest
      let db2 := fillGap (clock merged.2) { rows := merged.1, nextId := db.nextId } req
        finalPrimary.id
      Except.ok (buildResponse finalPrimary (allLinked db2.rows finalPrimary.id), db2)

/-- The well-formed tables: ids are unique, and every live contact is either a
primary with null `linkedId` or a secondary whose `linkedId` is the id of a
live primary. -/
@[reducible] def WellFormed (db : Db) : Prop :=
  (db.rows.map (fun c => c.id)).Nodup ∧
  ∀ c ∈ db.rows, live c = true →
    (c.linkprecedence = LinkPrecedence.primary ∧ c.linkedid = none) ∨
    (c.linkprecedence = LinkPrecedence.secondary ∧
      ∃ p ∈ db.rows, live p = true ∧ p.linkprecedence = LinkPrecedence.primary ∧
        c.linkedid = some p.id)

/-- The ids are those the `SERIAL` column hands out: the sequence counts from 1,
and every id in the table is positive and below its next value. -/
@[reducible] def SerialIds (db : Db) : Prop :=
  0 < db.nextId ∧ ∀ c ∈ db.rows, 0 < c.id ∧ c.id < db.nextId

/-- The loop of lines 163 to 176 as it acts on a single row. -/
def mergeRow (clock : Nat → Nat) (survivor : Nat) : List Contact → Nat → Contact → Contact
  | [], _, c => c
  | p :: ps, k, c =>
    if p.id ≠ survivor then
      mergeRow clock survivor ps (k + 2)
        (repointRow (clock (k + 1)) survivor p.id (demoteRow (clock k) survivor p.id c))
    else mergeRow clock survivor ps k c

/-- The primary a matched contact resolves to (lines 120 to 134): itself when it
is a primary, else the live row its truthy `linkedid` names. -/
def resolve (db : Db) (c : Contact) : Option Contact :=
  if c.linkprecedence = LinkPrecedence.primary then some c
  else
    match c.linkedid with
    | some l => if l ≠ 0 then findLiveById db l else none
    | none => none

/-- A round of `set` calls on the map, the value chosen by `g` (no call when
`g` gives nothing). -/
def foldSet (g : Contact → Option Contact) (m : List Contact) (c : Contact) : List Contact :=
  match g c with
  | some p => mapSet m p
  | none => m

/-- The link structure of the well-formed tables alone: every live contact is
either a primary with null `linkedId` or a secondary whose `linkedId` is the id
of a live primary. -/
@[reducible] def LinkInvariant (db : Db) : Prop :=
  ∀ c ∈ db.rows, live c = true →
    (c.linkprecedence = LinkPrecedence.primary ∧ c.linkedid = none) ∨
    (c.linkprecedence = LinkPrecedence.secondary ∧
      ∃ p ∈ db.rows, live p = true ∧ p.linkprecedence = LinkPrecedence.primary ∧
        c.linkedid = some p.id)

/-- The `PRIMARY KEY` constraint on `id`, now and at the next `INSERT`: the ids
in the table are unique and the next value of the sequence is not among them. -/
@[reducible] def KeyOk (db : Db) : Prop :=
  (db.rows.map (fun c => c.id)).Nodup ∧ ∀ c ∈ db.rows, c.id ≠ db.nextId

/-- The table a call leaves behind.  The `throw` of line 140 comes before every
`INSERT` and `UPDATE` of the match path, so a failed call leaves the table as it
found it. -/
def storeAfter (clock : Nat → Nat) (db : Db) (req : Request) : Db :=
  match identify clock db req with
  | Except.ok (_, db') => db'
  | Except.error _ => db

/-- A live row, other than the primary itself, whose `linkedId` is `pid`. -/
def isSecondaryOf (pid : Nat) (c : Contact) : Bool :=
  live c && decide (c.linkedid = some pid) && decide (c.id ≠ pid)

/-- Keeping only the first occurrence of each value of a list. -/
def firstOccurrences : List String → List String
  | [] => []
  | x :: xs => x :: (firstOccurrences xs).filter (fun y => decide (y ≠ x))

/-- The list the response arrays are claimed to be: the values that are not
null, in the order given, first occurrences only. -/
def nonNullValues (vs : List (Option String)) : List String :=
  firstOccurrences (vs.filterMap (fun v => v))

/-- The same list restricted to the values that are neither null nor the empty
string. -/
def nonBlankValues (vs : List (Option String)) : List String :=
  firstOccurrences ((vs.filterMap (fun v => v)).filter (fun s => decide (s ≠ "")))

/-- A secondary whose `linkedId` names no live row of the table. -/
@[reducible] def Dangling (db : Db) (m : Contact) : Prop :=
  m.linkprecedence = LinkPrecedence.secondary ∧
  ∀ c ∈ db.rows, live c = true → m.linkedid ≠ some c.id

/-- The number of live primaries of a table. -/
def livePrimaryCount (db : Db) : Nat :=
  (db.rows.filter
    (fun c => live c && decide (c.linkprecedence = LinkPrecedence.primary))).length

/-- Seniority: every live primary is the least, by creation time and then id, of
the live rows of its cluster. -/
@[reducible] def Seniority (db : Db) : Prop :=
  ∀ p ∈ db.rows, live p = true → p.linkprecedence = LinkPrecedence.primary →
    ∀ c ∈ db.rows, live c = true → inCluster p.id c = true → olderOrEq p c

/-- A contact that the resolution of lines 119 to 135 is claimed to accept: a
primary, or a secondary whose non-null `linkedId` is the id of a live row. -/
@[reducible] def Resolvable (db : Db) (m : Contact) : Prop :=
  m.linkprecedence = LinkPrecedence.primary ∨
  (m.linkprecedence = LinkPrecedence.secondary ∧
    ∃ c ∈ db.rows, live c = true ∧ m.linkedid = some c.id)

/-- A writing statement of the handler: an `INSERT` with its four columns, the
demoting `UPDATE` or the re-pointing `UPDATE` with their two parameters. -/
inductive Write where
  | insert (email phone : Option String) (linkedid : Option Nat) (prec : LinkPrecedence)
  | demote (survivor loser : Nat)
  | repoint (survivor loser : Nat)
deriving DecidableEq, Repr

/-- The effect of one writing statement issued at time `ts`.  The handler calls
`pool.query` for each statement, outside any transaction, so each statement takes
effect on its own. -/
def applyWrite (ts : Nat) (w : Write) (db : Db) : Db :=
  match w with
  | Write.insert email phone linkedid prec => insertContact db email phone linkedid prec ts
  | Write.demote survivor loser =>
    { rows := demote ts survivor loser db.rows, nextId := db.nextId }
  | Write.repoint survivor loser =>
    { rows := repoint ts survivor loser db.rows, nextId := db.nextId }

/-- The effect of a run of writing statements, the first of them being the
`k`-th of the call. -/
def applyWrites (clock : Nat → Nat) : List Write → Nat → Db → Db
  | [], _, db => db
  | w :: ws, k, db => applyWrites clock ws (k + 1) (applyWrite (clock k) w db)

/-- The `UPDATE`s the loop of lines 163 to 176 issues, in order. -/
def mergeWrites (survivor : Nat) : List Contact → List Write
  | [] => []
  | p :: ps =>
    if p.id ≠ survivor then
      Write.demote survivor p.id :: Write.repoint survivor p.id :: mergeWrites survivor ps
    else mergeWrites survivor ps

/-- The writing statements a call issues, in order: the `INSERT` of line 92 on
the no-match path; nothing before the `throw` of line 140; else the `UPDATE`s of
the merge loop and then the `INSERT` of line 207 when the gap filler asks for
it. -/
def writesOf (clock : Nat → Nat) (db : Db) (req : Request) : List Write :=
  if (findMatches db req).length = 0 then
    [Write.insert (orNull req.email) (orNull req.phoneNumber) none LinkPrecedence.primary]
  else
    match uniquePrimaries db req with
    | [] => []
    | p0 :: rest =>
      let finalPrimary := finalPrimaryOf p0 rest
      let updates :=
        if (p0 :: rest).length > 1 then
          mergeWrites finalPrimary.id (sortPrimaries (p0 :: rest))
        else []
      let db1 := applyWrites clock updates 0 db
      if needNewSecondary db1.rows req finalPrimary.id then
        updates ++ [Write.insert (orNull req.email) (orNull req.phoneNumber)
          (some finalPrimary.id) LinkPrecedence.secondary]
      else updates

/-- The table left behind when the `n`-th writing statement of a call (counted
from `0`) fails: the `catch` block of lines 260 to 264 answers 500 and undoes
nothing, so the statements before it stay applied. -/
def storeOnFailure (clock : Nat → Nat) (db : Db) (req : Request) (n : Nat) : Db :=
  applyWrites clock ((writesOf clock db req).take n) 0 db

/-- Live contacts that share an email or a phone lie in one cluster. -/
@[reducible] def SharedIdentifiersLinked (db : Db) : Prop :=
  ∀ a ∈ db.rows, ∀ b ∈ db.rows, live a = true → live b = true →
    ((∃ e, a.email = some e ∧ b.email = some e) ∨
     (∃ p, a.phonenumber = some p ∧ b.phonenumber = some p)) →
    ∃ q ∈ db.rows, live q = true ∧ q.linkprecedence = LinkPrecedence.primary ∧
      inCluster q.id a = true ∧ inCluster q.id b = true

/-- The tables reachable from the table `initDB` creates (no row, the sequence at
its first value) by calls of the handler alone, at any times and with any
requests. -/
inductive Reachable : Db → Prop where
  | empty : Reachable { rows := [], nextId := 1 }
  | step {db : Db} (clock : Nat → Nat) (req : Request) :
      Reachable db → Reachable (storeAfter clock db req)

/-! ### The handler, statement by statement -/

/-- A call in progress: the table as the statements issued so far have left it,
and the number of writing statements issued so far. -/
structure Session where
  store : Db
  issued : Nat
deriving DecidableEq, Repr

/-- A run of statements of the handler.  Started in a session, it ends with a
value or with a thrown error, and with the session as it stands at that point:
every `pool.query` is committed on its own, so a `throw` undoes nothing. -/
def Run (α : Type) : Type := Session → Except String α × Session

instance : Monad Run where
  pure a := fun s => (Except.ok a, s)
  bind m f := fun s =>
    match m s with
    | (Except.ok a, s1) => f a s1
    | (Except.error e, s1) => (Except.error e, s1)

/-- The statement `throw new Error(e)`. -/
def raise {α : Type} (e : String) : Run α := fun s => (Except.error e, s)

/-- A `SELECT`: it reads the table as it stands and changes nothing. -/
def select {α : Type} (q : Db → α) : Run α := fun s => (Except.ok (q s.store), s)

/-- An `INSERT` or `UPDATE`: it takes effect at once, at the time the clock gives
for it, and returns the id the sequence had ready (the `RETURNING id` of an
`INSERT`). -/
def execute (clock : Nat → Nat) (w : Write) : Run Nat := fun s =>
  (Except.ok s.store.nextId,
   { store := applyWrite (clock s.issued) w s.store, issued := s.issued + 1 })

/-- The loop of lines 119 to 135, statement by statement: a primary is put in the
map, a secondary with a truthy `linkedid` is looked up by the `SELECT` of line
124. -/
def resolveStmts : List Contact → List Contact → Run (List Contact)
  | [], m => pure m
  | c :: cs, m =>
    if c.linkprecedence = LinkPrecedence.primary then resolveStmts cs (mapSet m c)
    else
      match c.linkedid with
      | some l =>
        if l ≠ 0 then do
          let primaryResult ← select (fun db => findLiveById db l)
          match primaryResult with
          | some p => resolveStmts cs (mapSet m p)
          | none => resolveStmts cs m
        else resolveStmts cs m
      | none => resolveStmts cs m

/-- The loop of lines 163 to 176, statement by statement. -/
def mergeStmts (clock : Nat → Nat) (survivor : Nat) : List Contact → Run Unit
  | [] => pure ()
  | p :: ps =>
    if p.id ≠ survivor then do
      let _ ← execute clock (Write.demote survivor p.id)
      let _ ← execute clock (Write.repoint survivor p.id)
      mergeStmts clock survivor ps
    else mergeStmts clock survivor ps

/-- The handler of `POST /identify` (lines 51 to 259), statement by statement in
the order of the source. -/
def handler (clock : Nat → Nat) (req : Request) : Run Response := do
  let found ← select (fun db => findMatches db req)
  if found.length = 0 then
    let newId ← execute clock
      (Write.insert (orNull req.email) (orNull req.phoneNumber) none LinkPrecedence.primary)
    pure { primaryContatctId := newId, emails := asList req.email,
           phoneNumbers := asList req.phoneNumber, secondaryContactIds := [] }
  else
    let uniquePrimaries ← resolveStmts (uniqueContacts found) []
    match uniquePrimaries with
    | [] => raise "No primary contact found"
    | p0 :: rest =>
      let finalPrimary := finalPrimaryOf p0 rest
      if (p0 :: rest).length > 1 then
        mergeStmts clock finalPrimary.id (sortPrimaries (p0 :: rest))
      let needNew ← select (fun db => needNewSecondary db.rows req finalPrimary.id)
      if needNew then
        let _ ← execute clock
          (Write.insert (orNull req.email) (orNull req.phoneNumber) (some finalPrimary.id)
            LinkPrecedence.secondary)
      let linked ← select (fun db => allLinked db.rows finalPrimary.id)
      pure (buildResponse finalPrimary linked)

/-! ### Sample tables -/

/-- A clock for the samples: the `k`-th write of a call happens at `1000 + k`. -/
def sampleClock : Nat → Nat := fun k => 1000 + k

/-- Two independent primaries, the first one the elder. -/
def twoPrimaries : Db :=
  { rows := [newRow 1 (some "george@hillvalley.edu") (some "919191") none
               LinkPrecedence.primary 10,
             newRow 2 (some "biffsucks@hillvalley.edu") (some "717171") none
               LinkPrecedence.primary 20],
    nextId := 3 }

/-- A request that links the two primaries of `twoPrimaries`. -/
def linkingRequest : Request :=
  { email := some "george@hillvalley.edu", phoneNumber := some "717171" }

/-- A single primary whose stored email is the empty string. -/
def blankEmailDb : Db :=
  { rows := [newRow 1 (some "") (some "111") none LinkPrecedence.primary 10],
    nextId := 2 }

/-- A request carrying only the phone number of `blankEmailDb`. -/
def phoneOnlyRequest : Request :=
  { email := none, phoneNumber := some "111" }

/-- A single primary. -/
def onePrimary : Db :=
  { rows := [newRow 1 (some "a@x.com") (some "111") none LinkPrecedence.primary 10],
    nextId := 2 }

/-- A primary and one secondary of it, with different emails and phones. -/
def oneCluster : Db :=
  { rows := [newRow 1 (some "a@x.com") (some "111") none LinkPrecedence.primary 10,
             newRow 2 (some "b@x.com") (some "222") (some 1) LinkPrecedence.secondary 20],
    nextId := 3 }

/-- The email of the primary of `oneCluster` with the phone of its secondary. -/
def crossRequest : Request :=
  { email := some "a@x.com", phoneNumber := some "222" }

/-- A primary whose stored email is the empty string, with one secondary. -/
def blankPrimaryCluster : Db :=
  { rows := [newRow 1 (some "") (some "111") none LinkPrecedence.primary 10,
             newRow 2 (some "b@x.com") (some "111") (some 1) LinkPrecedence.secondary 20],
    nextId := 3 }

/-- A primary with a secondary whose stored email is the empty string. -/
def blankEmailSecondary : Db :=
  { rows := [newRow 1 (some "a@x.com") (some "111") none LinkPrecedence.primary 10,
             newRow 2 (some "") (some "222") (some 1) LinkPrecedence.secondary 20],
    nextId := 3 }

/-- A primary with a secondary whose stored phone is the empty string. -/
def blankPhoneSecondary : Db :=
  { rows := [newRow 1 (some "a@x.com") (some "111") none LinkPrecedence.primary 10,
             newRow 2 (some "b@x.com") (some "") (some 1) LinkPrecedence.secondary 20],
    nextId := 3 }

/-- A request carrying only the email of the primary of the samples. -/
def emailOnlyRequest : Request :=
  { email := some "a@x.com", phoneNumber := none }

/-- A live primary, a tombstoned primary, and a live secondary of the tombstoned
one that shares the phone of the live primary. -/
def danglingDb : Db :=
  { rows := [newRow 1 (some "a@x.com") (some "111") none LinkPrecedence.primary 10,
             { newRow 2 (some "c@x.com") (some "333") none LinkPrecedence.primary 20 with
               deletedat := some 50 },
             newRow 3 (some "b@x.com") (some "111") (some 2) LinkPrecedence.secondary 30],
    nextId := 4 }

/-- A live secondary of a tombstoned primary, alone with it. -/
def allDanglingDb : Db :=
  { rows := [{ newRow 1 (some "c@x.com") (some "333") none LinkPrecedence.primary 20 with
               deletedat := some 50 },
             newRow 2 (some "b@x.com") (some "111") (some 1) LinkPrecedence.secondary 30],
    nextId := 3 }

/-- A primary with id 0 and one secondary of it: the table is well-formed, the
link of the secondary is the falsy number 0. -/
def zeroDb : Db :=
  { rows := [newRow 0 (some "a@x.com") (some "111") none LinkPrecedence.primary 10,
             newRow 1 (some "b@x.com") (some "222") (some 0) LinkPrecedence.secondary 20],
    nextId := 2 }

/-- The table `zeroDb` with a second primary, of id 5, that shares the email of
the secondary. -/
def zeroPairDb : Db :=
  { rows := [newRow 0 (some "a@x.com") (some "111") none LinkPrecedence.primary 10,
             newRow 1 (some "b@x.com") (some "222") (some 0) LinkPrecedence.secondary 20,
             newRow 5 (some "b@x.com") (some "999") none LinkPrecedence.primary 30],
    nextId := 6 }

/-- The email and the phone of the secondary of `zeroDb`. -/
def secondaryPairRequest : Request :=
  { email := some "b@x.com", phoneNumber := some "222" }

/-- The email of the secondary of `zeroDb` alone. -/
def secondaryEmailRequest : Request :=
  { email := some "b@x.com", phoneNumber := none }

/-! ## The insertion-ordered map -/

theorem mem_mapSet {m : List Contact} {c x : Contact} (h : x ∈ mapSet m c) : x = c ∨ x ∈ m := by
  induction m with
  | nil => simp [mapSet] at h; exact Or.inl h
  | cons y ys ih =>
    simp only [mapSet] at h
    split at h
    · rcases List.mem_cons.1 h with h | h
      · exact Or.inl h
      · exact Or.inr (List.mem_cons_of_mem _ h)
    · rcases List.mem_cons.1 h with h | h
      · exact Or.inr (h ▸ List.mem_cons_self _ _)
      · rcases ih h with h | h
        · exact Or.inl h
        · exact Or.inr (List.mem_cons_of_mem _ h)

theorem self_mem_mapSet (m : List Contact) (c : Contact) : c ∈ mapSet m c := by
  induction m with
  | nil => simp [mapSet]
  | cons y ys ih =>
    simp only [mapSet]
    split
    · exact List.mem_cons_self _ _
    · exact List.mem_cons_of_mem _ ih

theorem mapSet_ids (m : List Contact) (c : Contact) :
    (mapSet m c).map (fun x => x.id) =
      if c.id ∈ m.map (fun x => x.id) then m.map (fun x => x.id)
      else m.map (fun x => x.id) ++ [c.id] := by
  induction m with
  | nil => simp [mapSet]
  | cons y ys ih =>
    simp only [mapSet]
    by_cases h : y.id = c.id
    · simp [h]
    · have h' : ¬ c.id = y.id := fun e => h e.symm
      simp only [h, if_false, List.map_cons, ih, List.mem_cons, h', false_or]
      split <;> simp

theorem mapSet_nodup {m : List Contact} (c : Contact) (h : (m.map (fun x => x.id)).Nodup) :
    ((mapSet m c).map (fun x => x.id)).Nodup := by
  rw [mapSet_ids]
  split
  · exact h
  · rename_i hc
    exact List.Nodup.append h (List.nodup_singleton _) (by
      intro a ha hb
      simp at hb
      exact hc (hb ▸ ha))

theorem mapSet_id_mem {m : List Contact} (c : Contact) {y : Contact} (h : y ∈ m) :
    y.id ∈ (mapSet m c).map (fun x => x.id) := by
  rw [mapSet_ids]
  have : y.id ∈ m.map (fun x => x.id) := List.mem_map_of_mem _ h
  split
  · exact this
  · exact List.mem_append_left _ this

theorem mapSet_single (p : Contact) : mapSet [p] p = [p] := by
  simp [mapSet]

theorem mem_foldl_foldSet (g : Contact → Option Contact) (l : List Contact) :
    ∀ (init : List Contact) (x : Contact), x ∈ l.foldl (foldSet g) init →
      x ∈ init ∨ ∃ c ∈ l, g c = some x := by
  induction l with
  | nil => intro init x h; exact Or.inl h
  | cons a l ih =>
    intro init x h
    rw [List.foldl_cons] at h
    rcases ih _ _ h with h | ⟨c, hc, hg⟩
    · unfold foldSet at h
      cases hga : g a with
      | none => rw [hga] at h; exact Or.inl h
      | some p =>
        rw [hga] at h
        rcases mem_mapSet h with h | h
        · exact Or.inr ⟨a, List.mem_cons_self _ _, by rw [hga, h]⟩
        · exact Or.inl h
    · exact Or.inr ⟨c, List.mem_cons_of_mem _ hc, hg⟩

theorem foldl_foldSet_ids_mono (g : Contact → Option Contact) (l : List Contact) :
    ∀ (init : List Contact) (i : Nat), i ∈ init.map (fun x => x.id) →
      i ∈ (l.foldl (foldSet g) init).map (fun x => x.id) := by
  induction l with
  | nil => intro init i h; exact h
  | cons a l ih =>
    intro init i h
    rw [List.foldl_cons]
    apply ih
    unfold foldSet
    cases g a with
    | none => exact h
    | some p =>
      obtain ⟨y, hy, rfl⟩ := List.mem_map.1 h
      exact mapSet_id_mem p hy

theorem foldl_foldSet_covers (g : Contact → Option Contact) (l : List Contact) :
    ∀ (init : List Contact) (c x : Contact), c ∈ l → g c = some x →
      x.id ∈ (l.foldl (foldSet g) init).map (fun y => y.id) := by
  induction l with
  | nil => intro init c x h; cases h
  | cons a l ih =>
    intro init c x hc hg
    rw [List.foldl_cons]
    rcases List.mem_cons.1 hc with rfl | hc
    · apply foldl_foldSet_ids_mono
      unfold foldSet
      rw [hg]
      exact List.mem_map_of_mem _ (self_mem_mapSet _ _)
    · exact ih _ c x hc hg

theorem foldl_foldSet_nodup (g : Contact → Option Contact) (l : List Contact) :
    ∀ (init : List Contact), (init.map (fun x => x.id)).Nodup →
      ((l.foldl (foldSet g) init).map (fun x => x.id)).Nodup := by
  induction l with
  | nil => intro init h; exact h
  | cons a l ih =>
    intro init h
    rw [List.foldl_cons]
    apply ih
    unfold foldSet
    cases g a with
    | none => exact h
    | some p => exact mapSet_nodup p h

theorem foldl_foldSet_const (g : Contact → Option Contact) (p : Contact) (l : List Contact)
    (h : ∀ c ∈ l, g c = some p) : l.foldl (foldSet g) [p] = [p] := by
  induction l with
  | nil => rfl
  | cons a l ih =>
    rw [List.foldl_cons]
    have : foldSet g [p] a = [p] := by
      unfold foldSet
      rw [h a (List.mem_cons_self _ _)]
      exact mapSet_single p
    rw [this]
    exact ih (fun c hc => h c (List.mem_cons_of_mem _ hc))

theorem foldl_foldSet_const_nil (g : Contact → Option Contact) (p : Contact) (l : List Contact)
    (hne : l ≠ []) (h : ∀ c ∈ l, g c = some p) : l.foldl (foldSet g) [] = [p] := by
  cases l with
  | nil => exact absurd rfl hne
  | cons a l =>
    rw [List.foldl_cons]
    have : foldSet g [] a = [p] := by
      unfold foldSet
      rw [h a (List.mem_cons_self _ _)]
      rfl
    rw [this]
    exact foldl_foldSet_const g p l (fun c hc => h c (List.mem_cons_of_mem _ hc))

theorem uniqueContacts_eq_foldSet (l : List Contact) :
    uniqueContacts l = l.foldl (foldSet some) [] := rfl

theorem resolveStep_eq_foldSet (db : Db) : resolveStep db = foldSet (resolve db) := by
  funext m c
  unfold resolveStep foldSet resolve
  by_cases h : c.linkprecedence = LinkPrecedence.primary
  · simp [h]
  · simp only [h, if_false]
    cases c.linkedid with
    | none => rfl
    | some l =>
      by_cases hl : l = 0
      · simp [hl]
      · simp only [ne_eq, hl, not_false_eq_true, if_true]

/-! ## Matching and resolution -/

theorem findMatches_eq_filter (db : Db) (req : Request) :
    findMatches db req = db.rows.filter (matchesRow req) := by
  unfold findMatches
  split
  · rfl
  · rename_i h
    symm
    rw [List.filter_eq_nil_iff]
    intro c _ hm
    apply h
    unfold matchesRow at hm
    simp only [Bool.and_eq_true, Bool.or_eq_true] at hm ⊢
    rcases hm.2 with h1 | h1
    · exact Or.inl h1.1
    · exact Or.inr h1.1

theorem mem_findMatches {db : Db} {req : Request} {c : Contact} :
    c ∈ findMatches db req ↔ c ∈ db.rows ∧ matchesRow req c = true := by
  rw [findMatches_eq_filter, List.mem_filter]

theorem matchesRow_live {req : Request} {c : Contact} (h : matchesRow req c = true) :
    live c = true := by
  unfold matchesRow at h
  simp only [Bool.and_eq_true] at h
  exact h.1

theorem findLiveById_some {db : Db} {i : Nat} {p : Contact} (h : findLiveById db i = some p) :
    p ∈ db.rows ∧ p.id = i ∧ live p = true := by
  unfold findLiveById at h
  have hm := List.mem_of_mem_head? h
  simp only [List.mem_filter, Bool.and_eq_true, decide_eq_true_eq] at hm
  exact ⟨hm.1, hm.2.1, hm.2.2⟩

theorem eq_of_id_eq {rows : List Contact} (hn : (rows.map (fun c => c.id)).Nodup)
    {a b : Contact} (ha : a ∈ rows) (hb : b ∈ rows) (h : a.id = b.id) : a = b :=
  List.inj_on_of_nodup_map hn ha hb h

theorem findLiveById_of_mem {db : Db} (hn : (db.rows.map (fun c => c.id)).Nodup)
    {p : Contact} (hp : p ∈ db.rows) (hl : live p = true) : findLiveById db p.id = some p := by
  unfold findLiveById
  have hne : ∃ q, (db.rows.filter (fun c => decide (c.id = p.id) && live c)).head? = some q := by
    cases hh : (db.rows.filter (fun c => decide (c.id = p.id) && live c)) with
    | nil =>
      have : p ∈ db.rows.filter (fun c => decide (c.id = p.id) && live c) := by
        simp [List.mem_filter, hp, hl]
      rw [hh] at this
      cases this
    | cons q qs => exact ⟨q, rfl⟩
  obtain ⟨q, hq⟩ := hne
  rw [hq]
  have hm := List.mem_of_mem_head? hq
  simp only [List.mem_filter, Bool.and_eq_true, decide_eq_true_eq] at hm
  rw [eq_of_id_eq hn hm.1 hp hm.2.1]

theorem resolve_some {db : Db} {c x : Contact} (hc : c ∈ db.rows) (hl : live c = true)
    (h : resolve db c = some x) : x ∈ db.rows ∧ live x = true ∧
      ((c.linkprecedence = LinkPrecedence.primary ∧ x = c) ∨
       (c.linkprecedence ≠ LinkPrecedence.primary ∧ c.linkedid = some x.id ∧ x.id ≠ 0)) := by
  unfold resolve at h
  by_cases hp : c.linkprecedence = LinkPrecedence.primary
  · simp only [hp, if_true, Option.some.injEq] at h
    subst h
    exact ⟨hc, hl, Or.inl ⟨hp, rfl⟩⟩
  · simp only [hp, if_false] at h
    cases hlk : c.linkedid with
    | none => rw [hlk] at h; cases h
    | some l =>
      rw [hlk] at h
      by_cases hl0 : l = 0
      · simp [hl0] at h
      · simp only [ne_eq, hl0, not_false_eq_true, if_true] at h
        obtain ⟨h1, h2, h3⟩ := findLiveById_some h
        exact ⟨h1, h3, Or.inr ⟨hp, by rw [h2], by rw [h2]; exact hl0⟩⟩

theorem mem_uniqueContacts {l : List Contact} {x : Contact} (h : x ∈ uniqueContacts l) :
    x ∈ l := by
  rw [uniqueContacts_eq_foldSet] at h
  rcases mem_foldl_foldSet some l [] x h with h | ⟨c, hc, hg⟩
  · cases h
  · simp only [Option.some.injEq] at hg
    exact hg ▸ hc

theorem uniqueContacts_covers {l : List Contact} {c : Contact} (h : c ∈ l) :
    ∃ y ∈ uniqueContacts l, y.id = c.id := by
  have := foldl_foldSet_covers some l [] c c h rfl
  rw [← uniqueContacts_eq_foldSet] at this
  obtain ⟨y, hy, he⟩ := List.mem_map.1 this
  exact ⟨y, hy, he⟩

theorem uniquePrimaries_eq (db : Db) (req : Request) :
    uniquePrimaries db req =
      (uniqueContacts (findMatches db req)).foldl (foldSet (resolve db)) [] := by
  unfold uniquePrimaries
  rw [resolveStep_eq_foldSet]

/-- Every candidate is resolved from a matched row. -/
theorem mem_uniquePrimaries {db : Db} {req : Request} {x : Contact}
    (h : x ∈ uniquePrimaries db req) :
    ∃ c ∈ findMatches db req, resolve db c = some x := by
  rw [uniquePrimaries_eq] at h
  rcases mem_foldl_foldSet _ _ [] x h with h | ⟨c, hc, hg⟩
  · cases h
  · exact ⟨c, mem_uniqueContacts hc, hg⟩

/-- Every candidate is a live row of the table. -/
theorem uniquePrimaries_rows {db : Db} {req : Request} {x : Contact}
    (h : x ∈ uniquePrimaries db req) : x ∈ db.rows ∧ live x = true := by
  obtain ⟨c, hc, hg⟩ := mem_uniquePrimaries h
  have hc' := mem_findMatches.1 hc
  have := resolve_some hc'.1 (matchesRow_live hc'.2) hg
  exact ⟨this.1, this.2.1⟩

theorem uniquePrimaries_nodup (db : Db) (req : Request) :
    ((uniquePrimaries db req).map (fun c => c.id)).Nodup := by
  rw [uniquePrimaries_eq]
  exact foldl_foldSet_nodup _ _ [] List.nodup_nil

/-- With unique ids, the candidates are exactly what matched rows resolve to. -/
theorem mem_uniquePrimaries_iff {db : Db} (hn : (db.rows.map (fun c => c.id)).Nodup)
    {req : Request} {x : Contact} :
    x ∈ uniquePrimaries db req ↔ ∃ c ∈ findMatches db req, resolve db c = some x := by
  constructor
  · exact mem_uniquePrimaries
  · rintro ⟨c, hc, hg⟩
    obtain ⟨y, hy, hye⟩ := uniqueContacts_covers hc
    have hyM := mem_uniqueContacts hy
    have hy' := mem_findMatches.1 hyM
    have hc' := mem_findMatches.1 hc
    have hyc : y = c := eq_of_id_eq hn hy'.1 hc'.1 hye
    subst hyc
    have := foldl_foldSet_covers (resolve db) _ [] y x hy hg
    rw [← uniquePrimaries_eq db req] at this
    obtain ⟨z, hz, hze⟩ := List.mem_map.1 this
    have hz' := uniquePrimaries_rows hz
    have hx' := resolve_some hc'.1 (matchesRow_live hc'.2) hg
    rw [← eq_of_id_eq hn hz'.1 hx'.1 hze]
    exact hz

/-! ## Sorting the candidates -/

theorem olderOrEq_total (a b : Contact) : olderOrEq a b ∨ olderOrEq b a := by
  unfold olderOrEq; omega

theorem olderOrEq_trans {a b c : Contact} (h1 : olderOrEq a b) (h2 : olderOrEq b c) :
    olderOrEq a c := by
  unfold olderOrEq at *; omega

theorem olderOrEq_refl (a : Contact) : olderOrEq a a := by
  unfold olderOrEq; omega

theorem sortPrimaries_perm (l : List Contact) : (sortPrimaries l).Perm l :=
  List.perm_insertionSort _ l

theorem sortPrimaries_sorted (l : List Contact) : (sortPrimaries l).Sorted olderOrEq := by
  haveI : IsTotal Contact olderOrEq := ⟨olderOrEq_total⟩
  haveI : IsTrans Contact olderOrEq := ⟨fun _ _ _ => olderOrEq_trans⟩
  exact List.sorted_insertionSort _ l

theorem mem_sortPrimaries {l : List Contact} {c : Contact} : c ∈ sortPrimaries l ↔ c ∈ l :=
  (sortPrimaries_perm l).mem_iff

theorem finalPrimaryOf_mem (p0 : Contact) (rest : List Contact) :
    finalPrimaryOf p0 rest ∈ p0 :: rest := by
  unfold finalPrimaryOf
  split
  · cases hs : sortPrimaries (p0 :: rest) with
    | nil => exact List.mem_cons_self _ _
    | cons h t =>
      have : h ∈ sortPrimaries (p0 :: rest) := by rw [hs]; exact List.mem_cons_self _ _
      exact mem_sortPrimaries.1 this
  · exact List.mem_cons_self _ _

theorem finalPrimaryOf_least (p0 : Contact) (rest : List Contact) :
    ∀ c ∈ p0 :: rest, olderOrEq (finalPrimaryOf p0 rest) c := by
  intro c hc
  unfold finalPrimaryOf
  split
  · cases hs : sortPrimaries (p0 :: rest) with
    | nil =>
      have := mem_sortPrimaries.2 hc
      rw [hs] at this
      cases this
    | cons h t =>
      have hsort := sortPrimaries_sorted (p0 :: rest)
      rw [hs] at hsort
      have hmem := mem_sortPrimaries.2 hc
      rw [hs] at hmem
      rcases List.mem_cons.1 hmem with rfl | hm
      · exact olderOrEq_refl _
      · exact List.rel_of_sorted_cons hsort c hm
  · rename_i hlen
    cases rest with
    | nil =>
      rcases List.mem_cons.1 hc with rfl | h
      · exact olderOrEq_refl _
      · cases h
    | cons a l => simp at hlen

theorem finalPrimaryOf_single (p : Contact) : finalPrimaryOf p [] = p := by
  simp [finalPrimaryOf]

/-! ## The merge loop, row by row -/

theorem mergeLoop_rows (clock : Nat → Nat) (f : Nat) (ps : List Contact) :
    ∀ (k : Nat) (rows : List Contact),
      (mergeLoop clock f ps k rows).1 = rows.map (mergeRow clock f ps k) := by
  induction ps with
  | nil => intro k rows; simp [mergeLoop, mergeRow]
  | cons p ps ih =>
    intro k rows
    by_cases h : p.id = f
    · simp only [mergeLoop, mergeRow, h, ne_eq, not_true_eq_false, if_false]
      exact ih k rows
    · simp only [mergeLoop, mergeRow, h, ne_eq, not_false_eq_true, if_true]
      rw [ih]
      simp [repoint, demote, List.map_map, Function.comp_def]

theorem mergeRow_cons_loser (clock : Nat → Nat) {f : Nat} {p : Contact} (ps : List Contact)
    (k : Nat) (c : Contact) (h : p.id ≠ f) :
    mergeRow clock f (p :: ps) k c =
      mergeRow clock f ps (k + 2)
        (repointRow (clock (k + 1)) f p.id (demoteRow (clock k) f p.id c)) := by
  simp [mergeRow, h]

theorem mergeRow_cons_survivor (clock : Nat → Nat) {f : Nat} {p : Contact} (ps : List Contact)
    (k : Nat) (c : Contact) (h : p.id = f) :
    mergeRow clock f (p :: ps) k c = mergeRow clock f ps k c := by
  simp [mergeRow, h]

theorem stepRow_id (t1 t2 f l : Nat) (c : Contact) :
    (repointRow t2 f l (demoteRow t1 f l c)).id = c.id := by
  unfold repointRow demoteRow; split <;> split <;> rfl

theorem stepRow_email (t1 t2 f l : Nat) (c : Contact) :
    (repointRow t2 f l (demoteRow t1 f l c)).email = c.email := by
  unfold repointRow demoteRow; split <;> split <;> rfl

theorem stepRow_phonenumber (t1 t2 f l : Nat) (c : Contact) :
    (repointRow t2 f l (demoteRow t1 f l c)).phonenumber = c.phonenumber := by
  unfold repointRow demoteRow; split <;> split <;> rfl

theorem stepRow_createdat (t1 t2 f l : Nat) (c : Contact) :
    (repointRow t2 f l (demoteRow t1 f l c)).createdat = c.createdat := by
  unfold repointRow demoteRow; split <;> split <;> rfl

theorem stepRow_deletedat (t1 t2 f l : Nat) (c : Contact) :
    (repointRow t2 f l (demoteRow t1 f l c)).deletedat = c.deletedat := by
  unfold repointRow demoteRow; split <;> split <;> rfl

theorem stepRow_linkedid (t1 t2 f l : Nat) (c : Contact) :
    (repointRow t2 f l (demoteRow t1 f l c)).linkedid =
      if c.id = l ∨ c.linkedid = some l then some f else c.linkedid := by
  unfold repointRow demoteRow
  by_cases h1 : c.id = l
  · simp only [h1, if_true, true_or]
    split <;> rfl
  · simp only [h1, if_false, false_or]
    split <;> rfl

theorem stepRow_linkprecedence (t1 t2 f l : Nat) (c : Contact) :
    (repointRow t2 f l (demoteRow t1 f l c)).linkprecedence =
      if c.id = l then LinkPrecedence.secondary else c.linkprecedence := by
  unfold repointRow demoteRow
  by_cases h1 : c.id = l
  · simp only [h1, if_true]
    split <;> rfl
  · simp only [h1, if_false]
    split <;> rfl

theorem stepRow_unchanged (t1 t2 f l : Nat) (c : Contact) (h1 : c.id ≠ l)
    (h2 : c.linkedid ≠ some l) : repointRow t2 f l (demoteRow t1 f l c) = c := by
  unfold repointRow demoteRow
  simp [h1, h2]

theorem mergeRow_id (clock : Nat → Nat) (f : Nat) (ps : List Contact) :
    ∀ (k : Nat) (c : Contact), (mergeRow clock f ps k c).id = c.id := by
  induction ps with
  | nil => intro k c; rfl
  | cons p ps ih =>
    intro k c
    by_cases h : p.id = f
    · rw [mergeRow_cons_survivor clock ps k c h]; exact ih k c
    · rw [mergeRow_cons_loser clock ps k c h, ih, stepRow_id]

theorem mergeRow_email (clock : Nat → Nat) (f : Nat) (ps : List Contact) :
    ∀ (k : Nat) (c : Contact), (mergeRow clock f ps k c).email = c.email := by
  induction ps with
  | nil => intro k c; rfl
  | cons p ps ih =>
    intro k c
    by_cases h : p.id = f
    · rw [mergeRow_cons_survivor clock ps k c h]; exact ih k c
    · rw [mergeRow_cons_loser clock ps k c h, ih, stepRow_email]

theorem mergeRow_phonenumber (clock : Nat → Nat) (f : Nat) (ps : List Contact) :
    ∀ (k : Nat) (c : Contact), (mergeRow clock f ps k c).phonenumber = c.phonenumber := by
  induction ps with
  | nil => intro k c; rfl
  | cons p ps ih =>
    intro k c
    by_cases h : p.id = f
    · rw [mergeRow_cons_survivor clock ps k c h]; exact ih k c
    · rw [mergeRow_cons_loser clock ps k c h, ih, stepRow_phonenumber]

theorem mergeRow_createdat (clock : Nat → Nat) (f : Nat) (ps : List Contact) :
    ∀ (k : Nat) (c : Contact), (mergeRow clock f ps k c).createdat = c.createdat := by
  induction ps with
  | nil => intro k c; rfl
  | cons p ps ih =>
    intro k c
    by_cases h : p.id = f
    · rw [mergeRow_cons_survivor clock ps k c h]; exact ih k c
    · rw [mergeRow_cons_loser clock ps k c h, ih, stepRow_createdat]

theorem mergeRow_deletedat (clock : Nat → Nat) (f : Nat) (ps : List Contact) :
    ∀ (k : Nat) (c : Contact), (mergeRow clock f ps k c).deletedat = c.deletedat := by
  induction ps with
  | nil => intro k c; rfl
  | cons p ps ih =>
    intro k c
    by_cases h : p.id = f
    · rw [mergeRow_cons_survivor clock ps k c h]; exact ih k c
    · rw [mergeRow_cons_loser clock ps k c h, ih, stepRow_deletedat]

theorem mergeRow_live (clock : Nat → Nat) (f : Nat) (ps : List Contact) (k : Nat) (c : Contact) :
    live (mergeRow clock f ps k c) = live c := by
  unfold live; rw [mergeRow_deletedat]

/-- Once a row points at the survivor it keeps doing so. -/
theorem mergeRow_stable (clock : Nat → Nat) (f : Nat) (ps : List Contact) :
    ∀ (k : Nat) (c : Contact), c.linkedid = some f →
      (mergeRow clock f ps k c).linkedid = some f := by
  induction ps with
  | nil => intro k c h; exact h
  | cons p ps ih =>
    intro k c hc
    by_cases h : p.id = f
    · rw [mergeRow_cons_survivor clock ps k c h]; exact ih k c hc
    · rw [mergeRow_cons_loser clock ps k c h]
      apply ih
      rw [stepRow_linkedid]
      split
      · rfl
      · exact hc

theorem mergeRow_linkedid_or (clock : Nat → Nat) (f : Nat) (ps : List Contact) :
    ∀ (k : Nat) (c : Contact), (mergeRow clock f ps k c).linkedid = c.linkedid ∨
      (mergeRow clock f ps k c).linkedid = some f := by
  induction ps with
  | nil => intro k c; exact Or.inl rfl
  | cons p ps ih =>
    intro k c
    by_cases h : p.id = f
    · rw [mergeRow_cons_survivor clock ps k c h]; exact ih k c
    · rw [mergeRow_cons_loser clock ps k c h]
      rcases ih (k + 2) (repointRow (clock (k + 1)) f p.id (demoteRow (clock k) f p.id c))
        with h1 | h1
      · rw [h1, stepRow_linkedid]
        split
        · exact Or.inr rfl
        · exact Or.inl rfl
      · exact Or.inr h1

theorem mergeRow_secondary (clock : Nat → Nat) (f : Nat) (ps : List Contact) :
    ∀ (k : Nat) (c : Contact), c.linkprecedence = LinkPrecedence.secondary →
      (mergeRow clock f ps k c).linkprecedence = LinkPrecedence.secondary := by
  induction ps with
  | nil => intro k c h; exact h
  | cons p ps ih =>
    intro k c hc
    by_cases h : p.id = f
    · rw [mergeRow_cons_survivor clock ps k c h]; exact ih k c hc
    · rw [mergeRow_cons_loser clock ps k c h]
      apply ih
      rw [stepRow_linkprecedence]
      split
      · rfl
      · exact hc

/-- A row whose id is a loser's ends as a secondary of the survivor. -/
theorem mergeRow_loser (clock : Nat → Nat) (f : Nat) (ps : List Contact) :
    ∀ (k : Nat) (c : Contact), (∃ p ∈ ps, p.id ≠ f ∧ c.id = p.id) →
      (mergeRow clock f ps k c).linkedid = some f ∧
      (mergeRow clock f ps k c).linkprecedence = LinkPrecedence.secondary := by
  induction ps with
  | nil => intro k c h; obtain ⟨p, hp, _⟩ := h; cases hp
  | cons p ps ih =>
    intro k c hc
    obtain ⟨q, hq, hqf, hcq⟩ := hc
    by_cases h : p.id = f
    · rw [mergeRow_cons_survivor clock ps k c h]
      rcases List.mem_cons.1 hq with rfl | hq
      · exact absurd h hqf
      · exact ih k c ⟨q, hq, hqf, hcq⟩
    · rw [mergeRow_cons_loser clock ps k c h]
      by_cases hcp : c.id = p.id
      · constructor
        · apply mergeRow_stable
          rw [stepRow_linkedid]
          simp [hcp]
        · apply mergeRow_secondary
          rw [stepRow_linkprecedence]
          simp [hcp]
      · rcases List.mem_cons.1 hq with rfl | hq
        · exact absurd hcq hcp
        · apply ih
          exact ⟨q, hq, hqf, by rw [stepRow_id]; exact hcq⟩

/-- A row that pointed at a loser ends pointing at the survivor. -/
theorem mergeRow_repointed (clock : Nat → Nat) (f : Nat) (ps : List Contact) :
    ∀ (k : Nat) (c : Contact), (∃ p ∈ ps, p.id ≠ f ∧ c.linkedid = some p.id) →
      (mergeRow clock f ps k c).linkedid = some f := by
  induction ps with
  | nil => intro k c h; obtain ⟨p, hp, _⟩ := h; cases hp
  | cons p ps ih =>
    intro k c hc
    obtain ⟨q, hq, hqf, hcq⟩ := hc
    by_cases h : p.id = f
    · rw [mergeRow_cons_survivor clock ps k c h]
      rcases List.mem_cons.1 hq with rfl | hq
      · exact absurd h hqf
      · exact ih k c ⟨q, hq, hqf, hcq⟩
    · rw [mergeRow_cons_loser clock ps k c h]
      by_cases hstep : c.id = p.id ∨ c.linkedid = some p.id
      · apply mergeRow_stable
        rw [stepRow_linkedid]
        simp [hstep]
      · rcases List.mem_cons.1 hq with rfl | hq
        · exact absurd (Or.inr hcq) hstep
        · apply ih
          refine ⟨q, hq, hqf, ?_⟩
          rw [stepRow_linkedid, if_neg hstep]
          exact hcq

/-- A row that neither is a loser nor points at one is left alone. -/
theorem mergeRow_unchanged (clock : Nat → Nat) (f : Nat) (ps : List Contact) :
    ∀ (k : Nat) (c : Contact),
      (∀ p ∈ ps, p.id ≠ f → c.id ≠ p.id ∧ c.linkedid ≠ some p.id) →
      mergeRow clock f ps k c = c := by
  induction ps with
  | nil => intro k c _; rfl
  | cons p ps ih =>
    intro k c hc
    by_cases h : p.id = f
    · rw [mergeRow_cons_survivor clock ps k c h]
      exact ih k c (fun q hq => hc q (List.mem_cons_of_mem _ hq))
    · rw [mergeRow_cons_loser clock ps k c h]
      have := hc p (List.mem_cons_self _ _) h
      rw [stepRow_unchanged _ _ _ _ _ this.1 this.2]
      exact ih _ c (fun q hq => hc q (List.mem_cons_of_mem _ hq))

theorem mergeRow_linkprecedence (clock : Nat → Nat) (f : Nat) (ps : List Contact) :
    ∀ (k : Nat) (c : Contact), (∀ p ∈ ps, p.id ≠ f → c.id ≠ p.id) →
      (mergeRow clock f ps k c).linkprecedence = c.linkprecedence := by
  induction ps with
  | nil => intro k c _; rfl
  | cons p ps ih =>
    intro k c hc
    by_cases h : p.id = f
    · rw [mergeRow_cons_survivor clock ps k c h]
      exact ih k c (fun q hq => hc q (List.mem_cons_of_mem _ hq))
    · rw [mergeRow_cons_loser clock ps k c h]
      have := hc p (List.mem_cons_self _ _) h
      rw [ih, stepRow_linkprecedence]
      · simp [this]
      · intro q hq hqf
        rw [stepRow_id]
        exact hc q (List.mem_cons_of_mem _ hq) hqf

/-- After the loop no row points at a loser. -/
theorem mergeRow_no_loser_link (clock : Nat → Nat) (f : Nat) (ps : List Contact) (k : Nat)
    (c : Contact) {p : Contact} (hp : p ∈ ps) (hpf : p.id ≠ f) :
    (mergeRow clock f ps k c).linkedid ≠ some p.id := by
  by_cases h : ∃ q ∈ ps, q.id ≠ f ∧ c.linkedid = some q.id
  · rw [mergeRow_repointed clock f ps k c h]
    intro e
    exact hpf (Option.some.inj e).symm
  · rcases mergeRow_linkedid_or clock f ps k c with h1 | h1
    · rw [h1]
      intro e
      exact h ⟨p, hp, hpf, e⟩
    · rw [h1]
      intro e
      exact hpf (Option.some.inj e).symm

/-! ## The shape of a call -/

theorem mergeRow_single_survivor (clock : Nat → Nat) (p : Contact) (k : Nat) (c : Contact) :
    mergeRow clock p.id [p] k c = c := by
  simp [mergeRow]

theorem mergeAll_rows (clock : Nat → Nat) (db : Db) (p0 : Contact) (rest : List Contact) :
    (mergeAll clock db p0 rest).1 =
      db.rows.map (mergeRow clock (finalPrimaryOf p0 rest).id (sortPrimaries (p0 :: rest)) 0) := by
  unfold mergeAll
  split
  · exact mergeLoop_rows _ _ _ _ _
  · rename_i hlen
    cases rest with
    | nil =>
      rw [finalPrimaryOf_single]
      have : sortPrimaries [p0] = [p0] := rfl
      rw [this]
      have hid : mergeRow clock p0.id [p0] 0 = id :=
        funext (mergeRow_single_survivor clock p0 0)
      rw [hid, List.map_id]
    | cons a l => simp at hlen

theorem mergeAll_single (clock : Nat → Nat) (db : Db) (p : Contact) :
    mergeAll clock db p [] = (db.rows, 0) := by
  simp [mergeAll]

/-- The row a gap-filling `INSERT` adds. -/
theorem fillGap_cases (ts : Nat) (d : Db) (req : Request) (pid : Nat) :
    (needNewSecondary d.rows req pid = false ∧ fillGap ts d req pid = d) ∨
    (needNewSecondary d.rows req pid = true ∧
      fillGap ts d req pid =
        { rows := d.rows ++ [newRow d.nextId (orNull req.email) (orNull req.phoneNumber)
                               (some pid) LinkPrecedence.secondary ts],
          nextId := d.nextId + 1 }) := by
  unfold fillGap
  cases h : needNewSecondary d.rows req pid
  · exact Or.inl ⟨rfl, by simp⟩
  · exact Or.inr ⟨rfl, by simp [insertContact]⟩

theorem findMatches_ne_nil {db : Db} {req : Request} {p0 : Contact} {rest : List Contact}
    (h : uniquePrimaries db req = p0 :: rest) : findMatches db req ≠ [] := by
  intro hm
  have : p0 ∈ uniquePrimaries db req := by rw [h]; exact List.mem_cons_self _ _
  obtain ⟨c, hc, _⟩ := mem_uniquePrimaries this
  rw [hm] at hc
  cases hc

theorem identify_noMatch (clock : Nat → Nat) {db : Db} {req : Request}
    (h : findMatches db req = []) :
    identify clock db req =
      Except.ok
        ({ primaryContatctId := db.nextId,
           emails := asList req.email,
           phoneNumbers := asList req.phoneNumber,
           secondaryContactIds := [] },
         insertContact db (orNull req.email) (orNull req.phoneNumber) none
           LinkPrecedence.primary (clock 0)) := by
  unfold identify
  simp [h]

theorem identify_candidates (clock : Nat → Nat) {db : Db} {req : Request} {p0 : Contact}
    {rest : List Contact} (h : uniquePrimaries db req = p0 :: rest) :
    identify clock db req =
      Except.ok
        (buildResponse (finalPrimaryOf p0 rest)
          (allLinked
            (fillGap (clock (mergeAll clock db p0 rest).2)
              { rows := (mergeAll clock db p0 rest).1, nextId := db.nextId } req
              (finalPrimaryOf p0 rest).id).rows
            (finalPrimaryOf p0 rest).id),
         fillGap (clock (mergeAll clock db p0 rest).2)
           { rows := (mergeAll clock db p0 rest).1, nextId := db.nextId } req
           (finalPrimaryOf p0 rest).id) := by
  have hm := findMatches_ne_nil h
  unfold identify
  have : ¬ (findMatches db req).length = 0 := by
    intro e; exact hm (List.length_eq_zero.1 e)
  simp only [this, if_false, h]

theorem identify_noCandidate (clock : Nat → Nat) {db : Db} {req : Request}
    (hm : findMatches db req ≠ []) (h : uniquePrimaries db req = []) :
    identify clock db req = Except.error "No primary contact found" := by
  unfold identify
  have : ¬ (findMatches db req).length = 0 := by
    intro e; exact hm (List.length_eq_zero.1 e)
  simp only [this, if_false, h]

theorem mem_allLinked {rows : List Contact} {pid : Nat} {c : Contact} :
    c ∈ allLinked rows pid ↔ c ∈ rows ∧ inCluster pid c = true ∧ live c = true := by
  unfold allLinked
  rw [(List.perm_insertionSort _ _).mem_iff, List.mem_filter, Bool.and_eq_true]

theorem buildResponse_primary (f : Contact) (l : List Contact) :
    (buildResponse f l).primaryContatctId = f.id := rfl

theorem mem_secondaryContactIds {f : Contact} {l : List Contact} {i : Nat} :
    i ∈ (buildResponse f l).secondaryContactIds ↔ ∃ c ∈ l, c.id ≠ f.id ∧ c.id = i := by
  unfold buildResponse
  simp only [List.mem_map, List.mem_filter, decide_eq_true_eq]
  constructor
  · rintro ⟨c, ⟨h1, h2⟩, h3⟩; exact ⟨c, h1, h2, h3⟩
  · rintro ⟨c, h1, h2, h3⟩; exact ⟨c, ⟨h1, h2⟩, h3⟩

/-- What a call on a request with candidates leaves in the table: every old row
after the merge loop, then a new secondary of the survivor when the gap filler
asks for one. -/
theorem identify_shape (clock : Nat → Nat) {db : Db} {req : Request} {p0 : Contact}
    {rest : List Contact} (h : uniquePrimaries db req = p0 :: rest) :
    ∃ (db2 : Db),
      identify clock db req =
        Except.ok (buildResponse (finalPrimaryOf p0 rest)
          (allLinked db2.rows (finalPrimaryOf p0 rest).id), db2) ∧
      ((needNewSecondary (db.rows.map
          (mergeRow clock (finalPrimaryOf p0 rest).id (sortPrimaries (p0 :: rest)) 0)) req
          (finalPrimaryOf p0 rest).id = false ∧
        db2 = { rows := db.rows.map
                  (mergeRow clock (finalPrimaryOf p0 rest).id (sortPrimaries (p0 :: rest)) 0),
                nextId := db.nextId }) ∨
       (needNewSecondary (db.rows.map
          (mergeRow clock (finalPrimaryOf p0 rest).id (sortPrimaries (p0 :: rest)) 0)) req
          (finalPrimaryOf p0 rest).id = true ∧
        ∃ ts, db2 =
          { rows := db.rows.map
              (mergeRow clock (finalPrimaryOf p0 rest).id (sortPrimaries (p0 :: rest)) 0) ++
              [newRow db.nextId (orNull req.email) (orNull req.phoneNumber)
                (some (finalPrimaryOf p0 rest).id) LinkPrecedence.secondary ts],
            nextId := db.nextId + 1 })) := by
  rw [identify_candidates clock h]
  rcases fillGap_cases (clock (mergeAll clock db p0 rest).2)
    { rows := (mergeAll clock db p0 rest).1, nextId := db.nextId } req
    (finalPrimaryOf p0 rest).id with ⟨h1, h2⟩ | ⟨h1, h2⟩
  · refine ⟨_, rfl, Or.inl ⟨?_, ?_⟩⟩
    · rw [← mergeAll_rows]; exact h1
    · rw [h2, mergeAll_rows]
  · refine ⟨_, rfl, Or.inr ⟨?_, clock (mergeAll clock db p0 rest).2, ?_⟩⟩
    · rw [← mergeAll_rows]; exact h1
    · rw [h2, mergeAll_rows]

/-- The rows of the table after a call on a request with candidates. -/
theorem identify_rows (clock : Nat → Nat) {db : Db} {req : Request} {p0 : Contact}
    {rest : List Contact} (h : uniquePrimaries db req = p0 :: rest) :
    ∃ (db2 : Db) (extra : List Contact),
      identify clock db req =
        Except.ok (buildResponse (finalPrimaryOf p0 rest)
          (allLinked db2.rows (finalPrimaryOf p0 rest).id), db2) ∧
      db2.rows = db.rows.map
        (mergeRow clock (finalPrimaryOf p0 rest).id (sortPrimaries (p0 :: rest)) 0) ++ extra ∧
      ∀ c ∈ extra, c.id = db.nextId ∧ c.linkedid = some (finalPrimaryOf p0 rest).id ∧
        c.linkprecedence = LinkPrecedence.secondary ∧ c.deletedat = none ∧
        c.email = orNull req.email ∧ c.phonenumber = orNull req.phoneNumber := by
  obtain ⟨db2, hid, hcase⟩ := identify_shape clock h
  rcases hcase with ⟨_, h2⟩ | ⟨_, ts, h2⟩
  · refine ⟨db2, [], hid, ?_, ?_⟩
    · rw [h2, List.append_nil]
    · intro c hc; cases hc
  · refine ⟨db2, _, hid, by rw [h2], ?_⟩
    intro c hc
    rw [List.mem_singleton] at hc
    subst hc
    exact ⟨rfl, rfl, rfl, rfl, rfl, rfl⟩

/-! ## Survivor selection and the merge (C1, C2) -/

/-- In a well-formed table every candidate is a live primary row. -/
theorem uniquePrimaries_primary {db : Db} (hwf : WellFormed db) {req : Request} {x : Contact}
    (h : x ∈ uniquePrimaries db req) :
    x.linkprecedence = LinkPrecedence.primary ∧ x.linkedid = none := by
  obtain ⟨c, hc, hg⟩ := mem_uniquePrimaries h
  have hc' := mem_findMatches.1 hc
  have hcl := matchesRow_live hc'.2
  obtain ⟨hx, hxl, hcase⟩ := resolve_some hc'.1 hcl hg
  rcases hcase with ⟨hp, rfl⟩ | ⟨hnp, hlk, _⟩
  · rcases hwf.2 x hx hxl with h1 | h1
    · exact h1
    · rw [hp] at h1; cases h1.1
  · rcases hwf.2 c hc'.1 hcl with h1 | ⟨_, p, hp, hpl, hpp, hcp⟩
    · exact absurd h1.1 hnp
    · rw [hlk] at hcp
      have : x = p := eq_of_id_eq hwf.1 hx hp (Option.some.inj hcp)
      subst this
      rcases hwf.2 x hx hxl with h1 | h1
      · exact h1
      · rw [hpp] at h1; cases h1.1

/-- C1: in a well-formed table, when the matched contacts resolve to two or more
candidate primaries, the call succeeds, the returned primary id is that of the
candidate that is least by creation time and then id (strictly below every
other candidate), and every other candidate's id is among the returned
secondary ids. -/
theorem C1_merge_picks_eldest (clock : Nat → Nat) (db : Db) (req : Request)
    (hwf : WellFormed db) (h : 2 ≤ (uniquePrimaries db req).length) :
    ∃ (resp : Response) (db' : Db) (s : Contact),
      identify clock db req = Except.ok (resp, db') ∧
      s ∈ uniquePrimaries db req ∧
      s.linkprecedence = LinkPrecedence.primary ∧
      (∀ c ∈ uniquePrimaries db req, olderOrEq s c) ∧
      (∀ c ∈ uniquePrimaries db req, c ≠ s → ¬ olderOrEq c s) ∧
      resp.primaryContatctId = s.id ∧
      ∀ c ∈ uniquePrimaries db req, c ≠ s → c.id ∈ resp.secondaryContactIds := by
  cases hP : uniquePrimaries db req with
  | nil => rw [hP] at h; simp at h
  | cons p0 rest =>
    obtain ⟨db2, extra, hid, hrows, _⟩ := identify_rows clock hP
    have hfm : finalPrimaryOf p0 rest ∈ uniquePrimaries db req := by
      rw [hP]; exact finalPrimaryOf_mem p0 rest
    have hne : ∀ c ∈ uniquePrimaries db req, c ≠ finalPrimaryOf p0 rest →
        c.id ≠ (finalPrimaryOf p0 rest).id := by
      intro c hc hcs hidEq
      exact hcs (eq_of_id_eq hwf.1 (uniquePrimaries_rows hc).1 (uniquePrimaries_rows hfm).1 hidEq)
    refine ⟨_, db2, finalPrimaryOf p0 rest, hid, ?_, ?_, ?_, ?_, rfl, ?_⟩
    · rw [← hP]; exact hfm
    · exact (uniquePrimaries_primary hwf hfm).1
    · intro c hc
      exact finalPrimaryOf_least p0 rest c hc
    · intro c hc hcs hle
      rw [← hP] at hc
      have hle' := finalPrimaryOf_least p0 rest c (hP ▸ hc)
      apply hne c hc hcs
      unfold olderOrEq at hle hle'
      omega
    · intro c hc hcs
      rw [← hP] at hc
      have hcid := hne c hc hcs
      rw [mem_secondaryContactIds]
      refine ⟨mergeRow clock (finalPrimaryOf p0 rest).id (sortPrimaries (p0 :: rest)) 0 c,
        ?_, ?_, ?_⟩
      · rw [mem_allLinked]
        refine ⟨?_, ?_, ?_⟩
        · rw [hrows]
          exact List.mem_append_left _ (List.mem_map_of_mem _ (uniquePrimaries_rows hc).1)
        · have := (mergeRow_loser clock (finalPrimaryOf p0 rest).id
            (sortPrimaries (p0 :: rest)) 0 c
            ⟨c, mem_sortPrimaries.2 (hP ▸ hc), hcid, rfl⟩).1
          unfold inCluster
          simp [this]
        · rw [mergeRow_live]; exact (uniquePrimaries_rows hc).2
      · rw [mergeRow_id]; exact hcid
      · rw [mergeRow_id]

/-- C1 at a sample: two independent primaries linked by one request. -/
theorem C1_merge_picks_eldest_witness :
    WellFormed twoPrimaries ∧ 2 ≤ (uniquePrimaries twoPrimaries linkingRequest).length ∧
    ∃ (resp : Response) (db' : Db) (s : Contact),
      identify sampleClock twoPrimaries linkingRequest = Except.ok (resp, db') ∧
      s ∈ uniquePrimaries twoPrimaries linkingRequest ∧
      s.linkprecedence = LinkPrecedence.primary ∧
      (∀ c ∈ uniquePrimaries twoPrimaries linkingRequest, olderOrEq s c) ∧
      (∀ c ∈ uniquePrimaries twoPrimaries linkingRequest, c ≠ s → ¬ olderOrEq c s) ∧
      resp.primaryContatctId = s.id ∧
      ∀ c ∈ uniquePrimaries twoPrimaries linkingRequest, c ≠ s →
        c.id ∈ resp.secondaryContactIds :=
  ⟨by decide, by decide,
    C1_merge_picks_eldest sampleClock twoPrimaries linkingRequest (by decide) (by decide)⟩

/-- C2: on every table, when a call merges (two or more candidates), it succeeds
and, for each losing candidate `P` (a candidate other than the returned
primary): the rows with `P`'s id are still there, now secondaries linked to the
survivor; every row that pointed at `P` before the call points at the survivor
after it; and no row of the resulting table points at `P`. -/
theorem C2_merge_relinks (clock : Nat → Nat) (db : Db) (req : Request)
    (h : 2 ≤ (uniquePrimaries db req).length) :
    ∃ (resp : Response) (db' : Db),
      identify clock db req = Except.ok (resp, db') ∧
      (∃ s ∈ uniquePrimaries db req, s.id = resp.primaryContatctId) ∧
      ∀ P ∈ uniquePrimaries db req, P.id ≠ resp.primaryContatctId →
        (∃ c ∈ db'.rows, c.id = P.id) ∧
        (∀ c ∈ db'.rows, c.id = P.id →
          c.linkprecedence = LinkPrecedence.secondary ∧
          c.linkedid = some resp.primaryContatctId) ∧
        (∀ (i : Nat) (c : Contact), db.rows[i]? = some c → c.linkedid = some P.id →
          ∃ c', db'.rows[i]? = some c' ∧ c'.id = c.id ∧
            c'.linkedid = some resp.primaryContatctId) ∧
        (∀ c ∈ db'.rows, c.linkedid ≠ some P.id) := by
  cases hP : uniquePrimaries db req with
  | nil => rw [hP] at h; simp at h
  | cons p0 rest =>
    obtain ⟨db2, extra, hid, hrows, hextra⟩ := identify_rows clock hP
    refine ⟨_, db2, hid, ⟨finalPrimaryOf p0 rest, finalPrimaryOf_mem p0 rest, rfl⟩, ?_⟩
    intro P hPm hPf
    rw [buildResponse_primary] at hPf ⊢
    have hPs : P ∈ sortPrimaries (p0 :: rest) := mem_sortPrimaries.2 hPm
    have hProws : P ∈ db.rows := (uniquePrimaries_rows (hP ▸ hPm)).1
    refine ⟨?_, ?_, ?_, ?_⟩
    · refine ⟨mergeRow clock (finalPrimaryOf p0 rest).id (sortPrimaries (p0 :: rest)) 0 P,
        ?_, mergeRow_id _ _ _ _ _⟩
      rw [hrows]
      exact List.mem_append_left _ (List.mem_map_of_mem _ hProws)
    · intro c hc hcid
      rw [hrows] at hc
      rcases List.mem_append.1 hc with hc | hc
      · obtain ⟨c0, _, rfl⟩ := List.mem_map.1 hc
        rw [mergeRow_id] at hcid
        have := mergeRow_loser clock (finalPrimaryOf p0 rest).id
          (sortPrimaries (p0 :: rest)) 0 c0 ⟨P, hPs, hPf, hcid⟩
        exact ⟨this.2, this.1⟩
      · have := hextra c hc
        exact ⟨this.2.2.1, this.2.1⟩
    · intro i c hi hlk
      refine ⟨mergeRow clock (finalPrimaryOf p0 rest).id (sortPrimaries (p0 :: rest)) 0 c,
        ?_, mergeRow_id _ _ _ _ _, ?_⟩
      · rw [hrows]
        have hlt : i < db.rows.length := (List.getElem?_eq_some_iff.1 hi).1
        rw [List.getElem?_append_left (by simpa using hlt), List.getElem?_map, hi]
        rfl
      · exact mergeRow_repointed clock _ _ 0 c ⟨P, hPs, hPf, hlk⟩
    · intro c hc
      rw [hrows] at hc
      rcases List.mem_append.1 hc with hc | hc
      · obtain ⟨c0, _, rfl⟩ := List.mem_map.1 hc
        exact mergeRow_no_loser_link clock _ _ 0 c0 hPs hPf
      · rw [(hextra c hc).2.1]
        intro e
        exact hPf (Option.some.inj e).symm

/-- C2 at a sample: contact 2 loses to contact 1. -/
theorem C2_merge_relinks_witness :
    2 ≤ (uniquePrimaries twoPrimaries linkingRequest).length ∧
    ∃ (resp : Response) (db' : Db),
      identify sampleClock twoPrimaries linkingRequest = Except.ok (resp, db') ∧
      (∃ s ∈ uniquePrimaries twoPrimaries linkingRequest, s.id = resp.primaryContatctId) ∧
      ∀ P ∈ uniquePrimaries twoPrimaries linkingRequest, P.id ≠ resp.primaryContatctId →
        (∃ c ∈ db'.rows, c.id = P.id) ∧
        (∀ c ∈ db'.rows, c.id = P.id →
          c.linkprecedence = LinkPrecedence.secondary ∧
          c.linkedid = some resp.primaryContatctId) ∧
        (∀ (i : Nat) (c : Contact), twoPrimaries.rows[i]? = some c → c.linkedid = some P.id →
          ∃ c', db'.rows[i]? = some c' ∧ c'.id = c.id ∧
            c'.linkedid = some resp.primaryContatctId) ∧
        (∀ c ∈ db'.rows, c.linkedid ≠ some P.id) :=
  ⟨by decide, C2_merge_relinks sampleClock twoPrimaries linkingRequest (by decide)⟩

/-! ## The no-match path (C4, C5) -/

theorem truthy_iff {v : Option String} : truthy v = true ↔ ∃ s, v = some s ∧ s ≠ "" := by
  cases v with
  | none => simp [truthy]
  | some s => simp [truthy]

theorem matchesRow_iff {req : Request} {c : Contact} :
    matchesRow req c = true ↔
      c.deletedat = none ∧
      ((∃ e, req.email = some e ∧ e ≠ "" ∧ c.email = some e) ∨
       (∃ p, req.phoneNumber = some p ∧ p ≠ "" ∧ c.phonenumber = some p)) := by
  unfold matchesRow live
  simp only [Bool.and_eq_true, Bool.or_eq_true, decide_eq_true_eq, Option.isNone_iff_eq_none,
    truthy_iff]
  constructor
  · rintro ⟨h1, h2⟩
    refine ⟨h1, ?_⟩
    rcases h2 with ⟨⟨e, he, hne⟩, hc⟩ | ⟨⟨p, hp, hne⟩, hc⟩
    · exact Or.inl ⟨e, he, hne, by rw [hc, he]⟩
    · exact Or.inr ⟨p, hp, hne, by rw [hc, hp]⟩
  · rintro ⟨h1, h2⟩
    refine ⟨h1, ?_⟩
    rcases h2 with ⟨e, he, hne, hc⟩ | ⟨p, hp, hne, hc⟩
    · exact Or.inl ⟨⟨e, he, hne⟩, by rw [hc, he]⟩
    · exact Or.inr ⟨⟨p, hp, hne⟩, by rw [hc, hp]⟩

theorem findMatches_eq_nil_iff {db : Db} {req : Request} :
    findMatches db req = [] ↔ ∀ c ∈ db.rows, matchesRow req c = false := by
  rw [findMatches_eq_filter, List.filter_eq_nil_iff]
  simp

theorem orNull_of_truthy {v : Option String} (h : truthy v = true) : orNull v = v := by
  simp [orNull, h]

theorem orNull_of_falsy {v : Option String} (h : truthy v = false) : orNull v = none := by
  simp [orNull, h]

theorem asList_of_some {s : String} (h : s ≠ "") : asList (some s) = [s] := by
  simp [asList, h]

theorem asList_of_falsy {v : Option String} (h : truthy v = false) : asList v = [] := by
  cases v with
  | none => rfl
  | some s =>
    simp only [truthy, decide_eq_false_iff_not, ne_eq, not_not] at h
    simp [asList, h]

/-- C4: on every table, for a request with at least one non-blank identifier that
no live contact carries, the call succeeds, appends exactly one row and leaves
the old rows as they were; the new row is a live primary with null `linkedId`
holding the request's non-blank fields (null for the others), and the answer
names the new row's id, the non-blank email and phone, and no secondary. -/
theorem C4_no_match_creates_primary (clock : Nat → Nat) (db : Db) (req : Request)
    (_hid : truthy req.email = true ∨ truthy req.phoneNumber = true)
    (hno : ∀ c ∈ db.rows, c.deletedat = none →
      ¬ (truthy req.email = true ∧ c.email = req.email) ∧
      ¬ (truthy req.phoneNumber = true ∧ c.phonenumber = req.phoneNumber)) :
    ∃ (resp : Response) (db' : Db) (new : Contact),
      identify clock db req = Except.ok (resp, db') ∧
      db'.rows = db.rows ++ [new] ∧
      new.linkprecedence = LinkPrecedence.primary ∧ new.linkedid = none ∧
      new.deletedat = none ∧
      (∀ e, req.email = some e → e ≠ "" → new.email = some e ∧ resp.emails = [e]) ∧
      (truthy req.email = false → new.email = none ∧ resp.emails = []) ∧
      (∀ p, req.phoneNumber = some p → p ≠ "" →
        new.phonenumber = some p ∧ resp.phoneNumbers = [p]) ∧
      (truthy req.phoneNumber = false → new.phonenumber = none ∧ resp.phoneNumbers = []) ∧
      resp.primaryContatctId = new.id ∧
      resp.secondaryContactIds = [] := by
  have hm : findMatches db req = [] := by
    rw [findMatches_eq_nil_iff]
    intro c hc
    cases hmr : matchesRow req c with
    | false => rfl
    | true =>
      unfold matchesRow live at hmr
      simp only [Bool.and_eq_true, Bool.or_eq_true, decide_eq_true_eq,
        Option.isNone_iff_eq_none] at hmr
      have := hno c hc hmr.1
      rcases hmr.2 with h1 | h1
      · exact absurd h1 this.1
      · exact absurd h1 this.2
  refine ⟨_, _, _, identify_noMatch clock hm, rfl, rfl, rfl, rfl, ?_, ?_, ?_, ?_, rfl, rfl⟩
  · intro e he hne
    have ht : truthy req.email = true := truthy_iff.2 ⟨e, he, hne⟩
    exact ⟨by show orNull req.email = some e; rw [orNull_of_truthy ht, he],
      by show asList req.email = [e]; rw [he, asList_of_some hne]⟩
  · intro ht
    exact ⟨orNull_of_falsy ht, asList_of_falsy ht⟩
  · intro p hp hne
    have ht : truthy req.phoneNumber = true := truthy_iff.2 ⟨p, hp, hne⟩
    exact ⟨by show orNull req.phoneNumber = some p; rw [orNull_of_truthy ht, hp],
      by show asList req.phoneNumber = [p]; rw [hp, asList_of_some hne]⟩
  · intro ht
    exact ⟨orNull_of_falsy ht, asList_of_falsy ht⟩

/-- C4 at a sample: a request on the empty table. -/
theorem C4_no_match_creates_primary_witness :
    (truthy (some "a@x.com") = true ∨ truthy (some "111") = true) ∧
    ∃ (resp : Response) (db' : Db) (new : Contact),
      identify sampleClock { rows := [], nextId := 1 }
        { email := some "a@x.com", phoneNumber := some "111" } = Except.ok (resp, db') ∧
      db'.rows = [] ++ [new] ∧
      new.linkprecedence = LinkPrecedence.primary ∧ new.linkedid = none ∧
      new.deletedat = none ∧
      (∀ e, some "a@x.com" = some e → e ≠ "" → new.email = some e ∧ resp.emails = [e]) ∧
      (truthy (some "a@x.com") = false → new.email = none ∧ resp.emails = []) ∧
      (∀ p, some "111" = some p → p ≠ "" →
        new.phonenumber = some p ∧ resp.phoneNumbers = [p]) ∧
      (truthy (some "111") = false → new.phonenumber = none ∧ resp.phoneNumbers = []) ∧
      resp.primaryContatctId = new.id ∧
      resp.secondaryContactIds = [] :=
  ⟨by decide,
    C4_no_match_creates_primary sampleClock { rows := [], nextId := 1 }
      { email := some "a@x.com", phoneNumber := some "111" } (by decide)
      (by intro c hc; cases hc)⟩

/-- C5: on every table and for every request, the call adds a row with
`linkPrecedence = primary` exactly when no live row carries the request's
non-blank email or its non-blank phone, compared as whole strings; and the rows
the match query returns are exactly the rows with `deletedAt` null whose email
is the request's non-blank email or whose phone is its non-blank phone, so
tombstoned rows and rows whose strings differ play no part. -/
theorem C5_primary_iff_no_live_match (clock : Nat → Nat) (db : Db) (req : Request) :
    ((∃ (resp : Response) (db' : Db) (new : Contact),
        identify clock db req = Except.ok (resp, db') ∧
        new ∈ db'.rows.drop db.rows.length ∧
        new.linkprecedence = LinkPrecedence.primary) ↔
     ¬ ∃ c ∈ db.rows, c.deletedat = none ∧
        ((∃ e, req.email = some e ∧ e ≠ "" ∧ c.email = some e) ∨
         (∃ p, req.phoneNumber = some p ∧ p ≠ "" ∧ c.phonenumber = some p))) ∧
    (∀ c, c ∈ findMatches db req ↔
      c ∈ db.rows ∧ c.deletedat = none ∧
        ((∃ e, req.email = some e ∧ e ≠ "" ∧ c.email = some e) ∨
         (∃ p, req.phoneNumber = some p ∧ p ≠ "" ∧ c.phonenumber = some p))) := by
  refine ⟨⟨?_, ?_⟩, ?_⟩
  · rintro ⟨resp, db', new, hid, hnew, hprim⟩ ⟨c, hc, hmatch⟩
    have hcm : c ∈ findMatches db req := mem_findMatches.2 ⟨hc, matchesRow_iff.2 hmatch⟩
    have hne : findMatches db req ≠ [] := List.ne_nil_of_mem hcm
    cases hP : uniquePrimaries db req with
    | nil =>
      rw [identify_noCandidate clock hne hP] at hid
      cases hid
    | cons p0 rest =>
      obtain ⟨db2, extra, hid2, hrows, hextra⟩ := identify_rows clock hP
      rw [hid2] at hid
      injection hid with hid
      injection hid with _ hdb
      subst hdb
      rw [hrows, List.drop_left' (by simp)] at hnew
      have := (hextra new hnew).2.2.1
      rw [this] at hprim
      cases hprim
  · intro hno
    have hm : findMatches db req = [] := by
      rw [findMatches_eq_nil_iff]
      intro c hc
      cases hmr : matchesRow req c with
      | false => rfl
      | true => exact absurd ⟨c, hc, matchesRow_iff.1 hmr⟩ hno
    refine ⟨_, _, newRow db.nextId (orNull req.email) (orNull req.phoneNumber) none
        LinkPrecedence.primary (clock 0), identify_noMatch clock hm, ?_, rfl⟩
    simp [insertContact]
  · intro c
    rw [mem_findMatches, matchesRow_iff]

/-! ## Clusters of a well-formed table -/

theorem inCluster_iff {pid : Nat} {c : Contact} :
    inCluster pid c = true ↔ c.id = pid ∨ c.linkedid = some pid := by
  unfold inCluster
  simp

/-- In a well-formed table with non-zero ids, a live row of the cluster of the
live primary `p` resolves to `p`. -/
theorem resolve_of_inCluster {db : Db} (hwf : WellFormed db) (hpos : ∀ c ∈ db.rows, 0 < c.id)
    {p c : Contact} (hp : p ∈ db.rows) (hpl : live p = true)
    (hpp : p.linkprecedence = LinkPrecedence.primary)
    (hc : c ∈ db.rows) (hcl : live c = true) (hin : inCluster p.id c = true) :
    resolve db c = some p := by
  rcases inCluster_iff.1 hin with hid | hlk
  · have : c = p := eq_of_id_eq hwf.1 hc hp hid
    subst this
    simp [resolve, hpp]
  · rcases hwf.2 c hc hcl with h1 | h1
    · rw [h1.2] at hlk; cases hlk
    · have hnp : c.linkprecedence ≠ LinkPrecedence.primary := by rw [h1.1]; decide
      have hp0 : p.id ≠ 0 := Nat.pos_iff_ne_zero.1 (hpos p hp)
      unfold resolve
      simp only [hnp, if_false, hlk, ne_eq, hp0, not_false_eq_true, if_true]
      exact findLiveById_of_mem hwf.1 hp hpl

/-- In a well-formed table with non-zero ids every live row resolves to the live
primary of its cluster. -/
theorem resolve_wf {db : Db} (hwf : WellFormed db) (hpos : ∀ c ∈ db.rows, 0 < c.id)
    {c : Contact} (hc : c ∈ db.rows) (hcl : live c = true) :
    ∃ p, resolve db c = some p ∧ p ∈ db.rows ∧ live p = true ∧
      p.linkprecedence = LinkPrecedence.primary ∧ p.linkedid = none ∧
      inCluster p.id c = true := by
  rcases hwf.2 c hc hcl with h1 | ⟨_, p, hp, hpl, hpp, hlk⟩
  · have hin : inCluster c.id c = true := inCluster_iff.2 (Or.inl rfl)
    exact ⟨c, resolve_of_inCluster hwf hpos hc hcl h1.1 hc hcl hin, hc, hcl, h1.1, h1.2, hin⟩
  · have hin : inCluster p.id c = true := inCluster_iff.2 (Or.inr hlk)
    refine ⟨p, resolve_of_inCluster hwf hpos hp hpl hpp hc hcl hin, hp, hpl, hpp, ?_, hin⟩
    rcases hwf.2 p hp hpl with h1 | h1
    · exact h1.2
    · rw [hpp] at h1; cases h1.1

/-- A matched row of a well-formed table has its primary among the candidates. -/
theorem candidate_of_match {db : Db} (hwf : WellFormed db) (hpos : ∀ c ∈ db.rows, 0 < c.id)
    {req : Request} {c : Contact} (hc : c ∈ findMatches db req) :
    ∃ p ∈ uniquePrimaries db req, resolve db c = some p ∧ inCluster p.id c = true := by
  have hc' := mem_findMatches.1 hc
  obtain ⟨p, hr, _, _, _, _, hin⟩ := resolve_wf hwf hpos hc'.1 (matchesRow_live hc'.2)
  exact ⟨p, (mem_uniquePrimaries_iff hwf.1).2 ⟨c, hc, hr⟩, hr, hin⟩

theorem uniquePrimaries_ne_nil {db : Db} (hwf : WellFormed db)
    (hpos : ∀ c ∈ db.rows, 0 < c.id) {req : Request} (hne : findMatches db req ≠ []) :
    uniquePrimaries db req ≠ [] := by
  obtain ⟨c, hc⟩ := List.exists_mem_of_ne_nil _ hne
  obtain ⟨p, hp, _⟩ := candidate_of_match hwf hpos hc
  exact List.ne_nil_of_mem hp

/-! ## The gap filler's decision -/

theorem needNewSecondary_eq_false_iff {rows : List Contact} {req : Request} {pid : Nat} :
    needNewSecondary rows req pid = false ↔
      ((truthy req.email = true ∨ truthy req.phoneNumber = true) →
        ∃ c ∈ rows, live c = true ∧ inCluster pid c = true ∧
          (truthy req.email = true → c.email = req.email) ∧
          (truthy req.phoneNumber = true → c.phonenumber = req.phoneNumber)) := by
  unfold needNewSecondary
  cases he : truthy req.email <;> cases hp : truthy req.phoneNumber
  · simp
  · simp only [Bool.false_and, Bool.not_false, Bool.and_self, if_true, if_false,
      Bool.false_eq_true, false_or, forall_const, false_implies, true_and]
    constructor
    · intro h
      have hne : (rows.filter (fun c => decide (c.phonenumber = req.phoneNumber) && live c &&
          inCluster pid c)) ≠ [] := by
        intro e; rw [e] at h; simp at h
      obtain ⟨c, hc⟩ := List.exists_mem_of_ne_nil _ hne
      simp only [List.mem_filter, Bool.and_eq_true, decide_eq_true_eq] at hc
      exact ⟨c, hc.1, hc.2.1.2, hc.2.2, hc.2.1.1⟩
    · rintro ⟨c, hc, hl, hin, hph⟩
      have : c ∈ rows.filter (fun c => decide (c.phonenumber = req.phoneNumber) && live c &&
          inCluster pid c) := by
        simp only [List.mem_filter, Bool.and_eq_true, decide_eq_true_eq]
        exact ⟨hc, ⟨hph, hl⟩, hin⟩
      cases hf : rows.filter (fun c => decide (c.phonenumber = req.phoneNumber) && live c &&
          inCluster pid c) with
      | nil => rw [hf] at this; cases this
      | cons a l => simp
  · simp only [Bool.true_and, Bool.not_false, Bool.and_self, Bool.and_false, if_true, if_false,
      Bool.false_eq_true, or_false, forall_const, false_implies, and_true]
    constructor
    · intro h
      have hne : (rows.filter (fun c => decide (c.email = req.email) && live c &&
          inCluster pid c)) ≠ [] := by
        intro e; rw [e] at h; simp at h
      obtain ⟨c, hc⟩ := List.exists_mem_of_ne_nil _ hne
      simp only [List.mem_filter, Bool.and_eq_true, decide_eq_true_eq] at hc
      exact ⟨c, hc.1, hc.2.1.2, hc.2.2, hc.2.1.1⟩
    · rintro ⟨c, hc, hl, hin, hem⟩
      have : c ∈ rows.filter (fun c => decide (c.email = req.email) && live c &&
          inCluster pid c) := by
        simp only [List.mem_filter, Bool.and_eq_true, decide_eq_true_eq]
        exact ⟨hc, ⟨hem, hl⟩, hin⟩
      cases hf : rows.filter (fun c => decide (c.email = req.email) && live c &&
          inCluster pid c) with
      | nil => rw [hf] at this; cases this
      | cons a l => simp
  · simp only [Bool.and_self, if_true, or_self, forall_const]
    constructor
    · intro h
      have hne : (rows.filter (fun c => decide (c.email = req.email) &&
          decide (c.phonenumber = req.phoneNumber) && live c && inCluster pid c)) ≠ [] := by
        intro e; rw [e] at h; simp at h
      obtain ⟨c, hc⟩ := List.exists_mem_of_ne_nil _ hne
      simp only [List.mem_filter, Bool.and_eq_true, decide_eq_true_eq] at hc
      exact ⟨c, hc.1, hc.2.1.2, hc.2.2, hc.2.1.1.1, hc.2.1.1.2⟩
    · rintro ⟨c, hc, hl, hin, hem, hph⟩
      have : c ∈ rows.filter (fun c => decide (c.email = req.email) &&
          decide (c.phonenumber = req.phoneNumber) && live c && inCluster pid c) := by
        simp only [List.mem_filter, Bool.and_eq_true, decide_eq_true_eq]
        exact ⟨hc, ⟨⟨hem, hph⟩, hl⟩, hin⟩
      cases hf : rows.filter (fun c => decide (c.email = req.email) &&
          decide (c.phonenumber = req.phoneNumber) && live c && inCluster pid c) with
      | nil => rw [hf] at this; cases this
      | cons a l => simp

/-! ## A call that writes nothing -/

/-- In a well-formed table with non-zero ids: when every matched row lies in the
cluster of the live primary `p` and the gap filler finds what it looks for, the
call answers from the table as it is and writes nothing. -/
theorem identify_noop (clock : Nat → Nat) {db : Db} {req : Request} {p : Contact}
    (hwf : WellFormed db) (hpos : ∀ c ∈ db.rows, 0 < c.id)
    (hp : p ∈ db.rows) (hpl : live p = true) (hpp : p.linkprecedence = LinkPrecedence.primary)
    (hne : findMatches db req ≠ [])
    (hall : ∀ m ∈ findMatches db req, inCluster p.id m = true)
    (hneed : needNewSecondary db.rows req p.id = false) :
    identify clock db req = Except.ok (buildResponse p (allLinked db.rows p.id), db) := by
  have hres : ∀ m ∈ uniqueContacts (findMatches db req), resolve db m = some p := by
    intro m hm
    have hm' := mem_uniqueContacts hm
    have hm'' := mem_findMatches.1 hm'
    exact resolve_of_inCluster hwf hpos hp hpl hpp hm''.1 (matchesRow_live hm''.2) (hall m hm')
  have hune : uniqueContacts (findMatches db req) ≠ [] := by
    obtain ⟨c, hc⟩ := List.exists_mem_of_ne_nil _ hne
    obtain ⟨y, hy, _⟩ := uniqueContacts_covers hc
    exact List.ne_nil_of_mem hy
  have hP : uniquePrimaries db req = [p] := by
    rw [uniquePrimaries_eq]
    exact foldl_foldSet_const_nil _ p _ hune hres
  rw [identify_candidates clock hP]
  simp only [finalPrimaryOf_single, mergeAll_single]
  rcases fillGap_cases (clock 0) { rows := db.rows, nextId := db.nextId } req p.id
    with ⟨_, h2⟩ | ⟨h1, _⟩
  · rw [h2]
  · rw [hneed] at h1; cases h1

/-! ## The merge on a well-formed table -/

/-- A live row whose primary is a candidate ends in the survivor's cluster. -/
theorem mergeRow_inCluster (clock : Nat → Nat) {db : Db} {p0 : Contact} {rest : List Contact}
    {c p : Contact} (hc : c ∈ db.rows) (hcl : live c = true) (hp : p ∈ p0 :: rest)
    (hr : resolve db c = some p) :
    inCluster (finalPrimaryOf p0 rest).id
      (mergeRow clock (finalPrimaryOf p0 rest).id (sortPrimaries (p0 :: rest)) 0 c) = true := by
  obtain ⟨_, _, hcase⟩ := resolve_some hc hcl hr
  have hps : p ∈ sortPrimaries (p0 :: rest) := mem_sortPrimaries.2 hp
  rw [inCluster_iff]
  by_cases hpf : p.id = (finalPrimaryOf p0 rest).id
  · rcases hcase with ⟨_, rfl⟩ | ⟨_, hlk, _⟩
    · left; rw [mergeRow_id]; exact hpf
    · right; apply mergeRow_stable; rw [hlk, hpf]
  · rcases hcase with ⟨_, rfl⟩ | ⟨_, hlk, _⟩
    · right; exact (mergeRow_loser clock _ _ 0 p ⟨p, hps, hpf, rfl⟩).1
    · right; exact mergeRow_repointed clock _ _ 0 c ⟨p, hps, hpf, hlk⟩

/-- A live row whose primary is not a candidate is left alone by the merge. -/
theorem mergeRow_outside (clock : Nat → Nat) {db : Db} (hwf : WellFormed db) {req : Request}
    {p0 : Contact} {rest : List Contact} (hP : uniquePrimaries db req = p0 :: rest)
    {c p : Contact} (hc : c ∈ db.rows) (hcl : live c = true)
    (hr : resolve db c = some p) (hp : p ∉ p0 :: rest) :
    mergeRow clock (finalPrimaryOf p0 rest).id (sortPrimaries (p0 :: rest)) 0 c = c := by
  obtain ⟨hprows, _, hcase⟩ := resolve_some hc hcl hr
  apply mergeRow_unchanged
  intro q hq _
  have hqP : q ∈ uniquePrimaries db req := by rw [hP]; exact mem_sortPrimaries.1 hq
  have hqrows := (uniquePrimaries_rows hqP).1
  constructor
  · intro hid
    have hcq : c = q := eq_of_id_eq hwf.1 hc hqrows hid
    subst hcq
    have hprim := (uniquePrimaries_primary hwf hqP).1
    have : resolve db c = some c := by simp [resolve, hprim]
    rw [this] at hr
    have hpc : c = p := Option.some.inj hr
    subst hpc
    exact hp (hP ▸ hqP)
  · intro hlk
    rcases hcase with ⟨hprim, rfl⟩ | ⟨_, hlk2, _⟩
    · rcases hwf.2 p hc hcl with h1 | h1
      · rw [h1.2] at hlk; cases hlk
      · rw [hprim] at h1; cases h1.1
    · rw [hlk2] at hlk
      have hpq : p = q := eq_of_id_eq hwf.1 hprows hqrows (Option.some.inj hlk)
      subst hpq
      exact hp (hP ▸ hqP)

/-- The survivor's own row is left alone by the merge. -/
theorem mergeRow_survivor (clock : Nat → Nat) {db : Db} (hwf : WellFormed db) {req : Request}
    {p0 : Contact} {rest : List Contact} (hP : uniquePrimaries db req = p0 :: rest) :
    mergeRow clock (finalPrimaryOf p0 rest).id (sortPrimaries (p0 :: rest)) 0
      (finalPrimaryOf p0 rest) = finalPrimaryOf p0 rest := by
  have hf : finalPrimaryOf p0 rest ∈ uniquePrimaries db req := by
    rw [hP]; exact finalPrimaryOf_mem p0 rest
  apply mergeRow_unchanged
  intro q _ hqf
  constructor
  · exact fun e => hqf e.symm
  · rw [(uniquePrimaries_primary hwf hf).2]
    exact fun e => Option.noConfusion e

theorem map_mergeRow_ids (clock : Nat → Nat) (f : Nat) (ps : List Contact) (k : Nat)
    (rows : List Contact) :
    (rows.map (mergeRow clock f ps k)).map (fun c => c.id) = rows.map (fun c => c.id) := by
  rw [List.map_map]
  apply List.map_congr_left
  intro c _
  exact mergeRow_id clock f ps k c

/-- The merge loop keeps a table well-formed. -/
theorem merged_wf (clock : Nat → Nat) {db : Db} (hwf : WellFormed db)
    (hpos : ∀ c ∈ db.rows, 0 < c.id) {req : Request}
    {p0 : Contact} {rest : List Contact} (hP : uniquePrimaries db req = p0 :: rest) (n : Nat) :
    WellFormed
      { rows := db.rows.map
          (mergeRow clock (finalPrimaryOf p0 rest).id (sortPrimaries (p0 :: rest)) 0),
        nextId := n } := by
  have hf : finalPrimaryOf p0 rest ∈ uniquePrimaries db req := by
    rw [hP]; exact finalPrimaryOf_mem p0 rest
  have hfrows := uniquePrimaries_rows hf
  have hfprim := uniquePrimaries_primary hwf hf
  have hfkeep := mergeRow_survivor clock hwf hP
  constructor
  · show ((db.rows.map _).map _).Nodup
    rw [map_mergeRow_ids]
    exact hwf.1
  · intro r hr hrl
    obtain ⟨c, hc, rfl⟩ := List.mem_map.1 hr
    rw [mergeRow_live] at hrl
    obtain ⟨p, hres, hprows, hpl, hpp, hpn, hin⟩ := resolve_wf hwf hpos hc hrl
    have hfin : ∃ q ∈ db.rows.map
        (mergeRow clock (finalPrimaryOf p0 rest).id (sortPrimaries (p0 :: rest)) 0),
        live q = true ∧ q.linkprecedence = LinkPrecedence.primary ∧
        some (finalPrimaryOf p0 rest).id = some q.id :=
      ⟨finalPrimaryOf p0 rest, by
        rw [List.mem_map]; exact ⟨_, hfrows.1, hfkeep⟩, hfrows.2, hfprim.1, rfl⟩
    by_cases hpP : p ∈ p0 :: rest
    · have hcl := mergeRow_inCluster clock hc hrl hpP hres
      rcases inCluster_iff.1 hcl with hid | hlk
      · rw [mergeRow_id] at hid
        have : c = finalPrimaryOf p0 rest := eq_of_id_eq hwf.1 hc hfrows.1 hid
        subst this
        rw [hfkeep]
        exact Or.inl hfprim
      · right
        refine ⟨?_, ?_⟩
        · obtain ⟨_, _, hcase⟩ := resolve_some hc hrl hres
          rcases hcase with ⟨_, rfl⟩ | ⟨hnp, _, _⟩
          · by_cases hpf : p.id = (finalPrimaryOf p0 rest).id
            · have : p = finalPrimaryOf p0 rest := eq_of_id_eq hwf.1 hc hfrows.1 hpf
              rw [this, hfkeep, hfprim.2] at hlk
              cases hlk
            · exact (mergeRow_loser clock _ _ 0 p
                ⟨p, mem_sortPrimaries.2 hpP, hpf, rfl⟩).2
          · apply mergeRow_secondary
            cases hlp : c.linkprecedence with
            | primary => exact absurd hlp hnp
            | secondary => rfl
        · obtain ⟨q, hq, hql, hqp, hqid⟩ := hfin
          exact ⟨q, hq, hql, hqp, by rw [hlk, hqid]⟩
    · rw [mergeRow_outside clock hwf hP hc hrl hres hpP]
      rcases hwf.2 c hc hrl with h1 | ⟨hsec, q, hq, hql, hqp, hlk⟩
      · exact Or.inl h1
      · right
        refine ⟨hsec, q, ?_, hql, hqp, hlk⟩
        have hqres : resolve db q = some q := by simp [resolve, hqp]
        have hpq : p = q := by
          have := resolve_of_inCluster hwf hpos hq hql hqp hc hrl (inCluster_iff.2 (Or.inr hlk))
          rw [hres] at this
          exact Option.some.inj this
        subst hpq
        rw [List.mem_map]
        exact ⟨p, hq, mergeRow_outside clock hwf hP hq hql hqres hpP⟩

/-- Appending a fresh live secondary of a live primary keeps a table well-formed. -/
theorem wf_append_secondary {d : Db} (hwf : WellFormed d) {new p : Contact} (n : Nat)
    (hfresh : ∀ c ∈ d.rows, c.id ≠ new.id)
    (hsec : new.linkprecedence = LinkPrecedence.secondary)
    (hp : p ∈ d.rows) (hpl : live p = true) (hpp : p.linkprecedence = LinkPrecedence.primary)
    (hlk : new.linkedid = some p.id) :
    WellFormed { rows := d.rows ++ [new], nextId := n } := by
  constructor
  · show ((d.rows ++ [new]).map _).Nodup
    rw [List.map_append]
    refine List.Nodup.append hwf.1 (List.nodup_singleton _) ?_
    intro a ha hb
    simp only [List.map_cons, List.map_nil, List.mem_singleton] at hb
    obtain ⟨c, hc, rfl⟩ := List.mem_map.1 ha
    exact hfresh c hc hb
  · intro c hc hcl
    rcases List.mem_append.1 hc with hc | hc
    · rcases hwf.2 c hc hcl with h1 | ⟨h1, q, hq, h2⟩
      · exact Or.inl h1
      · exact Or.inr ⟨h1, q, List.mem_append_left _ hq, h2⟩
    · rw [List.mem_singleton] at hc
      subst hc
      exact Or.inr ⟨hsec, p, List.mem_append_left _ hp, hpl, hpp, hlk⟩

/-- Appending a fresh primary with null `linkedId` keeps a table well-formed. -/
theorem wf_append_primary {d : Db} (hwf : WellFormed d) {new : Contact} (n : Nat)
    (hfresh : ∀ c ∈ d.rows, c.id ≠ new.id)
    (hprim : new.linkprecedence = LinkPrecedence.primary) (hlk : new.linkedid = none) :
    WellFormed { rows := d.rows ++ [new], nextId := n } := by
  constructor
  · show ((d.rows ++ [new]).map _).Nodup
    rw [List.map_append]
    refine List.Nodup.append hwf.1 (List.nodup_singleton _) ?_
    intro a ha hb
    simp only [List.map_cons, List.map_nil, List.mem_singleton] at hb
    obtain ⟨c, hc, rfl⟩ := List.mem_map.1 ha
    exact hfresh c hc hb
  · intro c hc hcl
    rcases List.mem_append.1 hc with hc | hc
    · rcases hwf.2 c hc hcl with h1 | ⟨h1, q, hq, h2⟩
      · exact Or.inl h1
      · exact Or.inr ⟨h1, q, List.mem_append_left _ hq, h2⟩
    · rw [List.mem_singleton] at hc
      subst hc
      exact Or.inl ⟨hprim, hlk⟩

/-! ## The response arrays -/

theorem pushNew_mono {acc : List String} (v : Option String) {e : String} (h : e ∈ acc) :
    e ∈ pushNew acc v := by
  cases v with
  | none => exact h
  | some s =>
    simp only [pushNew]
    split
    · exact List.mem_append_left _ h
    · exact h

theorem pushNew_self {acc : List String} {e : String} (h : e ≠ "") :
    e ∈ pushNew acc (some e) := by
  simp only [pushNew]
  by_cases hm : e ∈ acc
  · simp [hm]
  · simp [h, hm]

theorem foldl_pushNew_mono (proj : Contact → Option String) (l : List Contact) :
    ∀ (init : List String) (e : String), e ∈ init →
      e ∈ l.foldl (fun acc c => pushNew acc (proj c)) init := by
  induction l with
  | nil => intro init e h; exact h
  | cons a l ih =>
    intro init e h
    rw [List.foldl_cons]
    exact ih _ e (pushNew_mono _ h)

theorem foldl_pushNew_covers (proj : Contact → Option String) (l : List Contact) :
    ∀ (init : List String) (x : Contact) (e : String), x ∈ l → proj x = some e → e ≠ "" →
      e ∈ l.foldl (fun acc c => pushNew acc (proj c)) init := by
  induction l with
  | nil => intro init x e h; cases h
  | cons a l ih =>
    intro init x e hx hp he
    rw [List.foldl_cons]
    rcases List.mem_cons.1 hx with rfl | hx
    · apply foldl_pushNew_mono
      rw [hp]
      exact pushNew_self he
    · exact ih _ x e hx hp he

theorem mem_asList {v : Option String} {e : String} (hv : v = some e) (he : e ≠ "") :
    e ∈ asList v := by
  subst hv
  simp [asList, he]

theorem mem_emails_primary {f : Contact} (l : List Contact) {e : String}
    (hfe : f.email = some e) (he : e ≠ "") : e ∈ (buildResponse f l).emails := by
  unfold buildResponse
  exact foldl_pushNew_mono _ _ _ e (mem_asList hfe he)

theorem mem_emails_other {f : Contact} {l : List Contact} {x : Contact} {e : String}
    (hx : x ∈ l) (hid : x.id ≠ f.id) (hxe : x.email = some e) (he : e ≠ "") :
    e ∈ (buildResponse f l).emails := by
  unfold buildResponse
  refine foldl_pushNew_covers (fun c => c.email) _ _ x e ?_ hxe he
  simp [List.mem_filter, hx, hid]

theorem mem_phoneNumbers_primary {f : Contact} (l : List Contact) {e : String}
    (hfe : f.phonenumber = some e) (he : e ≠ "") : e ∈ (buildResponse f l).phoneNumbers := by
  unfold buildResponse
  exact foldl_pushNew_mono _ _ _ e (mem_asList hfe he)

theorem mem_phoneNumbers_other {f : Contact} {l : List Contact} {x : Contact} {e : String}
    (hx : x ∈ l) (hid : x.id ≠ f.id) (hxe : x.phonenumber = some e) (he : e ≠ "") :
    e ∈ (buildResponse f l).phoneNumbers := by
  unfold buildResponse
  refine foldl_pushNew_covers (fun c => c.phonenumber) _ _ x e ?_ hxe he
  simp [List.mem_filter, hx, hid]

/-! ## Coverage of the implicated clusters (C3) -/

/-- C3 as stated fails on a stored empty email: the table `blankEmailDb` is
well-formed, its only contact is matched by `phoneOnlyRequest` and has the
non-null email `""`, and the answer's `emails` is empty. -/
theorem C3_blank_email_counterexample :
    WellFormed blankEmailDb ∧ SerialIds blankEmailDb ∧
    newRow 1 (some "") (some "111") none LinkPrecedence.primary 10
      ∈ findMatches blankEmailDb phoneOnlyRequest ∧
    (newRow 1 (some "") (some "111") none LinkPrecedence.primary 10).email = some "" ∧
    identify sampleClock blankEmailDb phoneOnlyRequest =
      Except.ok ({ primaryContatctId := 1, emails := [], phoneNumbers := ["111"],
                   secondaryContactIds := [] }, blankEmailDb) ∧
    "" ∉ ([] : List String) :=
  ⟨by decide, by decide, by decide, rfl, rfl, by simp⟩

/-- C3, amended: in a well-formed table with serial ids, for a request that
matches a live contact, the call succeeds and, for every live contact of the
cluster of any matched contact (the contacts that are, or point at, the same
live primary), its id is the returned primary id or one of the secondary ids,
its non-blank email is in `emails` and its non-blank phone in `phoneNumbers`. -/
theorem C3_response_covers_clusters (clock : Nat → Nat) (db : Db) (req : Request)
    (hwf : WellFormed db) (hser : SerialIds db) (hne : findMatches db req ≠ []) :
    ∃ (resp : Response) (db' : Db),
      identify clock db req = Except.ok (resp, db') ∧
      ∀ m ∈ findMatches db req, ∀ p ∈ db.rows, live p = true →
        p.linkprecedence = LinkPrecedence.primary → inCluster p.id m = true →
        ∀ c ∈ db.rows, live c = true → inCluster p.id c = true →
          (c.id = resp.primaryContatctId ∨ c.id ∈ resp.secondaryContactIds) ∧
          (∀ e, c.email = some e → e ≠ "" → e ∈ resp.emails) ∧
          (∀ ph, c.phonenumber = some ph → ph ≠ "" → ph ∈ resp.phoneNumbers) := by
  have hpos : ∀ c ∈ db.rows, 0 < c.id := fun c hc => (hser.2 c hc).1
  cases hP : uniquePrimaries db req with
  | nil => exact absurd hP (uniquePrimaries_ne_nil hwf hpos hne)
  | cons p0 rest =>
    obtain ⟨db2, extra, hid, hrows, _⟩ := identify_rows clock hP
    refine ⟨_, db2, hid, ?_⟩
    intro m hm p hp hpl hpp hmin c hc hcl hcin
    have hm' := mem_findMatches.1 hm
    have hmres := resolve_of_inCluster hwf hpos hp hpl hpp hm'.1 (matchesRow_live hm'.2) hmin
    have hpP : p ∈ p0 :: rest := by
      rw [← hP]; exact (mem_uniquePrimaries_iff hwf.1).2 ⟨m, hm, hmres⟩
    have hcres := resolve_of_inCluster hwf hpos hp hpl hpp hc hcl hcin
    have hgin := mergeRow_inCluster clock hc hcl hpP hcres
    have hf : finalPrimaryOf p0 rest ∈ uniquePrimaries db req := by
      rw [hP]; exact finalPrimaryOf_mem p0 rest
    have hgmem : mergeRow clock (finalPrimaryOf p0 rest).id (sortPrimaries (p0 :: rest)) 0 c
        ∈ allLinked db2.rows (finalPrimaryOf p0 rest).id := by
      rw [mem_allLinked]
      refine ⟨?_, hgin, by rw [mergeRow_live]; exact hcl⟩
      rw [hrows]
      exact List.mem_append_left _ (List.mem_map_of_mem _ hc)
    by_cases hcf : c.id = (finalPrimaryOf p0 rest).id
    · have hceq : c = finalPrimaryOf p0 rest :=
        eq_of_id_eq hwf.1 hc (uniquePrimaries_rows hf).1 hcf
      refine ⟨Or.inl hcf, ?_, ?_⟩
      · intro e he hne'
        exact mem_emails_primary _ (hceq ▸ he) hne'
      · intro ph hph hne'
        exact mem_phoneNumbers_primary _ (hceq ▸ hph) hne'
    · refine ⟨Or.inr ?_, ?_, ?_⟩
      · rw [mem_secondaryContactIds]
        exact ⟨_, hgmem, by rw [mergeRow_id]; exact hcf, mergeRow_id _ _ _ _ _⟩
      · intro e he hne'
        exact mem_emails_other hgmem (by rw [mergeRow_id]; exact hcf)
          (by rw [mergeRow_email]; exact he) hne'
      · intro ph hph hne'
        exact mem_phoneNumbers_other hgmem (by rw [mergeRow_id]; exact hcf)
          (by rw [mergeRow_phonenumber]; exact hph) hne'

/-- C3, amended, at a sample: the two primaries of `twoPrimaries` are linked. -/
theorem C3_response_covers_clusters_witness :
    WellFormed twoPrimaries ∧ SerialIds twoPrimaries ∧
    findMatches twoPrimaries linkingRequest ≠ [] ∧
    ∃ (resp : Response) (db' : Db),
      identify sampleClock twoPrimaries linkingRequest = Except.ok (resp, db') ∧
      ∀ m ∈ findMatches twoPrimaries linkingRequest, ∀ p ∈ twoPrimaries.rows, live p = true →
        p.linkprecedence = LinkPrecedence.primary → inCluster p.id m = true →
        ∀ c ∈ twoPrimaries.rows, live c = true → inCluster p.id c = true →
          (c.id = resp.primaryContatctId ∨ c.id ∈ resp.secondaryContactIds) ∧
          (∀ e, c.email = some e → e ≠ "" → e ∈ resp.emails) ∧
          (∀ ph, c.phonenumber = some ph → ph ≠ "" → ph ∈ resp.phoneNumbers) :=
  ⟨by decide, by decide, by decide,
    C3_response_covers_clusters sampleClock twoPrimaries linkingRequest (by decide) (by decide)
      (by decide)⟩

/-! ## The gap filler (C6, C7) -/

theorem matchesRow_of_email {req : Request} {c : Contact} (hl : live c = true)
    (he : truthy req.email = true) (hc : c.email = req.email) : matchesRow req c = true := by
  unfold matchesRow
  simp [hl, he, hc]

theorem matchesRow_of_phone {req : Request} {c : Contact} (hl : live c = true)
    (he : truthy req.phoneNumber = true) (hc : c.phonenumber = req.phoneNumber) :
    matchesRow req c = true := by
  unfold matchesRow
  simp [hl, he, hc]

/-- The survivor's cluster after the merge is the union of the candidates'
clusters before it: a live row ends in the survivor's cluster exactly when it
was in the cluster of some candidate. -/
theorem postMerge_cluster_iff (clock : Nat → Nat) {db : Db} (hwf : WellFormed db)
    (hpos : ∀ c ∈ db.rows, 0 < c.id) {req : Request} {p0 : Contact} {rest : List Contact}
    (hP : uniquePrimaries db req = p0 :: rest) {c : Contact} (hc : c ∈ db.rows)
    (hcl : live c = true) :
    inCluster (finalPrimaryOf p0 rest).id
      (mergeRow clock (finalPrimaryOf p0 rest).id (sortPrimaries (p0 :: rest)) 0 c) = true ↔
    ∃ p ∈ uniquePrimaries db req, inCluster p.id c = true := by
  have hf : finalPrimaryOf p0 rest ∈ uniquePrimaries db req := by
    rw [hP]; exact finalPrimaryOf_mem p0 rest
  constructor
  · intro hin
    obtain ⟨p, hres, _, _, _, _, hpin⟩ := resolve_wf hwf hpos hc hcl
    by_cases hpP : p ∈ p0 :: rest
    · exact ⟨p, hP ▸ hpP, hpin⟩
    · rw [mergeRow_outside clock hwf hP hc hcl hres hpP] at hin
      exact ⟨_, hf, hin⟩
  · rintro ⟨p, hpP, hpin⟩
    have hres := resolve_of_inCluster hwf hpos (uniquePrimaries_rows hpP).1
      (uniquePrimaries_rows hpP).2 (uniquePrimaries_primary hwf hpP).1 hc hcl hpin
    exact mergeRow_inCluster clock hc hcl (hP ▸ hpP) hres

/-- C6, amended: in a well-formed table with serial ids, for a request with both fields
non-blank that matches a live contact, when no live contact of the candidates'
clusters (the clusters the merge unites under the resolved primary) has both
this email and this phone, the call succeeds and appends exactly one row: a live
secondary with the request's email and phone, linked to the resolved primary
(the least candidate), whose id is returned as the primary id; the new row's id
is among the secondary ids. -/
theorem C6_gap_creates_secondary (clock : Nat → Nat) (db : Db) (req : Request)
    (hwf : WellFormed db) (hser : SerialIds db)
    (he : truthy req.email = true) (hph : truthy req.phoneNumber = true)
    (hne : findMatches db req ≠ [])
    (hnone : ∀ c ∈ db.rows, live c = true →
      (∃ p ∈ uniquePrimaries db req, inCluster p.id c = true) →
      ¬ (c.email = req.email ∧ c.phonenumber = req.phoneNumber)) :
    ∃ (resp : Response) (db' : Db) (s new : Contact),
      identify clock db req = Except.ok (resp, db') ∧
      s ∈ uniquePrimaries db req ∧ (∀ c ∈ uniquePrimaries db req, olderOrEq s c) ∧
      resp.primaryContatctId = s.id ∧
      db'.rows.map (fun c => c.id) = db.rows.map (fun c => c.id) ++ [new.id] ∧
      db'.rows.drop db.rows.length = [new] ∧
      new.email = req.email ∧ new.phonenumber = req.phoneNumber ∧
      new.linkprecedence = LinkPrecedence.secondary ∧ new.linkedid = some s.id ∧
      new.deletedat = none ∧
      new.id ∈ resp.secondaryContactIds := by
  have hpos : ∀ c ∈ db.rows, 0 < c.id := fun c hc => (hser.2 c hc).1
  cases hP : uniquePrimaries db req with
  | nil => exact absurd hP (uniquePrimaries_ne_nil hwf hpos hne)
  | cons p0 rest =>
    have hf : finalPrimaryOf p0 rest ∈ uniquePrimaries db req := by
      rw [hP]; exact finalPrimaryOf_mem p0 rest
    obtain ⟨db2, hid, hcase⟩ := identify_shape clock hP
    rcases hcase with ⟨hneed, _⟩ | ⟨_, ts, hdb2⟩
    · exfalso
      obtain ⟨r, hr, hrl, _, hre, hrp⟩ := needNewSecondary_eq_false_iff.1 hneed (Or.inl he)
      obtain ⟨c, hc, rfl⟩ := List.mem_map.1 hr
      rw [mergeRow_live] at hrl
      have hce := hre he
      have hcp := hrp hph
      rw [mergeRow_email] at hce
      rw [mergeRow_phonenumber] at hcp
      have hcm : c ∈ findMatches db req :=
        mem_findMatches.2 ⟨hc, matchesRow_of_email hrl he hce⟩
      obtain ⟨p, hpP, _, hin⟩ := candidate_of_match hwf hpos hcm
      exact hnone c hc hrl ⟨p, hpP, hin⟩ ⟨hce, hcp⟩
    · refine ⟨_, db2, finalPrimaryOf p0 rest,
        newRow db.nextId (orNull req.email) (orNull req.phoneNumber)
          (some (finalPrimaryOf p0 rest).id) LinkPrecedence.secondary ts,
        hid, by rw [← hP]; exact hf, finalPrimaryOf_least p0 rest, rfl, ?_, ?_,
        orNull_of_truthy he, orNull_of_truthy hph, rfl, rfl, rfl, ?_⟩
      · rw [hdb2]
        show ((db.rows.map _ ++ [_]).map _) = _
        rw [List.map_append, map_mergeRow_ids]
        rfl
      · rw [hdb2]
        show (db.rows.map _ ++ [_]).drop _ = _
        rw [List.drop_left' (by simp)]
      · rw [mem_secondaryContactIds]
        refine ⟨newRow db.nextId (orNull req.email) (orNull req.phoneNumber)
          (some (finalPrimaryOf p0 rest).id) LinkPrecedence.secondary ts, ?_, ?_, rfl⟩
        · rw [mem_allLinked, hdb2]
          refine ⟨List.mem_append_right _ (List.mem_singleton.2 rfl), ?_, rfl⟩
          exact inCluster_iff.2 (Or.inr rfl)
        · have := (hser.2 _ (uniquePrimaries_rows hf).1).2
          show db.nextId ≠ _
          omega

/-- C7, amended: in a well-formed table with serial ids, for a request with both fields
non-blank such that some live contact has exactly this email and this phone,
the call succeeds and inserts nothing: the ids in the table are the same before
and after, whether or not the call merges. -/
theorem C7_exact_pair_inserts_nothing (clock : Nat → Nat) (db : Db) (req : Request)
    (hwf : WellFormed db) (hser : SerialIds db)
    (he : truthy req.email = true) (_hph : truthy req.phoneNumber = true)
    (hex : ∃ c ∈ db.rows, live c = true ∧ c.email = req.email ∧
      c.phonenumber = req.phoneNumber) :
    ∃ (resp : Response) (db' : Db),
      identify clock db req = Except.ok (resp, db') ∧
      db'.rows.map (fun c => c.id) = db.rows.map (fun c => c.id) := by
  have hpos : ∀ c ∈ db.rows, 0 < c.id := fun c hc => (hser.2 c hc).1
  obtain ⟨c, hc, hcl, hce, hcp⟩ := hex
  have hcm : c ∈ findMatches db req :=
    mem_findMatches.2 ⟨hc, matchesRow_of_email hcl he hce⟩
  obtain ⟨p, hpP, hres, _⟩ := candidate_of_match hwf hpos hcm
  cases hP : uniquePrimaries db req with
  | nil => rw [hP] at hpP; cases hpP
  | cons p0 rest =>
    rw [hP] at hpP
    obtain ⟨db2, hid, hcase⟩ := identify_shape clock hP
    refine ⟨_, db2, hid, ?_⟩
    rcases hcase with ⟨_, hdb2⟩ | ⟨hneed, _⟩
    · rw [hdb2]
      exact map_mergeRow_ids _ _ _ _ _
    · exfalso
      have hfalse : needNewSecondary (db.rows.map
          (mergeRow clock (finalPrimaryOf p0 rest).id (sortPrimaries (p0 :: rest)) 0)) req
          (finalPrimaryOf p0 rest).id = false := by
        rw [needNewSecondary_eq_false_iff]
        intro _
        refine ⟨_, List.mem_map_of_mem _ hc, by rw [mergeRow_live]; exact hcl,
          mergeRow_inCluster clock hc hcl hpP hres, ?_, ?_⟩
        · intro _; rw [mergeRow_email]; exact hce
        · intro _; rw [mergeRow_phonenumber]; exact hcp
      rw [hfalse] at hneed
      cases hneed

/-- C6, amended, at a sample: a new email arrives with the phone of the only primary. -/
theorem C6_gap_creates_secondary_witness :
    WellFormed onePrimary ∧ SerialIds onePrimary ∧
    truthy (some "b@x.com") = true ∧ truthy (some "111") = true ∧
    findMatches onePrimary { email := some "b@x.com", phoneNumber := some "111" } ≠ [] ∧
    ∃ (resp : Response) (db' : Db) (s new : Contact),
      identify sampleClock onePrimary { email := some "b@x.com", phoneNumber := some "111" } =
        Except.ok (resp, db') ∧
      s ∈ uniquePrimaries onePrimary { email := some "b@x.com", phoneNumber := some "111" } ∧
      (∀ c ∈ uniquePrimaries onePrimary { email := some "b@x.com", phoneNumber := some "111" },
        olderOrEq s c) ∧
      resp.primaryContatctId = s.id ∧
      db'.rows.map (fun c => c.id) = onePrimary.rows.map (fun c => c.id) ++ [new.id] ∧
      db'.rows.drop onePrimary.rows.length = [new] ∧
      new.email = some "b@x.com" ∧ new.phonenumber = some "111" ∧
      new.linkprecedence = LinkPrecedence.secondary ∧ new.linkedid = some s.id ∧
      new.deletedat = none ∧
      new.id ∈ resp.secondaryContactIds :=
  ⟨by decide, by decide, by decide, by decide, by decide,
    C6_gap_creates_secondary sampleClock onePrimary
      { email := some "b@x.com", phoneNumber := some "111" }
      (by decide) (by decide) (by decide) (by decide) (by decide) (by decide)⟩

/-- C7, amended, at a sample: the only primary's own email and phone are sent again. -/
theorem C7_exact_pair_inserts_nothing_witness :
    WellFormed onePrimary ∧ SerialIds onePrimary ∧
    truthy (some "a@x.com") = true ∧ truthy (some "111") = true ∧
    (∃ c ∈ onePrimary.rows, live c = true ∧ c.email = some "a@x.com" ∧
      c.phonenumber = some "111") ∧
    ∃ (resp : Response) (db' : Db),
      identify sampleClock onePrimary { email := some "a@x.com", phoneNumber := some "111" } =
        Except.ok (resp, db') ∧
      db'.rows.map (fun c => c.id) = onePrimary.rows.map (fun c => c.id) :=
  ⟨by decide, by decide, by decide, by decide, by decide,
    C7_exact_pair_inserts_nothing sampleClock onePrimary
      { email := some "a@x.com", phoneNumber := some "111" }
      (by decide) (by decide) (by decide) (by decide) (by decide)⟩

/-! ## Calls that write nothing (C8, C9) -/

/-- C8 as stated fails: in `oneCluster` the request `crossRequest` matches the
primary (by email) and its secondary (by phone), both of one cluster, and each
identifier is already on a live contact of that cluster, yet the call inserts
contact 3. -/
theorem C8_cross_pair_counterexample :
    WellFormed oneCluster ∧ SerialIds oneCluster ∧
    (∀ m ∈ findMatches oneCluster crossRequest, inCluster 1 m = true) ∧
    (∃ c ∈ oneCluster.rows, live c = true ∧ inCluster 1 c = true ∧
      c.email = crossRequest.email) ∧
    (∃ c ∈ oneCluster.rows, live c = true ∧ inCluster 1 c = true ∧
      c.phonenumber = crossRequest.phoneNumber) ∧
    identify sampleClock oneCluster crossRequest =
      Except.ok ({ primaryContatctId := 1, emails := ["a@x.com", "b@x.com"],
                   phoneNumbers := ["111", "222"], secondaryContactIds := [2, 3] },
                 { rows := oneCluster.rows ++
                     [newRow 3 (some "a@x.com") (some "222") (some 1)
                       LinkPrecedence.secondary 1000],
                   nextId := 4 }) ∧
    ({ rows := oneCluster.rows ++
         [newRow 3 (some "a@x.com") (some "222") (some 1) LinkPrecedence.secondary 1000],
       nextId := 4 } : Db) ≠ oneCluster :=
  ⟨by decide, by decide, by decide, by decide, by decide, rfl, by decide⟩

/-- C8, amended: in a well-formed table with serial ids, for a request with at
least one non-blank identifier whose matched contacts all lie in the cluster of
the live primary `p`, when one live contact of that cluster carries every
non-blank identifier of the request, the call succeeds and writes nothing: the
table after the call is the table before it. -/
theorem C8_noop_when_pair_present (clock : Nat → Nat) (db : Db) (req : Request) (p : Contact)
    (hwf : WellFormed db) (hser : SerialIds db)
    (hp : p ∈ db.rows) (hpl : live p = true) (hpp : p.linkprecedence = LinkPrecedence.primary)
    (hany : truthy req.email = true ∨ truthy req.phoneNumber = true)
    (hall : ∀ m ∈ db.rows, matchesRow req m = true → inCluster p.id m = true)
    (hex : ∃ c ∈ db.rows, live c = true ∧ inCluster p.id c = true ∧
      (truthy req.email = true → c.email = req.email) ∧
      (truthy req.phoneNumber = true → c.phonenumber = req.phoneNumber)) :
    ∃ resp : Response, identify clock db req = Except.ok (resp, db) := by
  have hpos : ∀ c ∈ db.rows, 0 < c.id := fun c hc => (hser.2 c hc).1
  obtain ⟨c, hc, hcl, _, hce, hcp⟩ := hex
  have hcm : matchesRow req c = true := by
    rcases hany with h | h
    · exact matchesRow_of_email hcl h (hce h)
    · exact matchesRow_of_phone hcl h (hcp h)
  have hne : findMatches db req ≠ [] := List.ne_nil_of_mem (mem_findMatches.2 ⟨hc, hcm⟩)
  refine ⟨_, identify_noop clock hwf hpos hp hpl hpp hne ?_ ?_⟩
  · intro m hm
    have hm' := mem_findMatches.1 hm
    exact hall m hm'.1 hm'.2
  · rw [needNewSecondary_eq_false_iff]
    intro _
    exact ⟨c, hc, hcl, by assumption, hce, hcp⟩

/-- C8, amended, at a sample: the secondary's own email and phone are sent again. -/
theorem C8_noop_when_pair_present_witness :
    WellFormed oneCluster ∧ SerialIds oneCluster ∧
    ∃ resp : Response,
      identify sampleClock oneCluster { email := some "b@x.com", phoneNumber := some "222" } =
        Except.ok (resp, oneCluster) :=
  ⟨by decide, by decide,
    C8_noop_when_pair_present sampleClock oneCluster
      { email := some "b@x.com", phoneNumber := some "222" }
      (newRow 1 (some "a@x.com") (some "111") none LinkPrecedence.primary 10)
      (by decide) (by decide) (by decide) (by decide) (by decide) (by decide) (by decide)
      (by decide)⟩

/-- C9, amended: in a well-formed table with serial ids, for a request with exactly one
non-blank identifier that some live contact carries, when every live contact
carrying it lies in the cluster of the live primary `p`, the call succeeds,
leaves the table as it was and returns `p`'s id as the primary id. -/
theorem C9_single_identifier_noop (clock : Nat → Nat) (db : Db) (req : Request) (p : Contact)
    (hwf : WellFormed db) (hser : SerialIds db)
    (hp : p ∈ db.rows) (hpl : live p = true) (hpp : p.linkprecedence = LinkPrecedence.primary)
    (hone : (truthy req.email = true ∧ truthy req.phoneNumber = false) ∨
            (truthy req.email = false ∧ truthy req.phoneNumber = true))
    (hocc : ∃ c ∈ db.rows, c.deletedat = none ∧
      ((truthy req.email = true ∧ c.email = req.email) ∨
       (truthy req.phoneNumber = true ∧ c.phonenumber = req.phoneNumber)))
    (hall : ∀ c ∈ db.rows, c.deletedat = none →
      ((truthy req.email = true ∧ c.email = req.email) ∨
       (truthy req.phoneNumber = true ∧ c.phonenumber = req.phoneNumber)) →
      c.id = p.id ∨ c.linkedid = some p.id) :
    ∃ resp : Response,
      identify clock db req = Except.ok (resp, db) ∧ resp.primaryContatctId = p.id := by
  have hpos : ∀ c ∈ db.rows, 0 < c.id := fun c hc => (hser.2 c hc).1
  have hmr : ∀ c : Contact, matchesRow req c = true ↔ (c.deletedat = none ∧
      ((truthy req.email = true ∧ c.email = req.email) ∨
       (truthy req.phoneNumber = true ∧ c.phonenumber = req.phoneNumber))) := by
    intro c
    unfold matchesRow live
    simp only [Bool.and_eq_true, Bool.or_eq_true, decide_eq_true_eq, Option.isNone_iff_eq_none]
  obtain ⟨c, hc, hcd, hcarry⟩ := hocc
  have hcm : matchesRow req c = true := (hmr c).2 ⟨hcd, hcarry⟩
  have hcl : live c = true := matchesRow_live hcm
  have hne : findMatches db req ≠ [] := List.ne_nil_of_mem (mem_findMatches.2 ⟨hc, hcm⟩)
  refine ⟨_, identify_noop clock hwf hpos hp hpl hpp hne ?_ ?_, rfl⟩
  · intro m hm
    have hm' := mem_findMatches.1 hm
    have := (hmr m).1 hm'.2
    exact inCluster_iff.2 (hall m hm'.1 this.1 this.2)
  · rw [needNewSecondary_eq_false_iff]
    intro _
    refine ⟨c, hc, hcl, inCluster_iff.2 (hall c hc hcd hcarry), ?_, ?_⟩
    · intro he
      rcases hcarry with h | h
      · exact h.2
      · rcases hone with h1 | h1
        · rw [h1.2] at h; cases h.1
        · rw [h1.1] at he; cases he
    · intro hph
      rcases hcarry with h | h
      · rcases hone with h1 | h1
        · rw [h1.2] at hph; cases hph
        · rw [h1.1] at h; cases h.1
      · exact h.2

/-- C9, amended, at a sample: only the phone of the secondary of `oneCluster` is sent. -/
theorem C9_single_identifier_noop_witness :
    WellFormed oneCluster ∧ SerialIds oneCluster ∧
    ∃ resp : Response,
      identify sampleClock oneCluster { email := none, phoneNumber := some "222" } =
        Except.ok (resp, oneCluster) ∧
      resp.primaryContatctId =
        (newRow 1 (some "a@x.com") (some "111") none LinkPrecedence.primary 10).id :=
  ⟨by decide, by decide,
    C9_single_identifier_noop sampleClock oneCluster
      { email := none, phoneNumber := some "222" }
      (newRow 1 (some "a@x.com") (some "111") none LinkPrecedence.primary 10)
      (by decide) (by decide) (by decide) (by decide) (by decide) (by decide) (by decide)
      (by decide)⟩

/-! ## Rows after the merge loop -/

theorem matchesRow_mergeRow (req : Request) (clock : Nat → Nat) (f : Nat) (ps : List Contact)
    (k : Nat) (c : Contact) :
    matchesRow req (mergeRow clock f ps k c) = matchesRow req c := by
  unfold matchesRow
  rw [mergeRow_live, mergeRow_email, mergeRow_phonenumber]

theorem asList_orNull (v : Option String) : asList (orNull v) = asList v := by
  cases h : truthy v
  · rw [orNull_of_falsy h, asList_of_falsy h]; rfl
  · rw [orNull_of_truthy h]

theorem orNull_matches {req : Request} {new : Contact} (hl : live new = true)
    (he : new.email = orNull req.email) (hp : new.phonenumber = orNull req.phoneNumber)
    (hany : truthy req.email = true ∨ truthy req.phoneNumber = true) :
    matchesRow req new = true := by
  rcases hany with h | h
  · exact matchesRow_of_email hl h (by rw [he, orNull_of_truthy h])
  · exact matchesRow_of_phone hl h (by rw [hp, orNull_of_truthy h])

/-- In a well-formed table with serial ids no live row belongs to the cluster of
the id the sequence will hand out next. -/
theorem no_cluster_of_nextId {db : Db} (hwf : WellFormed db) (hser : SerialIds db)
    {c : Contact} (hc : c ∈ db.rows) (hcl : live c = true) :
    inCluster db.nextId c = false := by
  cases h : inCluster db.nextId c with
  | false => rfl
  | true =>
    exfalso
    rcases inCluster_iff.1 h with hid | hlk
    · have := (hser.2 c hc).2
      omega
    · rcases hwf.2 c hc hcl with h1 | ⟨_, q, hq, _, _, hlq⟩
      · rw [h1.2] at hlk; cases hlk
      · rw [hlk] at hlq
        have := (hser.2 q hq).2
        have := Option.some.inj hlq
        omega

/-! ## The request's own identifiers in the answer (C11) -/

theorem truthy_of_findMatches_ne_nil {db : Db} {req : Request} (h : findMatches db req ≠ []) :
    truthy req.email = true ∨ truthy req.phoneNumber = true := by
  unfold findMatches at h
  split at h
  · rename_i hc
    simpa using hc
  · exact absurd rfl h

/-- After a call on a request with candidates, some live row of the survivor's
cluster carries every non-blank identifier of the request. -/
theorem carrier_after_call (clock : Nat → Nat) {db : Db} {req : Request} {p0 : Contact}
    {rest : List Contact} (hP : uniquePrimaries db req = p0 :: rest) {resp : Response}
    {db' : Db} (hid : identify clock db req = Except.ok (resp, db')) :
    resp = buildResponse (finalPrimaryOf p0 rest)
      (allLinked db'.rows (finalPrimaryOf p0 rest).id) ∧
    ∃ x ∈ db'.rows, live x = true ∧ inCluster (finalPrimaryOf p0 rest).id x = true ∧
      (truthy req.email = true → x.email = req.email) ∧
      (truthy req.phoneNumber = true → x.phonenumber = req.phoneNumber) ∧
      ((∃ c ∈ db.rows, c.id = x.id ∧ c.email = x.email ∧ c.phonenumber = x.phonenumber) ∨
       x.id = db.nextId) := by
  obtain ⟨db2, hid2, hcase⟩ := identify_shape clock hP
  rw [hid2] at hid
  injection hid with hid
  injection hid with hresp hdb
  subst hdb
  refine ⟨hresp.symm, ?_⟩
  have hany := truthy_of_findMatches_ne_nil (findMatches_ne_nil hP)
  rcases hcase with ⟨hneed, hdb2⟩ | ⟨_, ts, hdb2⟩
  · obtain ⟨r, hr, hrl, hrin, hre, hrp⟩ := needNewSecondary_eq_false_iff.1 hneed hany
    obtain ⟨c, hc, rfl⟩ := List.mem_map.1 hr
    refine ⟨_, by rw [hdb2]; exact hr, hrl, hrin, hre, hrp, Or.inl ⟨c, hc, ?_, ?_, ?_⟩⟩
    · rw [mergeRow_id]
    · rw [mergeRow_email]
    · rw [mergeRow_phonenumber]
  · refine ⟨newRow db.nextId (orNull req.email) (orNull req.phoneNumber)
      (some (finalPrimaryOf p0 rest).id) LinkPrecedence.secondary ts, ?_, rfl,
      inCluster_iff.2 (Or.inr rfl), fun h => orNull_of_truthy h, fun h => orNull_of_truthy h,
      Or.inr rfl⟩
    rw [hdb2]
    exact List.mem_append_right _ (List.mem_singleton.2 rfl)

/-- C11: on every table that satisfies the primary-key constraint (unique ids,
the sequence's next value unused), when a call succeeds its `emails` contains
the request's email if that is non-blank, and its `phoneNumbers` contains the
request's phone if that is non-blank. -/
theorem C11_answer_contains_request (clock : Nat → Nat) (db : Db) (req : Request)
    (resp : Response) (db' : Db) (hkey : KeyOk db)
    (hid : identify clock db req = Except.ok (resp, db')) :
    (∀ e, req.email = some e → e ≠ "" → e ∈ resp.emails) ∧
    (∀ p, req.phoneNumber = some p → p ≠ "" → p ∈ resp.phoneNumbers) := by
  by_cases hm : findMatches db req = []
  · rw [identify_noMatch clock hm] at hid
    injection hid with hid
    injection hid with hresp _
    subst hresp
    exact ⟨fun e he hne => mem_asList he hne, fun p hp hne => mem_asList hp hne⟩
  · cases hP : uniquePrimaries db req with
    | nil =>
      rw [identify_noCandidate clock hm hP] at hid
      cases hid
    | cons p0 rest =>
      obtain ⟨hresp, x, hx, hxl, hxin, hxe, hxp, hxorigin⟩ := carrier_after_call clock hP hid
      have hf : finalPrimaryOf p0 rest ∈ uniquePrimaries db req := by
        rw [hP]; exact finalPrimaryOf_mem p0 rest
      have hfrows := (uniquePrimaries_rows hf).1
      have hxall : x ∈ allLinked db'.rows (finalPrimaryOf p0 rest).id :=
        mem_allLinked.2 ⟨hx, hxin, hxl⟩
      have hsame : x.id = (finalPrimaryOf p0 rest).id →
          x.email = (finalPrimaryOf p0 rest).email ∧
          x.phonenumber = (finalPrimaryOf p0 rest).phonenumber := by
        intro hxf
        rcases hxorigin with ⟨c, hc, hcid, hce, hcp⟩ | hnew
        · have : c = finalPrimaryOf p0 rest := eq_of_id_eq hkey.1 hc hfrows (hcid.trans hxf)
          subst this
          exact ⟨hce.symm, hcp.symm⟩
        · exact absurd (hxf.symm.trans hnew) (hkey.2 _ hfrows)
      subst hresp
      constructor
      · intro e he hne
        have hxe' : x.email = some e := by
          rw [hxe (truthy_iff.2 ⟨e, he, hne⟩), he]
        by_cases hxf : x.id = (finalPrimaryOf p0 rest).id
        · exact mem_emails_primary _ ((hsame hxf).1 ▸ hxe') hne
        · exact mem_emails_other hxall hxf hxe' hne
      · intro p hp hne
        have hxp' : x.phonenumber = some p := by
          rw [hxp (truthy_iff.2 ⟨p, hp, hne⟩), hp]
        by_cases hxf : x.id = (finalPrimaryOf p0 rest).id
        · exact mem_phoneNumbers_primary _ ((hsame hxf).2 ▸ hxp') hne
        · exact mem_phoneNumbers_other hxall hxf hxp' hne

/-- C11 at a sample: only the email of a cluster's primary is sent. -/
theorem C11_answer_contains_request_witness :
    KeyOk oneCluster ∧
    identify sampleClock oneCluster emailOnlyRequest =
      Except.ok ({ primaryContatctId := 1, emails := ["a@x.com", "b@x.com"],
                   phoneNumbers := ["111", "222"], secondaryContactIds := [2] },
                 oneCluster) ∧
    (∀ e, emailOnlyRequest.email = some e → e ≠ "" →
      e ∈ ["a@x.com", "b@x.com"]) ∧
    (∀ p, emailOnlyRequest.phoneNumber = some p → p ≠ "" → p ∈ ["111", "222"]) :=
  ⟨by decide, rfl,
    C11_answer_contains_request sampleClock oneCluster emailOnlyRequest
      { primaryContatctId := 1, emails := ["a@x.com", "b@x.com"],
        phoneNumbers := ["111", "222"], secondaryContactIds := [2] }
      oneCluster (by decide) rfl⟩

/-! ## The primary's own email and phone come first (C12) -/

theorem pushNew_head {a : String} {t : List String} (v : Option String) :
    ∃ t', pushNew (a :: t) v = a :: t' := by
  cases v with
  | none => exact ⟨t, rfl⟩
  | some s =>
    simp only [pushNew]
    split
    · exact ⟨t ++ [s], rfl⟩
    · exact ⟨t, rfl⟩

theorem foldl_pushNew_head (proj : Contact → Option String) (l : List Contact) :
    ∀ (a : String) (t : List String),
      (l.foldl (fun acc c => pushNew acc (proj c)) (a :: t)).head? = some a := by
  induction l with
  | nil => intro a t; rfl
  | cons x l ih =>
    intro a t
    rw [List.foldl_cons]
    obtain ⟨t', ht'⟩ := pushNew_head (a := a) (t := t) (proj x)
    rw [ht']
    exact ih a t'

theorem emails_head {f : Contact} (l : List Contact) {e : String}
    (hfe : f.email = some e) (he : e ≠ "") : (buildResponse f l).emails.head? = some e := by
  unfold buildResponse
  rw [hfe, asList_of_some he]
  exact foldl_pushNew_head _ _ e []

theorem phoneNumbers_head {f : Contact} (l : List Contact) {e : String}
    (hfe : f.phonenumber = some e) (he : e ≠ "") :
    (buildResponse f l).phoneNumbers.head? = some e := by
  unfold buildResponse
  rw [hfe, asList_of_some he]
  exact foldl_pushNew_head _ _ e []

theorem orNull_eq_some {v : Option String} {e : String} (h : orNull v = some e) :
    v = some e ∧ e ≠ "" := by
  unfold orNull at h
  split at h
  · rename_i ht
    obtain ⟨s, hs, hne⟩ := truthy_iff.1 ht
    rw [hs] at h
    have := Option.some.inj h
    subst this
    exact ⟨hs, hne⟩
  · cases h

/-- C12 as stated fails on a stored empty email: in `blankPrimaryCluster` the
primary has the non-null email `""`, and the first element of `emails` is the
secondary's email. -/
theorem C12_blank_primary_counterexample :
    WellFormed blankPrimaryCluster ∧ SerialIds blankPrimaryCluster ∧
    identify sampleClock blankPrimaryCluster phoneOnlyRequest =
      Except.ok ({ primaryContatctId := 1, emails := ["b@x.com"], phoneNumbers := ["111"],
                   secondaryContactIds := [2] }, blankPrimaryCluster) ∧
    newRow 1 (some "") (some "111") none LinkPrecedence.primary 10 ∈ blankPrimaryCluster.rows ∧
    (newRow 1 (some "") (some "111") none LinkPrecedence.primary 10).email = some "" ∧
    (["b@x.com"] : List String).head? ≠ some "" :=
  ⟨by decide, by decide, rfl, by decide, rfl, by decide⟩

/-- C12, amended: whenever a call succeeds, the table it leaves holds a live row
with the returned primary id (the resolved primary) such that, if its email is
neither null nor empty, that email is the first element of `emails`, and if its
phone is neither null nor empty, that phone is the first element of
`phoneNumbers`. -/
theorem C12_primary_first (clock : Nat → Nat) (db : Db) (req : Request)
    (resp : Response) (db' : Db) (hid : identify clock db req = Except.ok (resp, db')) :
    ∃ prim ∈ db'.rows, prim.id = resp.primaryContatctId ∧ prim.deletedat = none ∧
      (∀ e, prim.email = some e → e ≠ "" → resp.emails.head? = some e) ∧
      (∀ p, prim.phonenumber = some p → p ≠ "" → resp.phoneNumbers.head? = some p) := by
  by_cases hm : findMatches db req = []
  · rw [identify_noMatch clock hm] at hid
    injection hid with hid
    injection hid with hresp hdb
    subst hresp
    subst hdb
    refine ⟨newRow db.nextId (orNull req.email) (orNull req.phoneNumber) none
      LinkPrecedence.primary (clock 0),
      List.mem_append_right _ (List.mem_singleton.2 rfl), rfl, rfl, ?_, ?_⟩
    · intro e he _
      have := orNull_eq_some (v := req.email) he
      show (asList req.email).head? = some e
      rw [this.1, asList_of_some this.2]
      rfl
    · intro p hp _
      have := orNull_eq_some (v := req.phoneNumber) hp
      show (asList req.phoneNumber).head? = some p
      rw [this.1, asList_of_some this.2]
      rfl
  · cases hP : uniquePrimaries db req with
    | nil =>
      rw [identify_noCandidate clock hm hP] at hid
      cases hid
    | cons p0 rest =>
      obtain ⟨db2, extra, hid2, hrows, _⟩ := identify_rows clock hP
      rw [hid2] at hid
      injection hid with hid
      injection hid with hresp hdb
      subst hresp
      subst hdb
      have hf : finalPrimaryOf p0 rest ∈ uniquePrimaries db req := by
        rw [hP]; exact finalPrimaryOf_mem p0 rest
      have hfrows := uniquePrimaries_rows hf
      refine ⟨mergeRow clock (finalPrimaryOf p0 rest).id (sortPrimaries (p0 :: rest)) 0
        (finalPrimaryOf p0 rest), ?_, mergeRow_id _ _ _ _ _, ?_, ?_, ?_⟩
      · rw [hrows]
        exact List.mem_append_left _ (List.mem_map_of_mem _ hfrows.1)
      · rw [mergeRow_deletedat]
        have := hfrows.2
        unfold live at this
        exact Option.isNone_iff_eq_none.1 this
      · intro e he hne
        rw [mergeRow_email] at he
        exact emails_head _ he hne
      · intro p hp hne
        rw [mergeRow_phonenumber] at hp
        exact phoneNumbers_head _ hp hne

/-- C12, amended, at a sample: only the email of a cluster's primary is sent. -/
theorem C12_primary_first_witness :
    identify sampleClock oneCluster emailOnlyRequest =
      Except.ok ({ primaryContatctId := 1, emails := ["a@x.com", "b@x.com"],
                   phoneNumbers := ["111", "222"], secondaryContactIds := [2] },
                 oneCluster) ∧
    ∃ prim ∈ oneCluster.rows, prim.id = 1 ∧ prim.deletedat = none ∧
      (∀ e, prim.email = some e → e ≠ "" →
        (["a@x.com", "b@x.com"] : List String).head? = some e) ∧
      (∀ p, prim.phonenumber = some p → p ≠ "" →
        (["111", "222"] : List String).head? = some p) :=
  ⟨rfl,
    C12_primary_first sampleClock oneCluster emailOnlyRequest
      { primaryContatctId := 1, emails := ["a@x.com", "b@x.com"],
        phoneNumbers := ["111", "222"], secondaryContactIds := [2] }
      oneCluster rfl⟩

/-! ## The response arrays as lists of first occurrences (C13, C14, C15) -/

theorem nonBlanks_none (vs : List (Option String)) :
    ((none :: vs).filterMap (fun v => v)).filter (fun s => decide (s ≠ "")) =
      (vs.filterMap (fun v => v)).filter (fun s => decide (s ≠ "")) := by
  simp

theorem nonBlanks_blank (vs : List (Option String)) :
    ((some "" :: vs).filterMap (fun v => v)).filter (fun s => decide (s ≠ "")) =
      (vs.filterMap (fun v => v)).filter (fun s => decide (s ≠ "")) := by
  simp

theorem nonBlanks_some {s : String} (hs : s ≠ "") (vs : List (Option String)) :
    ((some s :: vs).filterMap (fun v => v)).filter (fun s => decide (s ≠ "")) =
      s :: (vs.filterMap (fun v => v)).filter (fun s => decide (s ≠ "")) := by
  simp [hs]

/-- The guarded pushes, folded over a list of values, append to the accumulator
the first occurrences of the non-blank values it does not hold yet. -/
theorem foldl_pushNew_eq (vs : List (Option String)) :
    ∀ acc : List String,
      vs.foldl pushNew acc =
        acc ++ (firstOccurrences
          ((vs.filterMap (fun v => v)).filter (fun s => decide (s ≠ "")))).filter
            (fun s => decide (s ∉ acc)) := by
  induction vs with
  | nil => intro acc; simp [firstOccurrences]
  | cons v vs ih =>
    intro acc
    rw [List.foldl_cons, ih]
    cases v with
    | none => rw [nonBlanks_none]; rfl
    | some s =>
      by_cases hs : s = ""
      · subst hs
        rw [nonBlanks_blank]
        simp [pushNew]
      · rw [nonBlanks_some hs]
        simp only [firstOccurrences]
        by_cases hm : s ∈ acc
        · have hp : pushNew acc (some s) = acc := by simp [pushNew, hm]
          rw [hp, List.filter_cons_of_neg (by simpa using hm), List.filter_filter]
          congr 1
          apply List.filter_congr
          intro y _
          by_cases hy : y ∈ acc
          · simp [hy]
          · have : y ≠ s := fun e => hy (e ▸ hm)
            simp [hy, this]
        · have hp : pushNew acc (some s) = acc ++ [s] := by simp [pushNew, hm, hs]
          rw [hp, List.filter_cons_of_pos (by simpa using hm), List.filter_filter,
            List.append_assoc]
          congr 1
          simp only [List.singleton_append]
          congr 1
          apply List.filter_congr
          intro y _
          by_cases hy : y ∈ acc <;> by_cases hys : y = s <;> simp [hy, hys]

theorem firstOccurrences_subset (l : List String) : ∀ x ∈ firstOccurrences l, x ∈ l := by
  induction l with
  | nil => intro x hx; cases hx
  | cons a l ih =>
    intro x hx
    simp only [firstOccurrences, List.mem_cons, List.mem_filter] at hx
    rcases hx with rfl | ⟨h, _⟩
    · exact List.mem_cons_self _ _
    · exact List.mem_cons_of_mem _ (ih x h)

theorem firstOccurrences_nodup (l : List String) : (firstOccurrences l).Nodup := by
  induction l with
  | nil => exact List.nodup_nil
  | cons a l ih =>
    simp only [firstOccurrences]
    refine List.nodup_cons.2 ⟨?_, ih.filter _⟩
    simp [List.mem_filter]

theorem mem_firstOccurrences (l : List String) : ∀ x, x ∈ firstOccurrences l ↔ x ∈ l := by
  induction l with
  | nil => intro x; simp [firstOccurrences]
  | cons a l ih =>
    intro x
    simp only [firstOccurrences, List.mem_cons, List.mem_filter, ih, decide_eq_true_eq]
    constructor
    · rintro (h | ⟨h, _⟩)
      · exact Or.inl h
      · exact Or.inr h
    · rintro (h | h)
      · exact Or.inl h
      · by_cases hx : x = a
        · exact Or.inl hx
        · exact Or.inr ⟨h, hx⟩

/-- The folded pushes that start from the primary's own value give the first
occurrences of the non-blank values, the primary's first. -/
theorem foldl_pushNew_asList (v : Option String) (vs : List (Option String)) :
    vs.foldl pushNew (asList v) = nonBlankValues (v :: vs) := by
  rw [foldl_pushNew_eq]
  unfold nonBlankValues
  cases v with
  | none =>
    rw [nonBlanks_none]
    simp [asList]
  | some s =>
    by_cases hs : s = ""
    · subst hs
      rw [nonBlanks_blank]
      simp [asList]
    · rw [nonBlanks_some hs, asList_of_some hs]
      simp only [firstOccurrences, List.singleton_append]
      congr 1
      apply List.filter_congr
      intro y _
      simp

theorem buildResponse_emails (f : Contact) (l : List Contact) :
    (buildResponse f l).emails =
      nonBlankValues (f.email ::
        (l.filter (fun c => decide (c.id ≠ f.id))).map (fun c => c.email)) := by
  rw [← foldl_pushNew_asList, List.foldl_map]
  rfl

theorem buildResponse_phoneNumbers (f : Contact) (l : List Contact) :
    (buildResponse f l).phoneNumbers =
      nonBlankValues (f.phonenumber ::
        (l.filter (fun c => decide (c.id ≠ f.id))).map (fun c => c.phonenumber)) := by
  rw [← foldl_pushNew_asList, List.foldl_map]
  rfl

theorem buildResponse_secondaryContactIds (f : Contact) (l : List Contact) :
    (buildResponse f l).secondaryContactIds =
      (l.filter (fun c => decide (c.id ≠ f.id))).map (fun c => c.id) := rfl

/-- The rows the response loop visits after the primary: the live rows linked to
the primary, other than the primary itself, by ascending id. -/
theorem others_perm_sorted (rows : List Contact) (pid : Nat) :
    ((allLinked rows pid).filter (fun c => decide (c.id ≠ pid))).Perm
      (rows.filter (isSecondaryOf pid)) ∧
    ((allLinked rows pid).filter (fun c => decide (c.id ≠ pid))).Sorted
      (fun a b => a.id ≤ b.id) := by
  constructor
  · unfold allLinked
    refine ((List.perm_insertionSort _ _).filter _).trans ?_
    rw [List.filter_filter]
    apply List.Perm.of_eq
    apply List.filter_congr
    intro c _
    unfold isSecondaryOf inCluster
    by_cases h1 : c.id = pid <;> by_cases h2 : c.linkedid = some pid <;>
      cases live c <;> simp [h1, h2]
  · unfold allLinked
    haveI : IsTotal Contact (fun a b => a.id ≤ b.id) := ⟨fun a b => Nat.le_total a.id b.id⟩
    haveI : IsTrans Contact (fun a b => a.id ≤ b.id) :=
      ⟨fun a b c h1 h2 => Nat.le_trans h1 h2⟩
    exact (List.sorted_insertionSort (fun a b : Contact => a.id ≤ b.id) _).filter _

/-- The answer of a successful call on the match path: assembled from a live row
`f` of the old table, whose id, email and phone a live row of the new table
still has. -/
theorem matchPath_answer (clock : Nat → Nat) {db : Db} {req : Request} {resp : Response}
    {db' : Db} (hm : findMatches db req ≠ [])
    (hid : identify clock db req = Except.ok (resp, db')) :
    ∃ f ∈ db.rows, ∃ prim ∈ db'.rows,
      prim.id = f.id ∧ prim.email = f.email ∧ prim.phonenumber = f.phonenumber ∧
      prim.deletedat = none ∧ resp = buildResponse f (allLinked db'.rows f.id) ∧
      (db'.rows.map (fun c => c.id) = db.rows.map (fun c => c.id) ∨
       db'.rows.map (fun c => c.id) = db.rows.map (fun c => c.id) ++ [db.nextId]) := by
  cases hP : uniquePrimaries db req with
  | nil =>
    rw [identify_noCandidate clock hm hP] at hid
    cases hid
  | cons p0 rest =>
    obtain ⟨db2, hid2, hcase⟩ := identify_shape clock hP
    rw [hid2] at hid
    injection hid with hid
    injection hid with hresp hdb
    subst hdb
    have hf : finalPrimaryOf p0 rest ∈ uniquePrimaries db req := by
      rw [hP]; exact finalPrimaryOf_mem p0 rest
    have hfrows := uniquePrimaries_rows hf
    have hlive : (finalPrimaryOf p0 rest).deletedat = none := by
      have := hfrows.2
      unfold live at this
      exact Option.isNone_iff_eq_none.1 this
    have hmem : mergeRow clock (finalPrimaryOf p0 rest).id (sortPrimaries (p0 :: rest)) 0
        (finalPrimaryOf p0 rest) ∈ db.rows.map
          (mergeRow clock (finalPrimaryOf p0 rest).id (sortPrimaries (p0 :: rest)) 0) :=
      List.mem_map_of_mem _ hfrows.1
    refine ⟨finalPrimaryOf p0 rest, hfrows.1,
      mergeRow clock (finalPrimaryOf p0 rest).id (sortPrimaries (p0 :: rest)) 0
        (finalPrimaryOf p0 rest), ?_, mergeRow_id _ _ _ _ _, mergeRow_email _ _ _ _ _,
      mergeRow_phonenumber _ _ _ _ _, by rw [mergeRow_deletedat]; exact hlive,
      hresp.symm, ?_⟩
    · rcases hcase with ⟨_, h2⟩ | ⟨_, ts, h2⟩
      · rw [h2]; exact hmem
      · rw [h2]; exact List.mem_append_left _ hmem
    · rcases hcase with ⟨_, h2⟩ | ⟨_, ts, h2⟩
      · left; rw [h2]; exact map_mergeRow_ids _ _ _ _ _
      · right
        rw [h2]
        show ((db.rows.map _ ++ [_]).map _) = _
        rw [List.map_append, map_mergeRow_ids]
        rfl

/-- C13 as stated fails on a stored empty email: in `blankEmailSecondary` the
secondary's email `""` is non-null, so the list of the non-null emails of the
cluster is `["a@x.com", ""]`, and the answer's `emails` is `["a@x.com"]`. -/
theorem C13_blank_email_counterexample :
    WellFormed blankEmailSecondary ∧ SerialIds blankEmailSecondary ∧
    identify sampleClock blankEmailSecondary emailOnlyRequest =
      Except.ok ({ primaryContatctId := 1, emails := ["a@x.com"],
                   phoneNumbers := ["111", "222"], secondaryContactIds := [2] },
                 blankEmailSecondary) ∧
    blankEmailSecondary.rows.filter (isSecondaryOf 1) =
      [newRow 2 (some "") (some "222") (some 1) LinkPrecedence.secondary 20] ∧
    nonNullValues [some "a@x.com", some ""] = ["a@x.com", ""] ∧
    (["a@x.com"] : List String) ≠ ["a@x.com", ""] :=
  ⟨by decide, by decide, rfl, by decide, by decide, by decide⟩

/-- C13, amended: whenever a call on the match path succeeds, `emails` is the
list of first occurrences of the emails that are neither null nor empty, taken
from the resolved primary first and then from the other live rows of the new
table linked to it, by ascending id; `emails` has no duplicates. -/
theorem C13_emails_first_occurrences (clock : Nat → Nat) (db : Db) (req : Request)
    (resp : Response) (db' : Db) (hm : findMatches db req ≠ [])
    (hid : identify clock db req = Except.ok (resp, db')) :
    ∃ prim ∈ db'.rows, ∃ others : List Contact,
      prim.id = resp.primaryContatctId ∧ prim.deletedat = none ∧
      others.Perm (db'.rows.filter (isSecondaryOf resp.primaryContatctId)) ∧
      others.Sorted (fun a b => a.id ≤ b.id) ∧
      resp.emails = nonBlankValues (prim.email :: others.map (fun c => c.email)) ∧
      resp.emails.Nodup := by
  obtain ⟨f, _, prim, hprim, hpid, hpe, _, hpl, hresp, _⟩ := matchPath_answer clock hm hid
  subst hresp
  have hps := others_perm_sorted db'.rows f.id
  refine ⟨prim, hprim, (allLinked db'.rows f.id).filter (fun c => decide (c.id ≠ f.id)),
    hpid, hpl, hps.1, hps.2, ?_, ?_⟩
  · rw [hpe]; exact buildResponse_emails f _
  · rw [buildResponse_emails]; exact firstOccurrences_nodup _

/-- C13, amended, at a sample: only the email of a cluster's primary is sent. -/
theorem C13_emails_first_occurrences_witness :
    findMatches oneCluster emailOnlyRequest ≠ [] ∧
    identify sampleClock oneCluster emailOnlyRequest =
      Except.ok ({ primaryContatctId := 1, emails := ["a@x.com", "b@x.com"],
                   phoneNumbers := ["111", "222"], secondaryContactIds := [2] },
                 oneCluster) ∧
    ∃ prim ∈ oneCluster.rows, ∃ others : List Contact,
      prim.id = 1 ∧ prim.deletedat = none ∧
      others.Perm (oneCluster.rows.filter (isSecondaryOf 1)) ∧
      others.Sorted (fun a b => a.id ≤ b.id) ∧
      (["a@x.com", "b@x.com"] : List String) =
        nonBlankValues (prim.email :: others.map (fun c => c.email)) ∧
      (["a@x.com", "b@x.com"] : List String).Nodup :=
  ⟨by decide, rfl,
    C13_emails_first_occurrences sampleClock oneCluster emailOnlyRequest
      { primaryContatctId := 1, emails := ["a@x.com", "b@x.com"],
        phoneNumbers := ["111", "222"], secondaryContactIds := [2] }
      oneCluster (by decide) rfl⟩

/-- C14 as stated fails on a stored empty phone: in `blankPhoneSecondary` the
secondary's phone `""` is non-null, so the list of the non-null phones of the
cluster is `["111", ""]`, and the answer's `phoneNumbers` is `["111"]`. -/
theorem C14_blank_phone_counterexample :
    WellFormed blankPhoneSecondary ∧ SerialIds blankPhoneSecondary ∧
    identify sampleClock blankPhoneSecondary phoneOnlyRequest =
      Except.ok ({ primaryContatctId := 1, emails := ["a@x.com", "b@x.com"],
                   phoneNumbers := ["111"], secondaryContactIds := [2] },
                 blankPhoneSecondary) ∧
    blankPhoneSecondary.rows.filter (isSecondaryOf 1) =
      [newRow 2 (some "b@x.com") (some "") (some 1) LinkPrecedence.secondary 20] ∧
    nonNullValues [some "111", some ""] = ["111", ""] ∧
    (["111"] : List String) ≠ ["111", ""] :=
  ⟨by decide, by decide, rfl, by decide, by decide, by decide⟩

/-- C14, amended: whenever a call on the match path succeeds, `phoneNumbers` is
the list of first occurrences of the phones that are neither null nor empty,
taken from the resolved primary first and then from the other live rows of the
new table linked to it, by ascending id; `phoneNumbers` has no duplicates. -/
theorem C14_phones_first_occurrences (clock : Nat → Nat) (db : Db) (req : Request)
    (resp : Response) (db' : Db) (hm : findMatches db req ≠ [])
    (hid : identify clock db req = Except.ok (resp, db')) :
    ∃ prim ∈ db'.rows, ∃ others : List Contact,
      prim.id = resp.primaryContatctId ∧ prim.deletedat = none ∧
      others.Perm (db'.rows.filter (isSecondaryOf resp.primaryContatctId)) ∧
      others.Sorted (fun a b => a.id ≤ b.id) ∧
      resp.phoneNumbers =
        nonBlankValues (prim.phonenumber :: others.map (fun c => c.phonenumber)) ∧
      resp.phoneNumbers.Nodup := by
  obtain ⟨f, _, prim, hprim, hpid, _, hpp, hpl, hresp, _⟩ := matchPath_answer clock hm hid
  subst hresp
  have hps := others_perm_sorted db'.rows f.id
  refine ⟨prim, hprim, (allLinked db'.rows f.id).filter (fun c => decide (c.id ≠ f.id)),
    hpid, hpl, hps.1, hps.2, ?_, ?_⟩
  · rw [hpp]; exact buildResponse_phoneNumbers f _
  · rw [buildResponse_phoneNumbers]; exact firstOccurrences_nodup _

/-- C14, amended, at a sample: only the phone of a cluster's secondary is sent. -/
theorem C14_phones_first_occurrences_witness :
    findMatches oneCluster { email := none, phoneNumber := some "222" } ≠ [] ∧
    identify sampleClock oneCluster { email := none, phoneNumber := some "222" } =
      Except.ok ({ primaryContatctId := 1, emails := ["a@x.com", "b@x.com"],
                   phoneNumbers := ["111", "222"], secondaryContactIds := [2] },
                 oneCluster) ∧
    ∃ prim ∈ oneCluster.rows, ∃ others : List Contact,
      prim.id = 1 ∧ prim.deletedat = none ∧
      others.Perm (oneCluster.rows.filter (isSecondaryOf 1)) ∧
      others.Sorted (fun a b => a.id ≤ b.id) ∧
      (["111", "222"] : List String) =
        nonBlankValues (prim.phonenumber :: others.map (fun c => c.phonenumber)) ∧
      (["111", "222"] : List String).Nodup :=
  ⟨by decide, rfl,
    C14_phones_first_occurrences sampleClock oneCluster
      { email := none, phoneNumber := some "222" }
      { primaryContatctId := 1, emails := ["a@x.com", "b@x.com"],
        phoneNumbers := ["111", "222"], secondaryContactIds := [2] }
      oneCluster (by decide) rfl⟩

/-- C15: whenever a call on the match path succeeds, `secondaryContactIds` lists,
by ascending id, exactly the ids of the live rows of the new table whose
`linkedId` is the returned primary id, the primary itself left out; on a table
that satisfies the primary-key constraint the order is strictly ascending. -/
theorem C15_secondary_ids (clock : Nat → Nat) (db : Db) (req : Request)
    (resp : Response) (db' : Db) (hm : findMatches db req ≠ [])
    (hid : identify clock db req = Except.ok (resp, db')) :
    resp.secondaryContactIds.Perm
      ((db'.rows.filter (isSecondaryOf resp.primaryContatctId)).map (fun c => c.id)) ∧
    resp.secondaryContactIds.Sorted (fun a b => a ≤ b) ∧
    (KeyOk db → resp.secondaryContactIds.Sorted (fun a b => a < b)) := by
  obtain ⟨f, _, prim, _, _, _, _, _, hresp, hids⟩ := matchPath_answer clock hm hid
  subst hresp
  have hps := others_perm_sorted db'.rows f.id
  have hperm : (buildResponse f (allLinked db'.rows f.id)).secondaryContactIds.Perm
      ((db'.rows.filter (isSecondaryOf f.id)).map (fun c => c.id)) := by
    rw [buildResponse_secondaryContactIds]
    exact hps.1.map _
  have hsorted : (buildResponse f (allLinked db'.rows f.id)).secondaryContactIds.Sorted
      (fun a b => a ≤ b) := by
    rw [buildResponse_secondaryContactIds]
    exact List.Pairwise.map _ (fun _ _ h => h) hps.2
  refine ⟨hperm, hsorted, ?_⟩
  intro hkey
  have hnd : (db'.rows.map (fun c => c.id)).Nodup := by
    rcases hids with h | h
    · rw [h]; exact hkey.1
    · rw [h]
      refine List.Nodup.append hkey.1 (List.nodup_singleton _) ?_
      intro a ha hb
      rw [List.mem_singleton] at hb
      obtain ⟨c, hc, rfl⟩ := List.mem_map.1 ha
      exact hkey.2 c hc hb
  have hnd2 : ((db'.rows.filter (isSecondaryOf f.id)).map (fun c => c.id)).Nodup :=
    List.Nodup.sublist ((List.filter_sublist _).map _) hnd
  exact List.Sorted.lt_of_le hsorted (hperm.nodup_iff.2 hnd2)

/-- C15 at a sample: only the email of a cluster's primary is sent. -/
theorem C15_secondary_ids_witness :
    findMatches oneCluster emailOnlyRequest ≠ [] ∧
    identify sampleClock oneCluster emailOnlyRequest =
      Except.ok ({ primaryContatctId := 1, emails := ["a@x.com", "b@x.com"],
                   phoneNumbers := ["111", "222"], secondaryContactIds := [2] },
                 oneCluster) ∧
    ([2] : List Nat).Perm ((oneCluster.rows.filter (isSecondaryOf 1)).map (fun c => c.id)) ∧
    ([2] : List Nat).Sorted (fun a b => a ≤ b) ∧
    (KeyOk oneCluster → ([2] : List Nat).Sorted (fun a b => a < b)) :=
  ⟨by decide, rfl,
    C15_secondary_ids sampleClock oneCluster emailOnlyRequest
      { primaryContatctId := 1, emails := ["a@x.com", "b@x.com"],
        phoneNumbers := ["111", "222"], secondaryContactIds := [2] }
      oneCluster (by decide) rfl⟩

/-! ## Requests without identifiers, and blank identifiers (C16, C17) -/

/-- C16: on every table, a call with both fields absent or null succeeds, appends
exactly one row, a live primary with null email, phone and `linkedId`, leaves the
old rows as they were, and answers with the new id and three empty arrays. -/
theorem C16_null_request_creates_primary (clock : Nat → Nat) (db : Db) :
    identify clock db { email := none, phoneNumber := none } =
      Except.ok
        ({ primaryContatctId := db.nextId, emails := [], phoneNumbers := [],
           secondaryContactIds := [] },
         { rows := db.rows ++ [newRow db.nextId none none none LinkPrecedence.primary (clock 0)],
           nextId := db.nextId + 1 }) := by
  have hm : findMatches db { email := none, phoneNumber := none } = [] := by
    simp [findMatches, truthy]
  rw [identify_noMatch clock hm]
  rfl

theorem matchesRow_blank_email (p : Option String) (c : Contact) :
    matchesRow { email := some "", phoneNumber := p } c =
      matchesRow { email := none, phoneNumber := p } c := by
  simp [matchesRow, truthy]

theorem matchesRow_blank_phone (e : Option String) (c : Contact) :
    matchesRow { email := e, phoneNumber := some "" } c =
      matchesRow { email := e, phoneNumber := none } c := by
  simp [matchesRow, truthy]

theorem findMatches_blank_email (db : Db) (p : Option String) :
    findMatches db { email := some "", phoneNumber := p } =
      findMatches db { email := none, phoneNumber := p } := by
  rw [findMatches_eq_filter, findMatches_eq_filter]
  apply List.filter_congr
  intro c _
  exact matchesRow_blank_email p c

theorem findMatches_blank_phone (db : Db) (e : Option String) :
    findMatches db { email := e, phoneNumber := some "" } =
      findMatches db { email := e, phoneNumber := none } := by
  rw [findMatches_eq_filter, findMatches_eq_filter]
  apply List.filter_congr
  intro c _
  exact matchesRow_blank_phone e c

theorem needNewSecondary_blank_email (rows : List Contact) (p : Option String) (pid : Nat) :
    needNewSecondary rows { email := some "", phoneNumber := p } pid =
      needNewSecondary rows { email := none, phoneNumber := p } pid := by
  simp [needNewSecondary, truthy]

theorem needNewSecondary_blank_phone (rows : List Contact) (e : Option String) (pid : Nat) :
    needNewSecondary rows { email := e, phoneNumber := some "" } pid =
      needNewSecondary rows { email := e, phoneNumber := none } pid := by
  simp [needNewSecondary, truthy]

theorem identify_blank_email (clock : Nat → Nat) (db : Db) (p : Option String) :
    identify clock db { email := some "", phoneNumber := p } =
      identify clock db { email := none, phoneNumber := p } := by
  unfold identify uniquePrimaries fillGap
  simp only [findMatches_blank_email, needNewSecondary_blank_email]
  rfl

theorem identify_blank_phone (clock : Nat → Nat) (db : Db) (e : Option String) :
    identify clock db { email := e, phoneNumber := some "" } =
      identify clock db { email := e, phoneNumber := none } := by
  unfold identify uniquePrimaries fillGap
  simp only [findMatches_blank_phone, needNewSecondary_blank_phone]
  rfl

/-- The rows a successful call appends hold the request's fields under
`v || null`. -/
theorem inserted_fields (clock : Nat → Nat) {db : Db} {req : Request} {resp : Response}
    {db' : Db} (hid : identify clock db req = Except.ok (resp, db')) :
    ∀ c ∈ db'.rows.drop db.rows.length,
      c.email = orNull req.email ∧ c.phonenumber = orNull req.phoneNumber := by
  by_cases hm : findMatches db req = []
  · rw [identify_noMatch clock hm] at hid
    injection hid with hid
    injection hid with _ hdb
    subst hdb
    intro c hc
    unfold insertContact at hc
    rw [List.drop_left' rfl, List.mem_singleton] at hc
    subst hc
    exact ⟨rfl, rfl⟩
  · cases hP : uniquePrimaries db req with
    | nil =>
      rw [identify_noCandidate clock hm hP] at hid
      cases hid
    | cons p0 rest =>
      obtain ⟨db2, extra, hid2, hrows, hextra⟩ := identify_rows clock hP
      rw [hid2] at hid
      injection hid with hid
      injection hid with _ hdb
      subst hdb
      intro c hc
      rw [hrows, List.drop_left' (by simp)] at hc
      have := hextra c hc
      exact ⟨this.2.2.2.2.1, this.2.2.2.2.2⟩

/-- C17: on every table, a call with the empty string for the email does what the
call with a null email does (same answer, same resulting table), and likewise for
the phone; an empty-string field matches no row, whatever the rows hold, and the
row a call appends has null in place of it. -/
theorem C17_blank_is_absent (clock : Nat → Nat) (db : Db) (e p : Option String) :
    identify clock db { email := some "", phoneNumber := p } =
      identify clock db { email := none, phoneNumber := p } ∧
    identify clock db { email := e, phoneNumber := some "" } =
      identify clock db { email := e, phoneNumber := none } ∧
    (∀ c ∈ findMatches db { email := some "", phoneNumber := p },
      truthy p = true ∧ c.phonenumber = p) ∧
    (∀ c ∈ findMatches db { email := e, phoneNumber := some "" },
      truthy e = true ∧ c.email = e) ∧
    (∀ resp db', identify clock db { email := some "", phoneNumber := p } =
        Except.ok (resp, db') → ∀ c ∈ db'.rows.drop db.rows.length, c.email = none) ∧
    (∀ resp db', identify clock db { email := e, phoneNumber := some "" } =
        Except.ok (resp, db') → ∀ c ∈ db'.rows.drop db.rows.length, c.phonenumber = none) := by
  refine ⟨identify_blank_email clock db p, identify_blank_phone clock db e, ?_, ?_, ?_, ?_⟩
  · intro c hc
    have := (mem_findMatches.1 hc).2
    have hb : truthy (some "") = false := rfl
    simp only [matchesRow, hb, Bool.false_and, Bool.false_or, Bool.and_eq_true,
      decide_eq_true_eq] at this
    exact this.2
  · intro c hc
    have := (mem_findMatches.1 hc).2
    have hb : truthy (some "") = false := rfl
    simp only [matchesRow, hb, Bool.false_and, Bool.or_false, Bool.and_eq_true,
      decide_eq_true_eq] at this
    exact this.2
  · intro resp db' hid c hc
    exact (inserted_fields clock hid c hc).1
  · intro resp db' hid c hc
    exact (inserted_fields clock hid c hc).2

/-! ## Failure and success of the resolution (C18, C19) -/

theorem resolve_dangling {db : Db} {m : Contact} (h : Dangling db m) : resolve db m = none := by
  unfold resolve
  have hnp : m.linkprecedence ≠ LinkPrecedence.primary := by rw [h.1]; decide
  simp only [hnp, if_false]
  cases hl : m.linkedid with
  | none => rfl
  | some l =>
    by_cases hl0 : l = 0
    · simp [hl0]
    · simp only [ne_eq, hl0, not_false_eq_true, if_true]
      cases hf : findLiveById db l with
      | none => rfl
      | some q =>
        obtain ⟨hq, hqid, hql⟩ := findLiveById_some hf
        exact absurd (by rw [hl, hqid]) (h.2 q hq hql)

theorem foldl_foldSet_none (g : Contact → Option Contact) (l : List Contact)
    (h : ∀ c ∈ l, g c = none) (init : List Contact) : l.foldl (foldSet g) init = init := by
  induction l with
  | nil => rfl
  | cons a l ih =>
    rw [List.foldl_cons]
    have : foldSet g init a = init := by
      unfold foldSet
      rw [h a (List.mem_cons_self _ _)]
    rw [this]
    exact ih (fun c hc => h c (List.mem_cons_of_mem _ hc))

/-- C18 as stated fails: in `danglingDb` the request `phoneOnlyRequest` matches
contact 3, a live secondary of the tombstoned contact 2, together with the live
primary 1, and the call returns a consolidated contact. -/
theorem C18_dangling_skipped_counterexample :
    newRow 3 (some "b@x.com") (some "111") (some 2) LinkPrecedence.secondary 30
      ∈ findMatches danglingDb phoneOnlyRequest ∧
    Dangling danglingDb
      (newRow 3 (some "b@x.com") (some "111") (some 2) LinkPrecedence.secondary 30) ∧
    identify sampleClock danglingDb phoneOnlyRequest =
      Except.ok ({ primaryContatctId := 1, emails := ["a@x.com"], phoneNumbers := ["111"],
                   secondaryContactIds := [] }, danglingDb) :=
  ⟨by decide, by decide, rfl⟩

/-- C18, amended: on every table, for a request that matches at least one live
contact, when every matched contact is a secondary whose `linkedId` names no
live row, the call fails with the integrity error. -/
theorem C18_all_dangling_fails (clock : Nat → Nat) (db : Db) (req : Request)
    (hm : findMatches db req ≠ [])
    (hall : ∀ m ∈ findMatches db req, Dangling db m) :
    identify clock db req = Except.error "No primary contact found" := by
  apply identify_noCandidate clock hm
  rw [uniquePrimaries_eq]
  apply foldl_foldSet_none
  intro c hc
  exact resolve_dangling (hall c (mem_uniqueContacts hc))

/-- C18, amended, at a sample: the only matched contact is a live secondary of a
tombstoned primary. -/
theorem C18_all_dangling_fails_witness :
    findMatches allDanglingDb phoneOnlyRequest ≠ [] ∧
    (∀ m ∈ findMatches allDanglingDb phoneOnlyRequest, Dangling allDanglingDb m) ∧
    identify sampleClock allDanglingDb phoneOnlyRequest =
      Except.error "No primary contact found" :=
  ⟨by decide, by decide,
    C18_all_dangling_fails sampleClock allDanglingDb phoneOnlyRequest (by decide) (by decide)⟩

/-- C19, amended: on every well-formed table whose ids are positive, every call succeeds,
whatever the request's email and phone are (absent, null, empty or any string):
the `'No primary contact found'` branch is not reached. -/
theorem C19_wellformed_never_fails (clock : Nat → Nat) (db : Db) (req : Request)
    (hwf : WellFormed db) (hpos : ∀ c ∈ db.rows, 0 < c.id) :
    ∃ (resp : Response) (db' : Db), identify clock db req = Except.ok (resp, db') := by
  by_cases hm : findMatches db req = []
  · exact ⟨_, _, identify_noMatch clock hm⟩
  · cases hP : uniquePrimaries db req with
    | nil => exact absurd hP (uniquePrimaries_ne_nil hwf hpos hm)
    | cons p0 rest => exact ⟨_, _, identify_candidates clock hP⟩

/-- C19, amended, at a sample: only the phone of the secondary of `oneCluster` is sent. -/
theorem C19_wellformed_never_fails_witness :
    WellFormed oneCluster ∧ (∀ c ∈ oneCluster.rows, 0 < c.id) ∧
    ∃ (resp : Response) (db' : Db),
      identify sampleClock oneCluster { email := none, phoneNumber := some "222" } =
        Except.ok (resp, db') :=
  ⟨by decide, by decide,
    C19_wellformed_never_fails sampleClock oneCluster
      { email := none, phoneNumber := some "222" } (by decide) (by decide)⟩

/-! ## Well-formedness is kept (C20) -/

/-- The merge loop keeps a table well-formed, whatever its ids are. -/
theorem merged_wellFormed (clock : Nat → Nat) {db : Db} (hwf : WellFormed db) {req : Request}
    {p0 : Contact} {rest : List Contact} (hP : uniquePrimaries db req = p0 :: rest) (n : Nat) :
    WellFormed
      { rows := db.rows.map
          (mergeRow clock (finalPrimaryOf p0 rest).id (sortPrimaries (p0 :: rest)) 0),
        nextId := n } := by
  have hf : finalPrimaryOf p0 rest ∈ uniquePrimaries db req := by
    rw [hP]; exact finalPrimaryOf_mem p0 rest
  have hfrows := uniquePrimaries_rows hf
  have hfprim := uniquePrimaries_primary hwf hf
  have hfkeep := mergeRow_survivor clock hwf hP
  have hfin : ∃ q ∈ db.rows.map
      (mergeRow clock (finalPrimaryOf p0 rest).id (sortPrimaries (p0 :: rest)) 0),
      live q = true ∧ q.linkprecedence = LinkPrecedence.primary ∧
      some (finalPrimaryOf p0 rest).id = some q.id :=
    ⟨finalPrimaryOf p0 rest, by
      rw [List.mem_map]; exact ⟨_, hfrows.1, hfkeep⟩, hfrows.2, hfprim.1, rfl⟩
  constructor
  · show ((db.rows.map _).map _).Nodup
    rw [map_mergeRow_ids]
    exact hwf.1
  · intro r hr hrl
    obtain ⟨c, hc, rfl⟩ := List.mem_map.1 hr
    rw [mergeRow_live] at hrl
    rcases hwf.2 c hc hrl with ⟨hcp, hcn⟩ | ⟨hsec, q0, hq0, hq0l, hq0p, hlk⟩
    · by_cases hL : ∃ q ∈ sortPrimaries (p0 :: rest),
          q.id ≠ (finalPrimaryOf p0 rest).id ∧ c.id = q.id
      · have := mergeRow_loser clock _ _ 0 c hL
        obtain ⟨q, hq, hql, hqp, hqid⟩ := hfin
        exact Or.inr ⟨this.2, q, hq, hql, hqp, by rw [this.1, hqid]⟩
      · have hun : mergeRow clock (finalPrimaryOf p0 rest).id (sortPrimaries (p0 :: rest)) 0 c
            = c := by
          apply mergeRow_unchanged
          intro q hq hqf
          refine ⟨fun e => hL ⟨q, hq, hqf, e⟩, ?_⟩
          rw [hcn]
          exact fun e => Option.noConfusion e
        rw [hun]
        exact Or.inl ⟨hcp, hcn⟩
    · right
      refine ⟨mergeRow_secondary clock _ _ 0 c hsec, ?_⟩
      rcases mergeRow_linkedid_or clock (finalPrimaryOf p0 rest).id
        (sortPrimaries (p0 :: rest)) 0 c with h1 | h1
      · by_cases hL : ∃ q ∈ sortPrimaries (p0 :: rest),
            q.id ≠ (finalPrimaryOf p0 rest).id ∧ c.linkedid = some q.id
        · have := mergeRow_repointed clock _ _ 0 c hL
          obtain ⟨q, hq, hql, hqp, hqid⟩ := hfin
          exact ⟨q, hq, hql, hqp, by rw [this, hqid]⟩
        · have hq0keep : mergeRow clock (finalPrimaryOf p0 rest).id
              (sortPrimaries (p0 :: rest)) 0 q0 = q0 := by
            apply mergeRow_unchanged
            intro q hq hqf
            constructor
            · intro e
              exact hL ⟨q, hq, hqf, by rw [hlk, e]⟩
            · rcases hwf.2 q0 hq0 hq0l with h2 | h2
              · rw [h2.2]
                exact fun e => Option.noConfusion e
              · rw [hq0p] at h2; cases h2.1
          refine ⟨q0, ?_, hq0l, hq0p, by rw [h1, hlk]⟩
          rw [List.mem_map]
          exact ⟨q0, hq0, hq0keep⟩
      · obtain ⟨q, hq, hql, hqp, hqid⟩ := hfin
        exact ⟨q, hq, hql, hqp, by rw [h1, hqid]⟩

/-- Appending a live secondary of a live primary keeps the link structure,
whatever id the new row has. -/
theorem link_append_secondary {d : Db} (hl : LinkInvariant d) {new p : Contact} (n : Nat)
    (hsec : new.linkprecedence = LinkPrecedence.secondary)
    (hp : p ∈ d.rows) (hpl : live p = true) (hpp : p.linkprecedence = LinkPrecedence.primary)
    (hlk : new.linkedid = some p.id) :
    LinkInvariant { rows := d.rows ++ [new], nextId := n } := by
  intro c hc hcl
  rcases List.mem_append.1 hc with hc | hc
  · rcases hl c hc hcl with h1 | ⟨h1, q, hq, h2⟩
    · exact Or.inl h1
    · exact Or.inr ⟨h1, q, List.mem_append_left _ hq, h2⟩
  · rw [List.mem_singleton] at hc
    subst hc
    exact Or.inr ⟨hsec, p, List.mem_append_left _ hp, hpl, hpp, hlk⟩

/-- Appending a primary with null `linkedId` keeps the link structure. -/
theorem link_append_primary {d : Db} (hl : LinkInvariant d) {new : Contact} (n : Nat)
    (hprim : new.linkprecedence = LinkPrecedence.primary) (hlk : new.linkedid = none) :
    LinkInvariant { rows := d.rows ++ [new], nextId := n } := by
  intro c hc hcl
  rcases List.mem_append.1 hc with hc | hc
  · rcases hl c hc hcl with h1 | ⟨h1, q, hq, h2⟩
    · exact Or.inl h1
    · exact Or.inr ⟨h1, q, List.mem_append_left _ hq, h2⟩
  · rw [List.mem_singleton] at hc
    subst hc
    exact Or.inl ⟨hprim, hlk⟩

theorem storeAfter_ok {clock : Nat → Nat} {db : Db} {req : Request} {resp : Response}
    {db' : Db} (h : identify clock db req = Except.ok (resp, db')) :
    storeAfter clock db req = db' := by
  unfold storeAfter
  rw [h]

theorem storeAfter_error {clock : Nat → Nat} {db : Db} {req : Request} {e : String}
    (h : identify clock db req = Except.error e) : storeAfter clock db req = db := by
  unfold storeAfter
  rw [h]

/-- C20: a call on a well-formed table leaves a table with the same link
structure, for every request: every live contact is a primary with null
`linkedId` or a secondary whose `linkedId` is the id of a live primary; and
when the sequence's next value is not in use the ids stay unique too, so that
the table is again well-formed. -/
theorem C20_wellformed_invariant (clock : Nat → Nat) (db : Db) (req : Request)
    (hwf : WellFormed db) :
    LinkInvariant (storeAfter clock db req) ∧
    ((∀ c ∈ db.rows, c.id ≠ db.nextId) → WellFormed (storeAfter clock db req)) := by
  by_cases hm : findMatches db req = []
  · rw [storeAfter_ok (identify_noMatch clock hm)]
    exact ⟨link_append_primary hwf.2 _ rfl rfl,
      fun hfresh => wf_append_primary hwf _ hfresh rfl rfl⟩
  · cases hP : uniquePrimaries db req with
    | nil =>
      rw [storeAfter_error (identify_noCandidate clock hm hP)]
      exact ⟨hwf.2, fun _ => hwf⟩
    | cons p0 rest =>
      obtain ⟨db2, hid, hcase⟩ := identify_shape clock hP
      rw [storeAfter_ok hid]
      have hwfm := merged_wellFormed clock hwf hP db.nextId
      have hf : finalPrimaryOf p0 rest ∈ uniquePrimaries db req := by
        rw [hP]; exact finalPrimaryOf_mem p0 rest
      have hfrows := uniquePrimaries_rows hf
      have hfprim := (uniquePrimaries_primary hwf hf).1
      have hfmerged : finalPrimaryOf p0 rest ∈ db.rows.map
          (mergeRow clock (finalPrimaryOf p0 rest).id (sortPrimaries (p0 :: rest)) 0) := by
        rw [List.mem_map]; exact ⟨_, hfrows.1, mergeRow_survivor clock hwf hP⟩
      rcases hcase with ⟨_, hdb2⟩ | ⟨_, ts, hdb2⟩
      · subst hdb2
        exact ⟨hwfm.2, fun _ => hwfm⟩
      · subst hdb2
        refine ⟨link_append_secondary hwfm.2 _ rfl hfmerged hfrows.2 hfprim rfl, ?_⟩
        intro hfresh
        refine wf_append_secondary hwfm _ ?_ rfl hfmerged hfrows.2 hfprim rfl
        intro r hr
        obtain ⟨c, hc, rfl⟩ := List.mem_map.1 hr
        rw [mergeRow_id]
        exact hfresh c hc

/-- C20 at a sample: the merge of `twoPrimaries`. -/
theorem C20_wellformed_invariant_witness :
    WellFormed twoPrimaries ∧
    LinkInvariant (storeAfter sampleClock twoPrimaries linkingRequest) ∧
    ((∀ c ∈ twoPrimaries.rows, c.id ≠ twoPrimaries.nextId) →
      WellFormed (storeAfter sampleClock twoPrimaries linkingRequest)) :=
  ⟨by decide, C20_wellformed_invariant sampleClock twoPrimaries linkingRequest (by decide)⟩

/-! ## What a call may change (C23, C27) -/

/-- A row the merge loop changes is a loser or pointed at one. -/
theorem mergeRow_changed (clock : Nat → Nat) (f : Nat) (ps : List Contact) (k : Nat)
    (c : Contact) (h : mergeRow clock f ps k c ≠ c) :
    ∃ p ∈ ps, p.id ≠ f ∧ (c.id = p.id ∨ c.linkedid = some p.id) := by
  by_contra hno
  apply h
  apply mergeRow_unchanged
  intro p hp hpf
  constructor
  · intro e; exact hno ⟨p, hp, hpf, Or.inl e⟩
  · intro e; exact hno ⟨p, hp, hpf, Or.inr e⟩

/-- The table after a call, row by row: every old row passed through a function
that keeps its id, email, phone, creation time and `deletedAt` and changes only
losers and the rows that pointed at them, followed by at most one new row. -/
theorem storeAfter_rows (clock : Nat → Nat) (db : Db) (req : Request) :
    ∃ (g : Contact → Contact) (extra : List Contact),
      (storeAfter clock db req).rows = db.rows.map g ++ extra ∧ extra.length ≤ 1 ∧
      (∀ c, (g c).id = c.id ∧ (g c).email = c.email ∧ (g c).phonenumber = c.phonenumber ∧
        (g c).createdat = c.createdat ∧ (g c).deletedat = c.deletedat) ∧
      (∀ c, g c ≠ c → ∃ p0 rest, uniquePrimaries db req = p0 :: rest ∧
        ∃ P ∈ p0 :: rest, P.id ≠ (finalPrimaryOf p0 rest).id ∧
          (c.id = P.id ∨ c.linkedid = some P.id)) := by
  by_cases hm : findMatches db req = []
  · rw [storeAfter_ok (identify_noMatch clock hm)]
    refine ⟨id, [newRow db.nextId (orNull req.email) (orNull req.phoneNumber) none
      LinkPrecedence.primary (clock 0)], ?_, by simp, fun c => ⟨rfl, rfl, rfl, rfl, rfl⟩,
      fun c h => absurd rfl h⟩
    simp [insertContact]
  · cases hP : uniquePrimaries db req with
    | nil =>
      rw [storeAfter_error (identify_noCandidate clock hm hP)]
      exact ⟨id, [], by simp, by simp, fun c => ⟨rfl, rfl, rfl, rfl, rfl⟩,
        fun c h => absurd rfl h⟩
    | cons p0 rest =>
      obtain ⟨db2, hid, hcase⟩ := identify_shape clock hP
      rw [storeAfter_ok hid]
      have hfields : ∀ c,
          (mergeRow clock (finalPrimaryOf p0 rest).id (sortPrimaries (p0 :: rest)) 0 c).id = c.id ∧
          (mergeRow clock (finalPrimaryOf p0 rest).id (sortPrimaries (p0 :: rest)) 0 c).email
            = c.email ∧
          (mergeRow clock (finalPrimaryOf p0 rest).id (sortPrimaries (p0 :: rest)) 0
            c).phonenumber = c.phonenumber ∧
          (mergeRow clock (finalPrimaryOf p0 rest).id (sortPrimaries (p0 :: rest)) 0
            c).createdat = c.createdat ∧
          (mergeRow clock (finalPrimaryOf p0 rest).id (sortPrimaries (p0 :: rest)) 0
            c).deletedat = c.deletedat :=
        fun c => ⟨mergeRow_id _ _ _ _ _, mergeRow_email _ _ _ _ _,
          mergeRow_phonenumber _ _ _ _ _, mergeRow_createdat _ _ _ _ _,
          mergeRow_deletedat _ _ _ _ _⟩
      have hchanged : ∀ c,
          mergeRow clock (finalPrimaryOf p0 rest).id (sortPrimaries (p0 :: rest)) 0 c ≠ c →
          ∃ q0 qs, p0 :: rest = q0 :: qs ∧
            ∃ P ∈ q0 :: qs, P.id ≠ (finalPrimaryOf q0 qs).id ∧
              (c.id = P.id ∨ c.linkedid = some P.id) := by
        intro c hc
        obtain ⟨P, hPs, hPf, hor⟩ := mergeRow_changed clock _ _ 0 c hc
        exact ⟨p0, rest, rfl, P, mem_sortPrimaries.1 hPs, hPf, hor⟩
      rcases hcase with ⟨_, h2⟩ | ⟨_, ts, h2⟩
      · exact ⟨_, [], by rw [h2, List.append_nil], by simp, hfields, hchanged⟩
      · exact ⟨_, _, by rw [h2], by simp, hfields, hchanged⟩

/-- C23: on every table and for every request, a call removes and tombstones
nothing and inserts at most one row: every row of the old table is, at the same
place of the new table, a row with the same id and the same `deletedAt`, and the
new table has at most one row more than the old one. -/
theorem C23_nothing_removed (clock : Nat → Nat) (db : Db) (req : Request) :
    (∀ (i : Nat) (c : Contact), db.rows[i]? = some c →
      ∃ c', (storeAfter clock db req).rows[i]? = some c' ∧ c'.id = c.id ∧
        c'.deletedat = c.deletedat) ∧
    db.rows.length ≤ (storeAfter clock db req).rows.length ∧
    (storeAfter clock db req).rows.length ≤ db.rows.length + 1 := by
  obtain ⟨g, extra, hrows, hlen, hfields, _⟩ := storeAfter_rows clock db req
  refine ⟨?_, ?_, ?_⟩
  · intro i c hi
    have hlt : i < db.rows.length := (List.getElem?_eq_some_iff.1 hi).1
    refine ⟨g c, ?_, (hfields c).1, (hfields c).2.2.2.2⟩
    rw [hrows, List.getElem?_append_left (by simpa using hlt), List.getElem?_map, hi]
    rfl
  · rw [hrows]; simp
  · rw [hrows]; simp; omega

/-- C27: on every table and for every request, a row of the old table is, at the
same place of the new table, a row with the same id, email, phone, creation time
and `deletedAt`; it differs from the old row (in `linkPrecedence`, `linkedId` or
`updatedAt`, the only other columns) only if its id is a losing candidate's or its
`linkedId` was a losing candidate's id; and when the request resolves to exactly
one candidate every old row is left as it was. -/
theorem C27_only_merge_changes_rows (clock : Nat → Nat) (db : Db) (req : Request) :
    ∀ (i : Nat) (c : Contact), db.rows[i]? = some c →
      ∃ c', (storeAfter clock db req).rows[i]? = some c' ∧
        c'.id = c.id ∧ c'.email = c.email ∧ c'.phonenumber = c.phonenumber ∧
        c'.createdat = c.createdat ∧ c'.deletedat = c.deletedat ∧
        (c' ≠ c → ∃ p0 rest, uniquePrimaries db req = p0 :: rest ∧
          ∃ P ∈ p0 :: rest, P.id ≠ (finalPrimaryOf p0 rest).id ∧
            (c.id = P.id ∨ c.linkedid = some P.id)) ∧
        ((uniquePrimaries db req).length = 1 → c' = c) := by
  obtain ⟨g, extra, hrows, _, hfields, hchanged⟩ := storeAfter_rows clock db req
  intro i c hi
  have hlt : i < db.rows.length := (List.getElem?_eq_some_iff.1 hi).1
  refine ⟨g c, ?_, (hfields c).1, (hfields c).2.1, (hfields c).2.2.1, (hfields c).2.2.2.1,
    (hfields c).2.2.2.2, hchanged c, ?_⟩
  · rw [hrows, List.getElem?_append_left (by simpa using hlt), List.getElem?_map, hi]
    rfl
  · intro hone
    by_contra hne
    obtain ⟨p0, rest, hP, P, hPm, hPf, _⟩ := hchanged c hne
    rw [hP] at hone
    cases rest with
    | nil =>
      rw [List.mem_singleton] at hPm
      subst hPm
      rw [finalPrimaryOf_single] at hPf
      exact hPf rfl
    | cons a l => simp at hone

/-! ## Roles in the answer (C22) -/

/-- A call on a well-formed table leaves the link structure in place, and a
well-formed table when the sequence's next value is unused. -/
theorem storeAfter_wellFormed (clock : Nat → Nat) {db : Db} (req : Request)
    (hwf : WellFormed db) :
    LinkInvariant (storeAfter clock db req) ∧
    ((∀ c ∈ db.rows, c.id ≠ db.nextId) → WellFormed (storeAfter clock db req)) := by
  by_cases hm : findMatches db req = []
  · rw [storeAfter_ok (identify_noMatch clock hm)]
    exact ⟨link_append_primary hwf.2 _ rfl rfl,
      fun hfresh => wf_append_primary hwf _ hfresh rfl rfl⟩
  · cases hP : uniquePrimaries db req with
    | nil =>
      rw [storeAfter_error (identify_noCandidate clock hm hP)]
      exact ⟨hwf.2, fun _ => hwf⟩
    | cons p0 rest =>
      obtain ⟨db2, hid, hcase⟩ := identify_shape clock hP
      rw [storeAfter_ok hid]
      have hwfm := merged_wellFormed clock hwf hP db.nextId
      have hf : finalPrimaryOf p0 rest ∈ uniquePrimaries db req := by
        rw [hP]; exact finalPrimaryOf_mem p0 rest
      have hfrows := uniquePrimaries_rows hf
      have hfprim := (uniquePrimaries_primary hwf hf).1
      have hfmerged : finalPrimaryOf p0 rest ∈ db.rows.map
          (mergeRow clock (finalPrimaryOf p0 rest).id (sortPrimaries (p0 :: rest)) 0) := by
        rw [List.mem_map]; exact ⟨_, hfrows.1, mergeRow_survivor clock hwf hP⟩
      rcases hcase with ⟨_, hdb2⟩ | ⟨_, ts, hdb2⟩
      · subst hdb2
        exact ⟨hwfm.2, fun _ => hwfm⟩
      · subst hdb2
        refine ⟨link_append_secondary hwfm.2 _ rfl hfmerged hfrows.2 hfprim rfl, ?_⟩
        intro hfresh
        refine wf_append_secondary hwfm _ ?_ rfl hfmerged hfrows.2 hfprim rfl
        intro r hr
        obtain ⟨c, hc, rfl⟩ := List.mem_map.1 hr
        rw [mergeRow_id]
        exact hfresh c hc

theorem live_iff {c : Contact} : live c = true ↔ c.deletedat = none := by
  unfold live
  exact Option.isNone_iff_eq_none

/-- The answer of a successful call on a well-formed table: a live primary row
of the new table, and live rows of the new table linked to it. -/
theorem answer_primary (clock : Nat → Nat) {db : Db} {req : Request} {resp : Response}
    {db' : Db} (hwf : WellFormed db) (hid : identify clock db req = Except.ok (resp, db')) :
    ∃ p ∈ db'.rows, p.id = resp.primaryContatctId ∧ p.deletedat = none ∧
      p.linkprecedence = LinkPrecedence.primary ∧
      ∀ i ∈ resp.secondaryContactIds, ∃ x ∈ db'.rows, x.id = i ∧ live x = true ∧
        x.linkedid = some p.id := by
  by_cases hm : findMatches db req = []
  · rw [identify_noMatch clock hm] at hid
    injection hid with hid
    injection hid with hresp hdb
    subst hresp
    subst hdb
    exact ⟨_, List.mem_append_right _ (List.mem_singleton.2 rfl), rfl, rfl, rfl,
      fun i hi => by cases hi⟩
  · cases hP : uniquePrimaries db req with
    | nil =>
      rw [identify_noCandidate clock hm hP] at hid
      cases hid
    | cons p0 rest =>
      obtain ⟨db2, hid2, hcase⟩ := identify_shape clock hP
      rw [hid2] at hid
      injection hid with hid
      injection hid with hresp hdb
      subst hresp
      subst hdb
      have hf : finalPrimaryOf p0 rest ∈ uniquePrimaries db req := by
        rw [hP]; exact finalPrimaryOf_mem p0 rest
      have hfrows := uniquePrimaries_rows hf
      have hfprim := (uniquePrimaries_primary hwf hf).1
      have hfmerged : finalPrimaryOf p0 rest ∈ db.rows.map
          (mergeRow clock (finalPrimaryOf p0 rest).id (sortPrimaries (p0 :: rest)) 0) := by
        rw [List.mem_map]; exact ⟨_, hfrows.1, mergeRow_survivor clock hwf hP⟩
      have hfin : finalPrimaryOf p0 rest ∈ db2.rows := by
        rcases hcase with ⟨_, h2⟩ | ⟨_, ts, h2⟩
        · rw [h2]; exact hfmerged
        · rw [h2]; exact List.mem_append_left _ hfmerged
      refine ⟨_, hfin, rfl, live_iff.1 hfrows.2, hfprim, ?_⟩
      intro i hi
      obtain ⟨x, hx, hxne, hxi⟩ := mem_secondaryContactIds.1 hi
      obtain ⟨hxrows, hxin, hxl⟩ := mem_allLinked.1 hx
      refine ⟨x, hxrows, hxi, hxl, ?_⟩
      rcases inCluster_iff.1 hxin with h | h
      · exact absurd h hxne
      · exact h

/-- C22: after a successful call on a well-formed table, the returned primary id
is the id of a live row of the new table with `linkPrecedence = primary`, and
every returned secondary id is the id of a live row with
`linkPrecedence = secondary` and `linkedId` the primary id; when the sequence's
next value is unused (ids stay unique), no tombstoned row has an id that occurs
in the answer. -/
theorem C22_answer_roles (clock : Nat → Nat) (db : Db) (req : Request)
    (resp : Response) (db' : Db) (hwf : WellFormed db)
    (hid : identify clock db req = Except.ok (resp, db')) :
    (∃ p ∈ db'.rows, p.id = resp.primaryContatctId ∧ p.deletedat = none ∧
      p.linkprecedence = LinkPrecedence.primary) ∧
    (∀ i ∈ resp.secondaryContactIds, ∃ s ∈ db'.rows, s.id = i ∧ s.deletedat = none ∧
      s.linkprecedence = LinkPrecedence.secondary ∧
      s.linkedid = some resp.primaryContatctId) ∧
    ((∀ c ∈ db.rows, c.id ≠ db.nextId) →
      ∀ t ∈ db'.rows, t.deletedat ≠ none →
        t.id ≠ resp.primaryContatctId ∧ t.id ∉ resp.secondaryContactIds) := by
  have hstore := storeAfter_wellFormed clock req hwf
  rw [storeAfter_ok hid] at hstore
  obtain ⟨p, hp, hpid, hpl, hpp, hids⟩ := answer_primary clock hwf hid
  have hprim : ∃ p ∈ db'.rows, p.id = resp.primaryContatctId ∧ p.deletedat = none ∧
      p.linkprecedence = LinkPrecedence.primary := ⟨p, hp, hpid, hpl, hpp⟩
  have hsec : ∀ i ∈ resp.secondaryContactIds, ∃ s ∈ db'.rows, s.id = i ∧ s.deletedat = none ∧
      s.linkprecedence = LinkPrecedence.secondary ∧
      s.linkedid = some resp.primaryContatctId := by
    intro i hi
    obtain ⟨x, hxrows, hxi, hxl, hlk⟩ := hids i hi
    refine ⟨x, hxrows, hxi, live_iff.1 hxl, ?_, by rw [hlk, hpid]⟩
    rcases hstore.1 x hxrows hxl with h | h
    · rw [h.2] at hlk; cases hlk
    · exact h.1
  refine ⟨hprim, hsec, ?_⟩
  intro hfresh t ht htd
  have hwf' := hstore.2 hfresh
  constructor
  · intro e
    obtain ⟨p, hp, hpid, hpl, _⟩ := hprim
    have : t = p := eq_of_id_eq hwf'.1 ht hp (e.trans hpid.symm)
    exact htd (this ▸ hpl)
  · intro hmem
    obtain ⟨s, hs, hsid, hsl, _⟩ := hsec t.id hmem
    have : t = s := eq_of_id_eq hwf'.1 ht hs hsid.symm
    exact htd (this ▸ hsl)

/-- C22 at a sample: the merge of `twoPrimaries`. -/
theorem C22_answer_roles_witness :
    WellFormed twoPrimaries ∧
    ∃ (resp : Response) (db' : Db),
      identify sampleClock twoPrimaries linkingRequest = Except.ok (resp, db') ∧
      (∃ p ∈ db'.rows, p.id = resp.primaryContatctId ∧ p.deletedat = none ∧
        p.linkprecedence = LinkPrecedence.primary) ∧
      (∀ i ∈ resp.secondaryContactIds, ∃ s ∈ db'.rows, s.id = i ∧ s.deletedat = none ∧
        s.linkprecedence = LinkPrecedence.secondary ∧
        s.linkedid = some resp.primaryContatctId) ∧
      ((∀ c ∈ twoPrimaries.rows, c.id ≠ twoPrimaries.nextId) →
        ∀ t ∈ db'.rows, t.deletedat ≠ none →
          t.id ≠ resp.primaryContatctId ∧ t.id ∉ resp.secondaryContactIds) :=
  ⟨by decide,
    { primaryContatctId := 1,
      emails := ["george@hillvalley.edu", "biffsucks@hillvalley.edu"],
      phoneNumbers := ["919191", "717171"], secondaryContactIds := [2, 3] },
    (storeAfter sampleClock twoPrimaries linkingRequest), rfl,
    C22_answer_roles sampleClock twoPrimaries linkingRequest _ _ (by decide) rfl⟩

/-! ## Counting the live primaries (C30) -/

/-- The test `live` and `linkPrecedence = primary`. -/
theorem livePrimaryCount_eq_countP (db : Db) :
    livePrimaryCount db =
      db.rows.countP
        (fun c => live c && decide (c.linkprecedence = LinkPrecedence.primary)) := by
  unfold livePrimaryCount
  rw [List.countP_eq_length_filter]

/-- Exactly one candidate has the survivor's id. -/
theorem losers_length {db : Db} {req : Request} {p0 : Contact} {rest : List Contact}
    (hP : uniquePrimaries db req = p0 :: rest) :
    ((p0 :: rest).filter (fun q => decide (q.id ≠ (finalPrimaryOf p0 rest).id))).length + 1 =
      (p0 :: rest).length := by
  have hnd : ((p0 :: rest).map (fun c => c.id)).Nodup := by
    rw [← hP]; exact uniquePrimaries_nodup db req
  have hmem : (finalPrimaryOf p0 rest).id ∈ (p0 :: rest).map (fun c => c.id) :=
    List.mem_map_of_mem _ (finalPrimaryOf_mem p0 rest)
  have hone : ((p0 :: rest).map (fun c => c.id)).count (finalPrimaryOf p0 rest).id = 1 :=
    List.count_eq_one_of_mem hnd hmem
  rw [List.count_eq_countP, List.countP_map] at hone
  have hsplit := List.length_eq_countP_add_countP
    (fun q : Contact => decide (q.id ≠ (finalPrimaryOf p0 rest).id)) (p0 :: rest)
  rw [← List.countP_eq_length_filter]
  have hsame : List.countP
      (fun a => decide ¬(fun q : Contact => decide (q.id ≠ (finalPrimaryOf p0 rest).id)) a = true)
      (p0 :: rest) =
      List.countP ((fun x => x == (finalPrimaryOf p0 rest).id) ∘ fun c => c.id) (p0 :: rest) := by
    apply List.countP_congr
    intro x _
    simp
  rw [hsame, hone] at hsplit
  exact hsplit.symm

/-- In a well-formed table the live primaries whose id is a loser's are exactly
the losers. -/
theorem loser_rows_length {db : Db} (hwf : WellFormed db) {req : Request} {p0 : Contact}
    {rest : List Contact} (hP : uniquePrimaries db req = p0 :: rest) :
    (db.rows.filter (fun c =>
      (live c && decide (c.linkprecedence = LinkPrecedence.primary)) &&
      (p0 :: rest).any (fun q =>
        decide (q.id ≠ (finalPrimaryOf p0 rest).id) && decide (c.id = q.id)))).length =
    ((p0 :: rest).filter (fun q => decide (q.id ≠ (finalPrimaryOf p0 rest).id))).length := by
  apply List.Perm.length_eq
  have hnd1 : db.rows.Nodup := List.Nodup.of_map _ hwf.1
  have hnd2 : (p0 :: rest).Nodup := by
    apply List.Nodup.of_map (fun c : Contact => c.id)
    rw [← hP]; exact uniquePrimaries_nodup db req
  rw [List.perm_ext_iff_of_nodup (hnd1.filter _) (hnd2.filter _)]
  intro c
  simp only [List.mem_filter, Bool.and_eq_true, List.any_eq_true, decide_eq_true_eq]
  constructor
  · rintro ⟨hc, _, q, hq, hqf, hcq⟩
    have hqP : q ∈ uniquePrimaries db req := hP ▸ hq
    have : c = q := eq_of_id_eq hwf.1 hc (uniquePrimaries_rows hqP).1 hcq
    subst this
    exact ⟨hq, hqf⟩
  · rintro ⟨hc, hcf⟩
    have hcP : c ∈ uniquePrimaries db req := hP ▸ hc
    exact ⟨(uniquePrimaries_rows hcP).1,
      ⟨(uniquePrimaries_rows hcP).2, (uniquePrimaries_primary hwf hcP).1⟩, c, hc, hcf, rfl⟩

/-- After the merge loop a row is a live primary exactly when it was one and its
id is not a loser's. -/
theorem mergeRow_livePrimary (clock : Nat → Nat) (p0 : Contact) (rest : List Contact)
    (c : Contact) :
    (live (mergeRow clock (finalPrimaryOf p0 rest).id (sortPrimaries (p0 :: rest)) 0 c) &&
      decide ((mergeRow clock (finalPrimaryOf p0 rest).id (sortPrimaries (p0 :: rest)) 0
        c).linkprecedence = LinkPrecedence.primary)) =
    ((live c && decide (c.linkprecedence = LinkPrecedence.primary)) &&
      !((p0 :: rest).any (fun q =>
        decide (q.id ≠ (finalPrimaryOf p0 rest).id) && decide (c.id = q.id)))) := by
  rw [mergeRow_live]
  by_cases hL : ∃ q ∈ sortPrimaries (p0 :: rest),
      q.id ≠ (finalPrimaryOf p0 rest).id ∧ c.id = q.id
  · have h1 := (mergeRow_loser clock _ _ 0 c hL).2
    have h2 : (p0 :: rest).any (fun q =>
        decide (q.id ≠ (finalPrimaryOf p0 rest).id) && decide (c.id = q.id)) = true := by
      obtain ⟨q, hq, hqf, hcq⟩ := hL
      rw [List.any_eq_true]
      exact ⟨q, mem_sortPrimaries.1 hq, by simp [hqf, hcq]⟩
    rw [h1, h2]
    simp
  · have h1 : (mergeRow clock (finalPrimaryOf p0 rest).id (sortPrimaries (p0 :: rest)) 0
        c).linkprecedence = c.linkprecedence := by
      apply mergeRow_linkprecedence
      intro q hq hqf e
      exact hL ⟨q, hq, hqf, e⟩
    have h2 : (p0 :: rest).any (fun q =>
        decide (q.id ≠ (finalPrimaryOf p0 rest).id) && decide (c.id = q.id)) = false := by
      rw [Bool.eq_false_iff]
      intro h
      rw [List.any_eq_true] at h
      obtain ⟨q, hq, hq2⟩ := h
      simp only [Bool.and_eq_true, decide_eq_true_eq] at hq2
      exact hL ⟨q, mem_sortPrimaries.2 hq, hq2.1, hq2.2⟩
    rw [h1, h2]
    simp

/-- C30: on a well-formed table, a call adds exactly one live primary when no
live contact matches, and takes away exactly `k - 1` of them when the matched
contacts resolve to `k ≥ 1` candidates; a row inserted on the match path is not
a primary. -/
theorem C30_live_primary_count (clock : Nat → Nat) (db : Db) (req : Request)
    (hwf : WellFormed db) :
    (findMatches db req = [] →
      livePrimaryCount (storeAfter clock db req) = livePrimaryCount db + 1) ∧
    (∀ k, (uniquePrimaries db req).length = k → 1 ≤ k →
      livePrimaryCount (storeAfter clock db req) + (k - 1) = livePrimaryCount db) ∧
    (findMatches db req ≠ [] →
      ∀ c ∈ (storeAfter clock db req).rows.drop db.rows.length,
        c.linkprecedence ≠ LinkPrecedence.primary) := by
  refine ⟨?_, ?_, ?_⟩
  · intro hm
    rw [storeAfter_ok (identify_noMatch clock hm), livePrimaryCount_eq_countP,
      livePrimaryCount_eq_countP]
    simp [insertContact, newRow, live]
  · intro k hk hk1
    cases hP : uniquePrimaries db req with
    | nil => rw [hP] at hk; simp at hk; omega
    | cons p0 rest =>
      obtain ⟨db2, extra, hid, hrows, hextra⟩ := identify_rows clock hP
      rw [storeAfter_ok hid, livePrimaryCount_eq_countP, livePrimaryCount_eq_countP, hrows,
        List.countP_append, List.countP_map]
      have hextra0 : extra.countP
          (fun c => live c && decide (c.linkprecedence = LinkPrecedence.primary)) = 0 := by
        rw [List.countP_eq_zero]
        intro c hc
        have := (hextra c hc).2.2.1
        simp [this]
      have hcomp : List.countP
          ((fun c => live c && decide (c.linkprecedence = LinkPrecedence.primary)) ∘
            mergeRow clock (finalPrimaryOf p0 rest).id (sortPrimaries (p0 :: rest)) 0)
          db.rows =
          List.countP (fun c =>
            (live c && decide (c.linkprecedence = LinkPrecedence.primary)) &&
            !((p0 :: rest).any (fun q =>
              decide (q.id ≠ (finalPrimaryOf p0 rest).id) && decide (c.id = q.id))))
          db.rows := by
        apply List.countP_congr
        intro c _
        simp only [Function.comp]
        rw [mergeRow_livePrimary]
      have hsplit := List.countP_eq_countP_filter_add db.rows
        (fun c => live c && decide (c.linkprecedence = LinkPrecedence.primary))
        (fun c => (p0 :: rest).any (fun q =>
          decide (q.id ≠ (finalPrimaryOf p0 rest).id) && decide (c.id = q.id)))
      rw [List.countP_filter, List.countP_filter] at hsplit
      have hlosers := loser_rows_length hwf hP
      rw [← List.countP_eq_length_filter] at hlosers
      have hlen := losers_length hP
      rw [hP] at hk
      rw [hextra0, hcomp, hsplit, hlosers]
      omega
  · intro hm c hc
    cases hP : uniquePrimaries db req with
    | nil =>
      rw [storeAfter_error (identify_noCandidate clock hm hP)] at hc
      simp at hc
    | cons p0 rest =>
      obtain ⟨db2, extra, hid, hrows, hextra⟩ := identify_rows clock hP
      rw [storeAfter_ok hid, hrows, List.drop_left' (by simp)] at hc
      rw [(hextra c hc).2.2.1]
      decide

/-- C30 at a sample: the merge of `twoPrimaries` takes one live primary away. -/
theorem C30_live_primary_count_witness :
    WellFormed twoPrimaries ∧
    (findMatches twoPrimaries linkingRequest = [] →
      livePrimaryCount (storeAfter sampleClock twoPrimaries linkingRequest) =
        livePrimaryCount twoPrimaries + 1) ∧
    (∀ k, (uniquePrimaries twoPrimaries linkingRequest).length = k → 1 ≤ k →
      livePrimaryCount (storeAfter sampleClock twoPrimaries linkingRequest) + (k - 1) =
        livePrimaryCount twoPrimaries) ∧
    (findMatches twoPrimaries linkingRequest ≠ [] →
      ∀ c ∈ (storeAfter sampleClock twoPrimaries linkingRequest).rows.drop
          twoPrimaries.rows.length,
        c.linkprecedence ≠ LinkPrecedence.primary) :=
  ⟨by decide, C30_live_primary_count sampleClock twoPrimaries linkingRequest (by decide)⟩

/-! ## Seniority of the primary (C21) -/

theorem olderOrEq_congr_right {p c c' : Contact} (h : olderOrEq p c)
    (h1 : c'.createdat = c.createdat) (h2 : c'.id = c.id) : olderOrEq p c' := by
  unfold olderOrEq at *
  rw [h1, h2]
  exact h

/-- Seniority is kept by the merge loop followed by the insertion of at most one
younger secondary of the survivor. -/
theorem seniority_match (clock : Nat → Nat) {db : Db} {req : Request} (hwf : WellFormed db)
    (hsen : Seniority db) {p0 : Contact} {rest : List Contact}
    (hP : uniquePrimaries db req = p0 :: rest) {extra : List Contact}
    (hextra : ∀ n ∈ extra, n.linkedid = some (finalPrimaryOf p0 rest).id ∧
      n.linkprecedence = LinkPrecedence.secondary ∧
      ∀ c ∈ db.rows, c.id < n.id ∧ c.createdat ≤ n.createdat) (m : Nat) :
    Seniority
      { rows := db.rows.map
          (mergeRow clock (finalPrimaryOf p0 rest).id (sortPrimaries (p0 :: rest)) 0) ++ extra,
        nextId := m } := by
  have hf : finalPrimaryOf p0 rest ∈ uniquePrimaries db req := by
    rw [hP]; exact finalPrimaryOf_mem p0 rest
  have hfrows := uniquePrimaries_rows hf
  intro p' hp' hp'l hp'p c' hc' hc'l hin
  rcases List.mem_append.1 hp' with hp' | hp'
  swap
  · rw [(hextra p' hp').2.1] at hp'p
    cases hp'p
  obtain ⟨p, hp, rfl⟩ := List.mem_map.1 hp'
  rw [mergeRow_live] at hp'l
  -- the row `p` is a live primary that the loop leaves alone
  have hnotloser : ¬ ∃ q ∈ sortPrimaries (p0 :: rest),
      q.id ≠ (finalPrimaryOf p0 rest).id ∧ p.id = q.id := by
    intro hL
    rw [(mergeRow_loser clock _ _ 0 p hL).2] at hp'p
    cases hp'p
  have hpprim : p.linkprecedence = LinkPrecedence.primary := by
    rw [← hp'p]
    symm
    apply mergeRow_linkprecedence
    intro q hq hqf e
    exact hnotloser ⟨q, hq, hqf, e⟩
  have hpnone : p.linkedid = none := by
    rcases hwf.2 p hp hp'l with h | h
    · exact h.2
    · rw [hpprim] at h; cases h.1
  have hpkeep : mergeRow clock (finalPrimaryOf p0 rest).id (sortPrimaries (p0 :: rest)) 0 p
      = p := by
    apply mergeRow_unchanged
    intro q hq hqf
    refine ⟨fun e => hnotloser ⟨q, hq, hqf, e⟩, ?_⟩
    rw [hpnone]
    exact fun e => Option.noConfusion e
  rw [hpkeep] at hin ⊢
  rcases List.mem_append.1 hc' with hc' | hc'
  · obtain ⟨c, hc, rfl⟩ := List.mem_map.1 hc'
    rw [mergeRow_live] at hc'l
    refine olderOrEq_congr_right ?_ (mergeRow_createdat _ _ _ _ _) (mergeRow_id _ _ _ _ _)
    rcases inCluster_iff.1 hin with hid | hlk
    · rw [mergeRow_id] at hid
      rw [eq_of_id_eq hwf.1 hc hp hid]
      exact olderOrEq_refl p
    · by_cases hch : mergeRow clock (finalPrimaryOf p0 rest).id
          (sortPrimaries (p0 :: rest)) 0 c = c
      · rw [hch] at hlk
        exact hsen p hp hp'l hpprim c hc hc'l (inCluster_iff.2 (Or.inr hlk))
      · obtain ⟨q, hq, hqf, hor⟩ := mergeRow_changed clock _ _ 0 c hch
        have hqP : q ∈ uniquePrimaries db req := by
          rw [hP]; exact mem_sortPrimaries.1 hq
        have hqrows := uniquePrimaries_rows hqP
        have hqprim := uniquePrimaries_primary hwf hqP
        have hnew : (mergeRow clock (finalPrimaryOf p0 rest).id
            (sortPrimaries (p0 :: rest)) 0 c).linkedid = some (finalPrimaryOf p0 rest).id := by
          rcases hor with h | h
          · exact (mergeRow_loser clock _ _ 0 c ⟨q, hq, hqf, h⟩).1
          · exact mergeRow_repointed clock _ _ 0 c ⟨q, hq, hqf, h⟩
        rw [hnew] at hlk
        have hpf : p = finalPrimaryOf p0 rest :=
          eq_of_id_eq hwf.1 hp hfrows.1 (Option.some.inj hlk).symm
        have hfq : olderOrEq p q := by
          rw [hpf]
          exact finalPrimaryOf_least p0 rest q (mem_sortPrimaries.1 hq)
        rcases hor with h | h
        · rw [eq_of_id_eq hwf.1 hc hqrows.1 h]
          exact hfq
        · exact olderOrEq_trans hfq
            (hsen q hqrows.1 hqrows.2 hqprim.1 c hc hc'l (inCluster_iff.2 (Or.inr h)))
  · obtain ⟨hnlk, _, hnyoung⟩ := hextra c' hc'
    have hy := hnyoung p hp
    rcases inCluster_iff.1 hin with hid | hlk
    · omega
    · unfold olderOrEq
      omega

/-- Seniority is kept by the insertion of a younger primary with a fresh id. -/
theorem seniority_noMatch {db : Db} (hwf : WellFormed db) (hsen : Seniority db)
    {new : Contact} (hnone : new.linkedid = none)
    (hyoung : ∀ c ∈ db.rows, c.id < new.id ∧ c.createdat ≤ new.createdat) (m : Nat) :
    Seniority { rows := db.rows ++ [new], nextId := m } := by
  intro p hp hpl hpp c hc hcl hin
  rcases List.mem_append.1 hp with hp1 | hp1
  · rcases List.mem_append.1 hc with hc1 | hc1
    · exact hsen p hp1 hpl hpp c hc1 hcl hin
    · rw [List.mem_singleton] at hc1
      rw [hc1] at hin
      rcases inCluster_iff.1 hin with h | h
      · have := (hyoung p hp1).1
        omega
      · rw [hnone] at h; cases h
  · rw [List.mem_singleton] at hp1
    rcases List.mem_append.1 hc with hc1 | hc1
    · exfalso
      rw [hp1] at hin
      rcases inCluster_iff.1 hin with h | h
      · have := (hyoung c hc1).1
        omega
      · rcases hwf.2 c hc1 hcl with h1 | ⟨_, q, hq, _, _, hlq⟩
        · rw [h1.2] at h; cases h
        · rw [h] at hlq
          have := (hyoung q hq).1
          have := Option.some.inj hlq
          omega
    · rw [List.mem_singleton] at hc1
      rw [hp1, hc1]
      exact olderOrEq_refl _

/-- C21: on a well-formed table in which every live primary is the least, by
creation time and then id, of the live rows of its cluster, when the row the call
inserts (if any) has an id greater than every existing id and a creation time not
earlier than every existing one, the same seniority holds in the table after the
call. -/
theorem C21_seniority_invariant (clock : Nat → Nat) (db : Db) (req : Request)
    (hwf : WellFormed db) (hsen : Seniority db)
    (hnew : ∀ n ∈ (storeAfter clock db req).rows.drop db.rows.length,
      ∀ c ∈ db.rows, c.id < n.id ∧ c.createdat ≤ n.createdat) :
    Seniority (storeAfter clock db req) := by
  by_cases hm : findMatches db req = []
  · rw [storeAfter_ok (identify_noMatch clock hm)] at hnew ⊢
    apply seniority_noMatch hwf hsen rfl
    intro c hc
    exact hnew _ (by simp [insertContact]) c hc
  · cases hP : uniquePrimaries db req with
    | nil =>
      rw [storeAfter_error (identify_noCandidate clock hm hP)]
      exact hsen
    | cons p0 rest =>
      obtain ⟨db2, extra, hid, hrows, hextra⟩ := identify_rows clock hP
      rw [storeAfter_ok hid] at hnew ⊢
      have hdb2 : db2 = ⟨db.rows.map
          (mergeRow clock (finalPrimaryOf p0 rest).id (sortPrimaries (p0 :: rest)) 0) ++ extra,
          db2.nextId⟩ := by
        cases db2
        simp only at hrows
        rw [hrows]
      rw [hdb2]
      apply seniority_match clock hwf hsen hP
      intro n hn
      refine ⟨(hextra n hn).2.1, (hextra n hn).2.2.1, ?_⟩
      apply hnew
      rw [hrows, List.drop_left' (by simp)]
      exact hn

/-- C21 at a sample: the merge of `twoPrimaries`, whose new secondary is created
at time 1002 with id 3. -/
theorem C21_seniority_invariant_witness :
    WellFormed twoPrimaries ∧ Seniority twoPrimaries ∧
    (∀ n ∈ (storeAfter sampleClock twoPrimaries linkingRequest).rows.drop
        twoPrimaries.rows.length,
      ∀ c ∈ twoPrimaries.rows, c.id < n.id ∧ c.createdat ≤ n.createdat) ∧
    Seniority (storeAfter sampleClock twoPrimaries linkingRequest) :=
  ⟨by decide, by decide, by decide,
    C21_seniority_invariant sampleClock twoPrimaries linkingRequest (by decide) (by decide)
      (by decide)⟩

/-! ## When the call fails (C26) -/

theorem resolve_of_resolvable {db : Db} (hn : (db.rows.map (fun c => c.id)).Nodup)
    (hid : ∀ c ∈ db.rows, c.id ≠ 0) {m : Contact} (h : Resolvable db m) :
    ∃ x, resolve db m = some x := by
  rcases h with h | ⟨hs, c, hc, hcl, hlk⟩
  · exact ⟨m, by simp [resolve, h]⟩
  · refine ⟨c, ?_⟩
    have hnp : m.linkprecedence ≠ LinkPrecedence.primary := by rw [hs]; decide
    unfold resolve
    simp only [hnp, if_false, hlk, ne_eq, hid c hc, not_false_eq_true, if_true]
    exact findLiveById_of_mem hn hc hcl

theorem resolvable_of_resolve {db : Db} {m x : Contact} (hm : m ∈ db.rows)
    (hl : live m = true) (h : resolve db m = some x) : Resolvable db m := by
  obtain ⟨hx, hxl, hor⟩ := resolve_some hm hl h
  rcases hor with ⟨hp, _⟩ | ⟨hnp, hlk, _⟩
  · exact Or.inl hp
  · refine Or.inr ⟨?_, x, hx, hxl, hlk⟩
    cases hprec : m.linkprecedence with
    | primary => exact absurd hprec hnp
    | secondary => rfl

/-- The candidate set is empty exactly when no matched row can be resolved. -/
theorem uniquePrimaries_eq_nil_iff {db : Db} (hn : (db.rows.map (fun c => c.id)).Nodup)
    (hid : ∀ c ∈ db.rows, c.id ≠ 0) (req : Request) :
    uniquePrimaries db req = [] ↔ ∀ m ∈ findMatches db req, ¬ Resolvable db m := by
  constructor
  · intro h m hm hr
    obtain ⟨x, hx⟩ := resolve_of_resolvable hn hid hr
    have : x ∈ uniquePrimaries db req := (mem_uniquePrimaries_iff hn).2 ⟨m, hm, hx⟩
    rw [h] at this
    cases this
  · intro h
    cases hP : uniquePrimaries db req with
    | nil => rfl
    | cons p0 rest =>
      exfalso
      have hp0 : p0 ∈ uniquePrimaries db req := by rw [hP]; exact List.mem_cons_self _ _
      obtain ⟨c, hc, hr⟩ := mem_uniquePrimaries hp0
      have hc' := mem_findMatches.1 hc
      exact h c hc (resolvable_of_resolve hc'.1 (matchesRow_live hc'.2) hr)

/-- C26, amended: on a table with unique ids, none of them 0, the call fails if and only
if some live row matches the request and no matched row is a primary or a
secondary whose link names a live row; in every other case it answers with a
consolidated contact. -/
theorem C26_fails_iff_no_candidate (clock : Nat → Nat) (db : Db) (req : Request)
    (hn : (db.rows.map (fun c => c.id)).Nodup) (hid : ∀ c ∈ db.rows, c.id ≠ 0) :
    ((∃ e, identify clock db req = Except.error e) ↔
      ((∃ m ∈ db.rows, live m = true ∧ matchesRow req m = true) ∧
        ∀ m ∈ db.rows, matchesRow req m = true → ¬ Resolvable db m)) ∧
    (¬ ((∃ m ∈ db.rows, live m = true ∧ matchesRow req m = true) ∧
        ∀ m ∈ db.rows, matchesRow req m = true → ¬ Resolvable db m) →
      ∃ resp db', identify clock db req = Except.ok (resp, db')) := by
  have hnil := uniquePrimaries_eq_nil_iff hn hid req
  have key : ((∃ m ∈ db.rows, live m = true ∧ matchesRow req m = true) ∧
        ∀ m ∈ db.rows, matchesRow req m = true → ¬ Resolvable db m) ↔
      (findMatches db req ≠ [] ∧ uniquePrimaries db req = []) := by
    constructor
    · rintro ⟨⟨m, hm, _, hmm⟩, hall⟩
      refine ⟨List.ne_nil_of_mem (mem_findMatches.2 ⟨hm, hmm⟩), hnil.2 ?_⟩
      intro c hc
      exact hall c (mem_findMatches.1 hc).1 (mem_findMatches.1 hc).2
    · rintro ⟨hne, hP⟩
      obtain ⟨m, hm⟩ := List.exists_mem_of_ne_nil _ hne
      have hm' := mem_findMatches.1 hm
      refine ⟨⟨m, hm'.1, matchesRow_live hm'.2, hm'.2⟩, ?_⟩
      intro c hc hcm
      exact hnil.1 hP c (mem_findMatches.2 ⟨hc, hcm⟩)
  rw [key]
  by_cases hm : findMatches db req = []
  · have hok := identify_noMatch clock hm
    refine ⟨⟨?_, fun h => absurd hm h.1⟩, fun _ => ⟨_, _, hok⟩⟩
    rintro ⟨e, he⟩
    rw [hok] at he
    cases he
  · cases hP : uniquePrimaries db req with
    | nil =>
      have herr := identify_noCandidate clock hm hP
      exact ⟨⟨fun _ => ⟨hm, rfl⟩, fun _ => ⟨_, herr⟩⟩, fun h => absurd ⟨hm, rfl⟩ h⟩
    | cons p0 rest =>
      have hok := identify_candidates clock hP
      refine ⟨⟨?_, fun h => ?_⟩, fun _ => ⟨_, _, hok⟩⟩
      · rintro ⟨e, he⟩
        rw [hok] at he
        cases he
      · cases h.2

/-- C26, amended, at a sample: in `allDanglingDb` the only matched row is a secondary of a
tombstoned row, and the call fails. -/
theorem C26_fails_iff_no_candidate_witness :
    (allDanglingDb.rows.map (fun c => c.id)).Nodup ∧ (∀ c ∈ allDanglingDb.rows, c.id ≠ 0) ∧
    (((∃ e, identify sampleClock allDanglingDb phoneOnlyRequest = Except.error e) ↔
      ((∃ m ∈ allDanglingDb.rows, live m = true ∧ matchesRow phoneOnlyRequest m = true) ∧
        ∀ m ∈ allDanglingDb.rows, matchesRow phoneOnlyRequest m = true →
          ¬ Resolvable allDanglingDb m)) ∧
    (¬ ((∃ m ∈ allDanglingDb.rows, live m = true ∧ matchesRow phoneOnlyRequest m = true) ∧
        ∀ m ∈ allDanglingDb.rows, matchesRow phoneOnlyRequest m = true →
          ¬ Resolvable allDanglingDb m) →
      ∃ resp db', identify sampleClock allDanglingDb phoneOnlyRequest = Except.ok (resp, db'))) :=
  ⟨by decide, by decide,
    C26_fails_iff_no_candidate sampleClock allDanglingDb phoneOnlyRequest (by decide)
      (by decide)⟩

/-! ## The writes of a call, one by one (C24, C25) -/

theorem applyWrites_append (clock : Nat → Nat) (a b : List Write) (k : Nat) (db : Db) :
    applyWrites clock (a ++ b) k db = applyWrites clock b (k + a.length) (applyWrites clock a k db) := by
  induction a generalizing k db with
  | nil => rfl
  | cons w ws ih =>
    rw [List.cons_append, applyWrites, ih, applyWrites, List.length_cons]
    congr 1
    omega

/-- The merge loop is its list of `UPDATE` statements, applied in order. -/
theorem applyWrites_mergeWrites (clock : Nat → Nat) (survivor : Nat) (ps : List Contact)
    (k : Nat) (db : Db) :
    applyWrites clock (mergeWrites survivor ps) k db =
        ⟨(mergeLoop clock survivor ps k db.rows).1, db.nextId⟩ ∧
      (mergeLoop clock survivor ps k db.rows).2 = k + (mergeWrites survivor ps).length := by
  induction ps generalizing k db with
  | nil => exact ⟨rfl, rfl⟩
  | cons p ps ih =>
    by_cases hp : p.id = survivor
    · have h1 : mergeWrites survivor (p :: ps) = mergeWrites survivor ps := by
        simp [mergeWrites, hp]
      have h2 : mergeLoop clock survivor (p :: ps) k db.rows
          = mergeLoop clock survivor ps k db.rows := by
        simp [mergeLoop, hp]
      rw [h1, h2]
      exact ih k db
    · have h1 : mergeWrites survivor (p :: ps) = Write.demote survivor p.id ::
          Write.repoint survivor p.id :: mergeWrites survivor ps := by
        simp [mergeWrites, hp]
      have h2 : mergeLoop clock survivor (p :: ps) k db.rows
          = mergeLoop clock survivor ps (k + 2)
              (repoint (clock (k + 1)) survivor p.id (demote (clock k) survivor p.id db.rows)) := by
        simp [mergeLoop, hp]
      rw [h1, h2]
      have := ih (k + 2)
        ⟨repoint (clock (k + 1)) survivor p.id (demote (clock k) survivor p.id db.rows), db.nextId⟩
      refine ⟨?_, ?_⟩
      · rw [applyWrites, applyWrites]
        exact this.1
      · rw [this.2]
        simp only [List.length_cons]
        omega

/-- The list of writes of a call is faithful to the handler: applied in full, it
gives the table the call leaves. -/
theorem storeAfter_eq_applyWrites (clock : Nat → Nat) (db : Db) (req : Request) :
    storeAfter clock db req = applyWrites clock (writesOf clock db req) 0 db := by
  by_cases hm : findMatches db req = []
  · rw [storeAfter_ok (identify_noMatch clock hm)]
    have : (findMatches db req).length = 0 := by rw [hm]; rfl
    simp only [writesOf, this, if_true]
    rfl
  · have hlen : ¬ (findMatches db req).length = 0 := fun e => hm (List.length_eq_zero.1 e)
    cases hP : uniquePrimaries db req with
    | nil =>
      rw [storeAfter_error (identify_noCandidate clock hm hP)]
      simp only [writesOf, hlen, if_false, hP]
      rfl
    | cons p0 rest =>
      rw [storeAfter_ok (identify_candidates clock hP)]
      simp only [writesOf, hlen, if_false, hP]
      have hmerge : applyWrites clock
            (if (p0 :: rest).length > 1 then
              mergeWrites (finalPrimaryOf p0 rest).id (sortPrimaries (p0 :: rest)) else []) 0 db
            = ⟨(mergeAll clock db p0 rest).1, db.nextId⟩ ∧
          (mergeAll clock db p0 rest).2 =
            (if (p0 :: rest).length > 1 then
              mergeWrites (finalPrimaryOf p0 rest).id (sortPrimaries (p0 :: rest))
              else []).length := by
        unfold mergeAll
        by_cases hk : (p0 :: rest).length > 1
        · simp only [hk, if_true]
          have := applyWrites_mergeWrites clock (finalPrimaryOf p0 rest).id
            (sortPrimaries (p0 :: rest)) 0 db
          refine ⟨this.1, ?_⟩
          rw [this.2]
          omega
        · simp only [hk, if_false]
          exact ⟨rfl, rfl⟩
      rw [hmerge.1]
      unfold fillGap
      by_cases hneed : needNewSecondary (mergeAll clock db p0 rest).1 req
          (finalPrimaryOf p0 rest).id = true
      · simp only [hneed, if_true]
        rw [applyWrites_append, hmerge.1, hmerge.2]
        simp only [Nat.zero_add]
        rfl
      · have hneed' : needNewSecondary (mergeAll clock db p0 rest).1 req
            (finalPrimaryOf p0 rest).id = false := by simpa using hneed
        simp only [hneed', Bool.false_eq_true, if_false]
        rw [hmerge.1]

theorem mergeWrites_head (survivor : Nat) (ps : List Contact) :
    mergeWrites survivor ps = [] ∨
    ∃ p ∈ ps, p.id ≠ survivor ∧ ∃ t, mergeWrites survivor ps = Write.demote survivor p.id :: t := by
  induction ps with
  | nil => exact Or.inl rfl
  | cons p ps ih =>
    by_cases hp : p.id = survivor
    · have h1 : mergeWrites survivor (p :: ps) = mergeWrites survivor ps := by
        simp [mergeWrites, hp]
      rw [h1]
      rcases ih with h | ⟨q, hq, hqs, t, ht⟩
      · exact Or.inl h
      · exact Or.inr ⟨q, List.mem_cons_of_mem _ hq, hqs, t, ht⟩
    · refine Or.inr ⟨p, List.mem_cons_self _ _, hp,
        Write.repoint survivor p.id :: mergeWrites survivor ps, ?_⟩
      simp [mergeWrites, hp]

/-- No write turns a secondary into a primary or drops a row. -/
theorem applyWrite_keeps_secondary (ts : Nat) (w : Write) (db : Db) (i : Nat)
    (h : ∃ c ∈ db.rows, c.id = i ∧ c.linkprecedence = LinkPrecedence.secondary) :
    ∃ c ∈ (applyWrite ts w db).rows, c.id = i ∧ c.linkprecedence = LinkPrecedence.secondary := by
  obtain ⟨c, hc, hid, hs⟩ := h
  cases w with
  | insert e p l pr =>
    exact ⟨c, List.mem_append_left _ hc, hid, hs⟩
  | demote s l =>
    refine ⟨demoteRow ts s l c, List.mem_map_of_mem _ hc, ?_, ?_⟩
    · unfold demoteRow; split <;> exact hid
    · unfold demoteRow; split
      · rfl
      · exact hs
  | repoint s l =>
    refine ⟨repointRow ts s l c, List.mem_map_of_mem _ hc, ?_, ?_⟩
    · unfold repointRow; split <;> exact hid
    · unfold repointRow; split <;> exact hs

theorem applyWrites_keeps_secondary (clock : Nat → Nat) (ws : List Write) (k : Nat) (db : Db)
    (i : Nat) (h : ∃ c ∈ db.rows, c.id = i ∧ c.linkprecedence = LinkPrecedence.secondary) :
    ∃ c ∈ (applyWrites clock ws k db).rows,
      c.id = i ∧ c.linkprecedence = LinkPrecedence.secondary := by
  induction ws generalizing k db with
  | nil => exact h
  | cons w ws ih =>
    rw [applyWrites]
    exact ih _ _ (applyWrite_keeps_secondary _ w db i h)

/-- A call that issues two writes or more starts by demoting a candidate. -/
theorem writesOf_head {clock : Nat → Nat} {db : Db} {req : Request}
    (h : 2 ≤ (writesOf clock db req).length) :
    ∃ f, ∃ p ∈ uniquePrimaries db req, ∃ t,
      writesOf clock db req = Write.demote f p.id :: t := by
  by_cases hm : (findMatches db req).length = 0
  · simp only [writesOf, hm, if_true, List.length_singleton] at h
    omega
  · cases hP : uniquePrimaries db req with
    | nil =>
      simp only [writesOf, hm, if_false, hP, List.length_nil] at h
      omega
    | cons p0 rest =>
      simp only [writesOf, hm, if_false, hP] at h ⊢
      by_cases hk : (p0 :: rest).length > 1
      · simp only [hk, if_true] at h ⊢
        rcases mergeWrites_head (finalPrimaryOf p0 rest).id (sortPrimaries (p0 :: rest))
          with h0 | ⟨p, hp, _, t, ht⟩
        · rw [h0] at h
          split at h
          · simp at h
          · simp at h
        · rw [ht]
          refine ⟨(finalPrimaryOf p0 rest).id, p, mem_sortPrimaries.1 hp, ?_⟩
          split
          · exact ⟨_, rfl⟩
          · exact ⟨_, rfl⟩
      · simp only [hk, if_false] at h
        split at h
        · simp at h
        · simp at h

/-- C24 as stated fails: on `twoPrimaries` the request `linkingRequest` issues
three writes (demote row 2, re-point its dependents, insert a secondary); when
the second one fails, row 2 is already a secondary of row 1 and the table is
not the one the call found. -/
theorem C24_partial_merge_counterexample :
    writesOf sampleClock twoPrimaries linkingRequest =
      [Write.demote 1 2, Write.repoint 1 2,
       Write.insert (some "george@hillvalley.edu") (some "717171") (some 1)
         LinkPrecedence.secondary] ∧
    storeOnFailure sampleClock twoPrimaries linkingRequest 1 =
      { rows := [newRow 1 (some "george@hillvalley.edu") (some "919191") none
                   LinkPrecedence.primary 10,
                 { newRow 2 (some "biffsucks@hillvalley.edu") (some "717171") (some 1)
                     LinkPrecedence.secondary 20 with updatedat := 1000 }],
        nextId := 3 } ∧
    storeOnFailure sampleClock twoPrimaries linkingRequest 1 ≠ twoPrimaries := by
  refine ⟨by decide, by decide, by decide⟩

/-- C24, amended: the writes of a call are applied one by one, each as a statement
of its own.  On a well-formed table, the table is the one the call found only when
the very first write fails; when a later write fails, the writes before it stay
applied and the table differs from the one the call found; when none fails the
table is the one the call leaves. -/
theorem C24_writes_apply_one_by_one (clock : Nat → Nat) (db : Db) (req : Request)
    (hwf : WellFormed db) :
    storeOnFailure clock db req 0 = db ∧
    (∀ n, 0 < n → n < (writesOf clock db req).length → storeOnFailure clock db req n ≠ db) ∧
    storeOnFailure clock db req (writesOf clock db req).length = storeAfter clock db req := by
  refine ⟨rfl, ?_, ?_⟩
  · intro n hn hlt heq
    obtain ⟨f, p, hp, t, ht⟩ := writesOf_head (Nat.lt_of_le_of_lt hn hlt : 2 ≤ _)
    have hprows := uniquePrimaries_rows hp
    have hpprim := uniquePrimaries_primary hwf hp
    obtain ⟨m, rfl⟩ : ∃ m, n = m + 1 := ⟨n - 1, by omega⟩
    have hQ : ∃ c ∈ (storeOnFailure clock db req (m + 1)).rows,
        c.id = p.id ∧ c.linkprecedence = LinkPrecedence.secondary := by
      unfold storeOnFailure
      rw [ht, List.take_succ_cons, applyWrites]
      apply applyWrites_keeps_secondary
      refine ⟨demoteRow (clock 0) f p.id p, List.mem_map_of_mem _ hprows.1, ?_, ?_⟩
      · simp [demoteRow]
      · simp [demoteRow]
    rw [heq] at hQ
    obtain ⟨c, hc, hid, hs⟩ := hQ
    have := eq_of_id_eq hwf.1 hc hprows.1 hid
    rw [this, hpprim.1] at hs
    cases hs
  · unfold storeOnFailure
    rw [List.take_length, storeAfter_eq_applyWrites]

/-- C24, amended, at a sample: the three writes of the merge of `twoPrimaries`. -/
theorem C24_writes_apply_one_by_one_witness :
    WellFormed twoPrimaries ∧
    storeOnFailure sampleClock twoPrimaries linkingRequest 0 = twoPrimaries ∧
    (∀ n, 0 < n → n < (writesOf sampleClock twoPrimaries linkingRequest).length →
      storeOnFailure sampleClock twoPrimaries linkingRequest n ≠ twoPrimaries) ∧
    storeOnFailure sampleClock twoPrimaries linkingRequest
        (writesOf sampleClock twoPrimaries linkingRequest).length
      = storeAfter sampleClock twoPrimaries linkingRequest :=
  ⟨by decide, C24_writes_apply_one_by_one sampleClock twoPrimaries linkingRequest (by decide)⟩

/-! ## Tables built by the handler alone (C28) -/

/-- The ids stay those of the sequence. -/
theorem storeAfter_serial (clock : Nat → Nat) {db : Db} (req : Request) (hser : SerialIds db) :
    SerialIds (storeAfter clock db req) := by
  have happ : ∀ (rows : List Contact) (new : Contact), new.id = db.nextId →
      (∀ c ∈ rows, 0 < c.id ∧ c.id < db.nextId) →
      SerialIds { rows := rows ++ [new], nextId := db.nextId + 1 } := by
    intro rows new hnew hrows
    refine ⟨Nat.succ_pos _, ?_⟩
    intro c hc
    rcases List.mem_append.1 hc with h | h
    · have := hrows c h
      exact ⟨this.1, by show c.id < db.nextId + 1; omega⟩
    · rw [List.mem_singleton] at h
      rw [h, hnew]
      exact ⟨hser.1, Nat.lt_succ_self _⟩
  by_cases hm : findMatches db req = []
  · rw [storeAfter_ok (identify_noMatch clock hm)]
    exact happ db.rows _ rfl hser.2
  · cases hP : uniquePrimaries db req with
    | nil =>
      rw [storeAfter_error (identify_noCandidate clock hm hP)]
      exact hser
    | cons p0 rest =>
      obtain ⟨db2, hid, hcase⟩ := identify_shape clock hP
      rw [storeAfter_ok hid]
      have hmap : ∀ c ∈ db.rows.map
          (mergeRow clock (finalPrimaryOf p0 rest).id (sortPrimaries (p0 :: rest)) 0),
          0 < c.id ∧ c.id < db.nextId := by
        intro c hc
        obtain ⟨c0, hc0, rfl⟩ := List.mem_map.1 hc
        rw [mergeRow_id]
        exact hser.2 c0 hc0
      rcases hcase with ⟨_, hdb2⟩ | ⟨_, ts, hdb2⟩
      · rw [hdb2]
        exact ⟨hser.1, hmap⟩
      · rw [hdb2]
        exact happ _ _ rfl hmap

/-- A live row that shares an identifier with the row a call inserts is matched by
the request of that call. -/
theorem matched_of_shares_new {req : Request} {a n : Contact} (hal : live a = true)
    (hne : n.email = orNull req.email) (hnp : n.phonenumber = orNull req.phoneNumber)
    (h : (∃ e, a.email = some e ∧ n.email = some e) ∨
         (∃ p, a.phonenumber = some p ∧ n.phonenumber = some p)) :
    matchesRow req a = true := by
  rcases h with ⟨e, ha, hn⟩ | ⟨p, ha, hn⟩
  · rw [hne] at hn
    obtain ⟨hr, he⟩ := orNull_eq_some hn
    exact matchesRow_of_email hal (truthy_iff.2 ⟨e, hr, he⟩) (by rw [ha, hr])
  · rw [hnp] at hn
    obtain ⟨hr, he⟩ := orNull_eq_some hn
    exact matchesRow_of_phone hal (truthy_iff.2 ⟨p, hr, he⟩) (by rw [ha, hr])

theorem shares_symm {a b : Contact}
    (h : (∃ e, a.email = some e ∧ b.email = some e) ∨
         (∃ p, a.phonenumber = some p ∧ b.phonenumber = some p)) :
    (∃ e, b.email = some e ∧ a.email = some e) ∨
         (∃ p, b.phonenumber = some p ∧ a.phonenumber = some p) := by
  rcases h with ⟨e, h1, h2⟩ | ⟨p, h1, h2⟩
  · exact Or.inl ⟨e, h2, h1⟩
  · exact Or.inr ⟨p, h2, h1⟩

/-- After the merge loop, the cluster of an old live row: that of the survivor
when the row resolved to a candidate, its old one otherwise. -/
theorem merged_cluster (clock : Nat → Nat) {db : Db} (hwf : WellFormed db) {req : Request}
    {p0 : Contact} {rest : List Contact} (hP : uniquePrimaries db req = p0 :: rest)
    {q : Contact} (hq : q ∈ db.rows) (hql : live q = true)
    (hqp : q.linkprecedence = LinkPrecedence.primary) :
    ∃ t ∈ db.rows.map
        (mergeRow clock (finalPrimaryOf p0 rest).id (sortPrimaries (p0 :: rest)) 0),
      live t = true ∧ t.linkprecedence = LinkPrecedence.primary ∧
      ∀ a ∈ db.rows, live a = true → resolve db a = some q →
        inCluster t.id
          (mergeRow clock (finalPrimaryOf p0 rest).id (sortPrimaries (p0 :: rest)) 0 a) = true := by
  have hf : finalPrimaryOf p0 rest ∈ uniquePrimaries db req := by
    rw [hP]; exact finalPrimaryOf_mem p0 rest
  have hfrows := uniquePrimaries_rows hf
  have hfprim := (uniquePrimaries_primary hwf hf).1
  by_cases hin : q ∈ p0 :: rest
  · refine ⟨finalPrimaryOf p0 rest,
      List.mem_map.2 ⟨_, hfrows.1, mergeRow_survivor clock hwf hP⟩, hfrows.2, hfprim, ?_⟩
    intro a ha hal hr
    exact mergeRow_inCluster clock ha hal hin hr
  · have hqq : resolve db q = some q := by simp [resolve, hqp]
    have hkeep := mergeRow_outside clock hwf hP hq hql hqq hin
    refine ⟨q, List.mem_map.2 ⟨q, hq, hkeep⟩, hql, hqp, ?_⟩
    intro a ha hal hr
    rw [mergeRow_outside clock hwf hP ha hal hr hin]
    obtain ⟨_, _, hor⟩ := resolve_some ha hal hr
    rcases hor with ⟨_, hx⟩ | ⟨_, hlk, _⟩
    · rw [hx]; exact inCluster_iff.2 (Or.inl rfl)
    · exact inCluster_iff.2 (Or.inr hlk)

/-- One call keeps the rows that share an identifier in one cluster. -/
theorem storeAfter_shared (clock : Nat → Nat) {db : Db} (req : Request) (hwf : WellFormed db)
    (hser : SerialIds db) (hsil : SharedIdentifiersLinked db) :
    SharedIdentifiersLinked (storeAfter clock db req) := by
  have hpos : ∀ c ∈ db.rows, 0 < c.id := fun c hc => (hser.2 c hc).1
  by_cases hm : findMatches db req = []
  · rw [storeAfter_ok (identify_noMatch clock hm)]
    have hnomatch : ∀ a ∈ db.rows, matchesRow req a = true → False := by
      intro a ha hma
      have : a ∈ findMatches db req := mem_findMatches.2 ⟨ha, hma⟩
      rw [hm] at this
      cases this
    intro a ha b hb hal hbl hsh
    rcases List.mem_append.1 ha with ha1 | ha1
    · rcases List.mem_append.1 hb with hb1 | hb1
      · obtain ⟨q, hq, h⟩ := hsil a ha1 b hb1 hal hbl hsh
        exact ⟨q, List.mem_append_left _ hq, h⟩
      · rw [List.mem_singleton] at hb1
        exact (hnomatch a ha1 (matched_of_shares_new hal (by rw [hb1]; rfl)
          (by rw [hb1]; rfl) hsh)).elim
    · rw [List.mem_singleton] at ha1
      rcases List.mem_append.1 hb with hb1 | hb1
      · exact (hnomatch b hb1 (matched_of_shares_new hbl (by rw [ha1]; rfl)
          (by rw [ha1]; rfl) (shares_symm hsh))).elim
      · rw [List.mem_singleton] at hb1
        refine ⟨a, ha, hal, by rw [ha1]; rfl, inCluster_iff.2 (Or.inl rfl), ?_⟩
        rw [hb1, ha1]
        exact inCluster_iff.2 (Or.inl rfl)
  · cases hP : uniquePrimaries db req with
    | nil =>
      rw [storeAfter_error (identify_noCandidate clock hm hP)]
      exact hsil
    | cons p0 rest =>
      obtain ⟨db2, extra, hid, hrows, hextra⟩ := identify_rows clock hP
      rw [storeAfter_ok hid]
      have hf : finalPrimaryOf p0 rest ∈ uniquePrimaries db req := by
        rw [hP]; exact finalPrimaryOf_mem p0 rest
      have hfrows := uniquePrimaries_rows hf
      have hfprim := (uniquePrimaries_primary hwf hf).1
      have hfmem : finalPrimaryOf p0 rest ∈ db2.rows := by
        rw [hrows]
        exact List.mem_append_left _
          (List.mem_map.2 ⟨_, hfrows.1, mergeRow_survivor clock hwf hP⟩)
      -- an old row that shares an identifier with the new one joins the survivor
      have hjoin : ∀ a ∈ db.rows, live a = true → ∀ n ∈ extra,
          ((∃ e, a.email = some e ∧ n.email = some e) ∨
           (∃ p, a.phonenumber = some p ∧ n.phonenumber = some p)) →
          inCluster (finalPrimaryOf p0 rest).id
            (mergeRow clock (finalPrimaryOf p0 rest).id (sortPrimaries (p0 :: rest)) 0 a)
            = true := by
        intro a ha hal n hn hsh
        have hma := matched_of_shares_new hal (hextra n hn).2.2.2.2.1 (hextra n hn).2.2.2.2.2 hsh
        obtain ⟨p, hp, hr, _⟩ := candidate_of_match hwf hpos (mem_findMatches.2 ⟨ha, hma⟩)
        rw [hP] at hp
        exact mergeRow_inCluster clock ha hal hp hr
      have hnew : ∀ n ∈ extra, inCluster (finalPrimaryOf p0 rest).id n = true :=
        fun n hn => inCluster_iff.2 (Or.inr (hextra n hn).2.1)
      intro a ha b hb hal hbl hsh
      rw [hrows] at ha hb
      rcases List.mem_append.1 ha with ha1 | ha1
      · obtain ⟨a0, ha0, rfl⟩ := List.mem_map.1 ha1
        rw [mergeRow_live] at hal
        rcases List.mem_append.1 hb with hb1 | hb1
        · obtain ⟨b0, hb0, rfl⟩ := List.mem_map.1 hb1
          rw [mergeRow_live] at hbl
          simp only [mergeRow_email, mergeRow_phonenumber] at hsh
          obtain ⟨q, hq, hql, hqp, hqa, hqb⟩ := hsil a0 ha0 b0 hb0 hal hbl hsh
          obtain ⟨t, ht, htl, htp, hall⟩ := merged_cluster clock hwf hP hq hql hqp
          refine ⟨t, by rw [hrows]; exact List.mem_append_left _ ht, htl, htp, ?_, ?_⟩
          · exact hall a0 ha0 hal (resolve_of_inCluster hwf hpos hq hql hqp ha0 hal hqa)
          · exact hall b0 hb0 hbl (resolve_of_inCluster hwf hpos hq hql hqp hb0 hbl hqb)
        · simp only [mergeRow_email, mergeRow_phonenumber] at hsh
          exact ⟨_, hfmem, hfrows.2, hfprim, hjoin a0 ha0 hal b hb1 hsh, hnew b hb1⟩
      · rcases List.mem_append.1 hb with hb1 | hb1
        · obtain ⟨b0, hb0, rfl⟩ := List.mem_map.1 hb1
          rw [mergeRow_live] at hbl
          simp only [mergeRow_email, mergeRow_phonenumber] at hsh
          exact ⟨_, hfmem, hfrows.2, hfprim, hnew a ha1,
            hjoin b0 hb0 hbl a ha1 (shares_symm hsh)⟩
        · exact ⟨_, hfmem, hfrows.2, hfprim, hnew a ha1, hnew b hb1⟩

/-- A table built by the handler alone is well-formed, has the ids of the
sequence, and keeps every shared identifier inside one cluster. -/
theorem reachable_invariant {db : Db} (h : Reachable db) :
    WellFormed db ∧ SerialIds db ∧ SharedIdentifiersLinked db := by
  induction h with
  | empty =>
    refine ⟨⟨List.nodup_nil, ?_⟩, ⟨Nat.one_pos, ?_⟩, ?_⟩
    · intro c hc; cases hc
    · intro c hc; cases hc
    · intro a ha; cases ha
  | step clock req _ ih =>
    obtain ⟨hwf, hser, hsil⟩ := ih
    refine ⟨(storeAfter_wellFormed clock req hwf).2 ?_, storeAfter_serial clock req hser,
      storeAfter_shared clock req hwf hser hsil⟩
    intro c hc
    exact Nat.ne_of_lt (hser.2 c hc).2

/-- When shared identifiers stay inside one cluster, a request reaches at most
one primary through its email and at most one through its phone number. -/
theorem candidates_le_two {db : Db} (hwf : WellFormed db) (hpos : ∀ c ∈ db.rows, 0 < c.id)
    (hsil : SharedIdentifiersLinked db) (req : Request) :
    (uniquePrimaries db req).length ≤ 2 := by
  have hvia : ∀ x ∈ uniquePrimaries db req,
      (∃ m ∈ db.rows, live m = true ∧ resolve db m = some x ∧
        ∃ e, req.email = some e ∧ m.email = some e) ∨
      (∃ m ∈ db.rows, live m = true ∧ resolve db m = some x ∧
        ∃ p, req.phoneNumber = some p ∧ m.phonenumber = some p) := by
    intro x hx
    obtain ⟨m, hm, hr⟩ := mem_uniquePrimaries hx
    have hm' := mem_findMatches.1 hm
    rcases (matchesRow_iff.1 hm'.2).2 with ⟨e, h1, _, h2⟩ | ⟨p, h1, _, h2⟩
    · exact Or.inl ⟨m, hm'.1, matchesRow_live hm'.2, hr, e, h1, h2⟩
    · exact Or.inr ⟨m, hm'.1, matchesRow_live hm'.2, hr, p, h1, h2⟩
  have hsame : ∀ {m1 m2 x y : Contact}, m1 ∈ db.rows → m2 ∈ db.rows → live m1 = true →
      live m2 = true → resolve db m1 = some x → resolve db m2 = some y →
      ((∃ e, m1.email = some e ∧ m2.email = some e) ∨
       (∃ p, m1.phonenumber = some p ∧ m2.phonenumber = some p)) → x = y := by
    intro m1 m2 x y h1 h2 l1 l2 r1 r2 hsh
    obtain ⟨q, hq, hql, hqp, hq1, hq2⟩ := hsil m1 h1 m2 h2 l1 l2 hsh
    have e1 := resolve_of_inCluster hwf hpos hq hql hqp h1 l1 hq1
    have e2 := resolve_of_inCluster hwf hpos hq hql hqp h2 l2 hq2
    rw [r1] at e1
    rw [r2] at e2
    exact (Option.some.inj e1).trans (Option.some.inj e2).symm
  have hE : ∀ {x y : Contact},
      (∃ m ∈ db.rows, live m = true ∧ resolve db m = some x ∧
        ∃ e, req.email = some e ∧ m.email = some e) →
      (∃ m ∈ db.rows, live m = true ∧ resolve db m = some y ∧
        ∃ e, req.email = some e ∧ m.email = some e) → x = y := by
    rintro x y ⟨m1, h1, l1, r1, e1, hq1, he1⟩ ⟨m2, h2, l2, r2, e2, hq2, he2⟩
    rw [hq1] at hq2
    rw [← Option.some.inj hq2] at he2
    exact hsame h1 h2 l1 l2 r1 r2 (Or.inl ⟨e1, he1, he2⟩)
  have hF : ∀ {x y : Contact},
      (∃ m ∈ db.rows, live m = true ∧ resolve db m = some x ∧
        ∃ p, req.phoneNumber = some p ∧ m.phonenumber = some p) →
      (∃ m ∈ db.rows, live m = true ∧ resolve db m = some y ∧
        ∃ p, req.phoneNumber = some p ∧ m.phonenumber = some p) → x = y := by
    rintro x y ⟨m1, h1, l1, r1, e1, hq1, he1⟩ ⟨m2, h2, l2, r2, e2, hq2, he2⟩
    rw [hq1] at hq2
    rw [← Option.some.inj hq2] at he2
    exact hsame h1 h2 l1 l2 r1 r2 (Or.inr ⟨e1, he1, he2⟩)
  have hnd := uniquePrimaries_nodup db req
  match hl : uniquePrimaries db req with
  | [] => simp
  | [_] => simp
  | [_, _] => simp
  | a :: b :: c :: t =>
    exfalso
    rw [hl] at hnd hvia
    simp only [List.map_cons, List.nodup_cons, List.mem_cons, not_or] at hnd
    have hab : a ≠ b := fun e => hnd.1.1 (by rw [e])
    have hac : a ≠ c := fun e => hnd.1.2.1 (by rw [e])
    have hbc : b ≠ c := fun e => hnd.2.1.1 (by rw [e])
    have ha := hvia a (by simp)
    have hb := hvia b (by simp)
    have hc := hvia c (by simp)
    rcases ha with ha | ha <;> rcases hb with hb | hb <;> rcases hc with hc | hc
    · exact hab (hE ha hb)
    · exact hab (hE ha hb)
    · exact hac (hE ha hc)
    · exact hbc (hF hb hc)
    · exact hbc (hE hb hc)
    · exact hac (hF ha hc)
    · exact hab (hF ha hb)
    · exact hab (hF ha hb)

/-- C28: in a table built from the empty one by calls of the handler alone, two
live rows that share a non-null email or a non-null phone number are in the
cluster of one live primary; hence no request has more than two candidate
primaries there. -/
theorem C28_shared_identifiers_one_cluster (db : Db) (h : Reachable db) :
    SharedIdentifiersLinked db ∧ ∀ req, (uniquePrimaries db req).length ≤ 2 := by
  obtain ⟨hwf, hser, hsil⟩ := reachable_invariant h
  exact ⟨hsil, candidates_le_two hwf (fun c hc => (hser.2 c hc).1) hsil⟩

/-- C28 at a sample: the table after one call on the empty table. -/
theorem C28_shared_identifiers_one_cluster_witness :
    Reachable (storeAfter sampleClock { rows := [], nextId := 1 } linkingRequest) ∧
    SharedIdentifiersLinked (storeAfter sampleClock { rows := [], nextId := 1 } linkingRequest) ∧
    ∀ req, (uniquePrimaries (storeAfter sampleClock { rows := [], nextId := 1 } linkingRequest)
      req).length ≤ 2 :=
  ⟨Reachable.step sampleClock linkingRequest Reachable.empty,
    C28_shared_identifiers_one_cluster _
      (Reachable.step sampleClock linkingRequest Reachable.empty)⟩

/-! ## The order of the rows (C29) -/

theorem findLiveById_perm {db1 db2 : Db} (hn : (db1.rows.map (fun c => c.id)).Nodup)
    (hperm : db1.rows.Perm db2.rows) (i : Nat) : findLiveById db1 i = findLiveById db2 i := by
  have hn2 : (db2.rows.map (fun c => c.id)).Nodup := (hperm.map _).nodup_iff.1 hn
  apply Option.ext
  intro p
  constructor
  · intro h
    obtain ⟨hp, hid, hl⟩ := findLiveById_some h
    rw [← hid]
    exact findLiveById_of_mem hn2 (hperm.mem_iff.1 hp) hl
  · intro h
    obtain ⟨hp, hid, hl⟩ := findLiveById_some h
    rw [← hid]
    exact findLiveById_of_mem hn (hperm.mem_iff.2 hp) hl

theorem resolve_perm {db1 db2 : Db} (hn : (db1.rows.map (fun c => c.id)).Nodup)
    (hperm : db1.rows.Perm db2.rows) (c : Contact) : resolve db1 c = resolve db2 c := by
  have h := findLiveById_perm hn hperm
  unfold resolve
  simp only [h]

theorem findMatches_perm {db1 db2 : Db} (hperm : db1.rows.Perm db2.rows) (req : Request) :
    (findMatches db1 req).Perm (findMatches db2 req) := by
  rw [findMatches_eq_filter, findMatches_eq_filter]
  exact hperm.filter _

theorem uniquePrimaries_perm {db1 db2 : Db} (hn : (db1.rows.map (fun c => c.id)).Nodup)
    (hperm : db1.rows.Perm db2.rows) (req : Request) :
    (uniquePrimaries db1 req).Perm (uniquePrimaries db2 req) := by
  have hn2 : (db2.rows.map (fun c => c.id)).Nodup := (hperm.map _).nodup_iff.1 hn
  rw [List.perm_ext_iff_of_nodup (List.Nodup.of_map _ (uniquePrimaries_nodup db1 req))
    (List.Nodup.of_map _ (uniquePrimaries_nodup db2 req))]
  intro x
  rw [mem_uniquePrimaries_iff hn, mem_uniquePrimaries_iff hn2]
  constructor
  · rintro ⟨c, hc, hr⟩
    exact ⟨c, (findMatches_perm hperm req).mem_iff.1 hc, by rw [← resolve_perm hn hperm]; exact hr⟩
  · rintro ⟨c, hc, hr⟩
    exact ⟨c, (findMatches_perm hperm req).mem_iff.2 hc, by rw [resolve_perm hn hperm]; exact hr⟩

/-- Rows with distinct ids are sorted into one order only. -/
theorem sortPrimaries_eq_of_perm {rows l1 l2 : List Contact}
    (hn : (rows.map (fun c => c.id)).Nodup) (h1 : ∀ x ∈ l1, x ∈ rows) (hperm : l1.Perm l2) :
    sortPrimaries l1 = sortPrimaries l2 := by
  apply List.Perm.eq_of_sorted ?_ (sortPrimaries_sorted l1)
    (sortPrimaries_sorted l2)
    (((sortPrimaries_perm l1).trans hperm).trans (sortPrimaries_perm l2).symm)
  intro a b ha hb hab hba
  have ha1 := h1 a (mem_sortPrimaries.1 ha)
  have hb1 := h1 b (hperm.mem_iff.2 (mem_sortPrimaries.1 hb))
  apply eq_of_id_eq hn ha1 hb1
  unfold olderOrEq at hab hba
  omega

theorem finalPrimaryOf_eq_of_sorted {p0 q0 : Contact} {rest rest2 : List Contact}
    (hperm : (p0 :: rest).Perm (q0 :: rest2))
    (hs : sortPrimaries (p0 :: rest) = sortPrimaries (q0 :: rest2)) :
    finalPrimaryOf p0 rest = finalPrimaryOf q0 rest2 := by
  have hlen : (p0 :: rest).length = (q0 :: rest2).length := hperm.length_eq
  unfold finalPrimaryOf
  by_cases hk : (p0 :: rest).length > 1
  · have hk2 : (q0 :: rest2).length > 1 := by rw [← hlen]; exact hk
    rw [if_pos hk, if_pos hk2, hs]
    cases hsl : sortPrimaries (q0 :: rest2) with
    | nil =>
      have := (sortPrimaries_perm (q0 :: rest2)).length_eq
      rw [hsl] at this
      simp at this
    | cons a t => rfl
  · have hk2 : ¬ (q0 :: rest2).length > 1 := by rw [← hlen]; exact hk
    rw [if_neg hk, if_neg hk2]
    have hr : rest = [] := by
      cases rest with
      | nil => rfl
      | cons a t => simp at hk
    have hr2 : rest2 = [] := by
      cases rest2 with
      | nil => rfl
      | cons a t => simp at hk2
    rw [hr, hr2] at hperm
    exact (List.perm_singleton.1 hperm.symm |> List.singleton_inj.1).symm

theorem mergeAll_snd (clock : Nat → Nat) (db : Db) (p0 : Contact) (rest : List Contact) :
    (mergeAll clock db p0 rest).2 =
      if (p0 :: rest).length > 1 then
        (mergeWrites (finalPrimaryOf p0 rest).id (sortPrimaries (p0 :: rest))).length
      else 0 := by
  unfold mergeAll
  by_cases hk : (p0 :: rest).length > 1
  · rw [if_pos hk, if_pos hk,
      (applyWrites_mergeWrites clock (finalPrimaryOf p0 rest).id (sortPrimaries (p0 :: rest)) 0
        db).2]
    omega
  · rw [if_neg hk, if_neg hk]

theorem needNewSecondary_perm {rA rB : List Contact} (hperm : rA.Perm rB) (req : Request)
    (pid : Nat) : needNewSecondary rA req pid = needNewSecondary rB req pid := by
  unfold needNewSecondary
  rw [(hperm.filter _).length_eq, (hperm.filter _).length_eq, (hperm.filter _).length_eq]

theorem fillGap_perm {rA rB : List Contact} (hperm : rA.Perm rB) (ts n : Nat) (req : Request)
    (pid : Nat) :
    (fillGap ts ⟨rA, n⟩ req pid).rows.Perm (fillGap ts ⟨rB, n⟩ req pid).rows ∧
    (fillGap ts ⟨rA, n⟩ req pid).nextId = (fillGap ts ⟨rB, n⟩ req pid).nextId := by
  unfold fillGap
  simp only [needNewSecondary_perm hperm req pid]
  split
  · exact ⟨hperm.append_right _, rfl⟩
  · exact ⟨hperm, rfl⟩

theorem fillGap_nodup {rA : List Contact} (hn : (rA.map (fun c => c.id)).Nodup) (ts n : Nat)
    (hfresh : ∀ c ∈ rA, c.id ≠ n) (req : Request) (pid : Nat) :
    ((fillGap ts ⟨rA, n⟩ req pid).rows.map (fun c => c.id)).Nodup := by
  rcases fillGap_cases ts ⟨rA, n⟩ req pid with ⟨_, h⟩ | ⟨_, h⟩
  · rw [h]; exact hn
  · rw [h]
    simp only [List.map_append, List.map_cons, List.map_nil]
    apply List.Nodup.append hn (List.nodup_singleton _)
    intro i hi hi2
    rw [List.mem_singleton] at hi2
    obtain ⟨c, hc, rfl⟩ := List.mem_map.1 hi
    exact hfresh c hc hi2

/-- The query `ORDER BY id` gives one answer whatever the order of the table. -/
theorem allLinked_perm {rA rB : List Contact} (hn : (rA.map (fun c => c.id)).Nodup)
    (hperm : rA.Perm rB) (pid : Nat) : allLinked rA pid = allLinked rB pid := by
  haveI : IsTotal Contact (fun a b => a.id ≤ b.id) := ⟨fun a b => Nat.le_total a.id b.id⟩
  haveI : IsTrans Contact (fun a b => a.id ≤ b.id) := ⟨fun a b c h1 h2 => Nat.le_trans h1 h2⟩
  unfold allLinked
  refine List.Perm.eq_of_sorted ?_
    (List.sorted_insertionSort (fun a b : Contact => a.id ≤ b.id)
      (rA.filter (fun c => inCluster pid c && live c)))
    (List.sorted_insertionSort (fun a b : Contact => a.id ≤ b.id)
      (rB.filter (fun c => inCluster pid c && live c)))
    (((List.perm_insertionSort _ _).trans (hperm.filter _)).trans
      (List.perm_insertionSort _ _).symm)
  intro a b ha hb hab hba
  have ha1 := List.mem_of_mem_filter ((List.perm_insertionSort _ _).mem_iff.1 ha)
  have hb1 := hperm.mem_iff.2
    (List.mem_of_mem_filter ((List.perm_insertionSort _ _).mem_iff.1 hb))
  exact eq_of_id_eq hn ha1 hb1 (Nat.le_antisymm hab hba)

/-- Two rows with different ids can be put into a list ordered by id in either
order. -/
theorem orderedInsert_comm {a b : Contact} (hab : a.id ≠ b.id) (l : List Contact) :
    List.orderedInsert (fun x y : Contact => x.id ≤ y.id) a
        (List.orderedInsert (fun x y : Contact => x.id ≤ y.id) b l) =
      List.orderedInsert (fun x y : Contact => x.id ≤ y.id) b
        (List.orderedInsert (fun x y : Contact => x.id ≤ y.id) a l) := by
  induction l with
  | nil =>
    simp only [List.orderedInsert]
    by_cases h : a.id ≤ b.id
    · have h2 : ¬ b.id ≤ a.id := by omega
      simp [h, h2]
    · have h2 : b.id ≤ a.id := by omega
      simp [h, h2]
  | cons c t ih =>
    simp only [List.orderedInsert]
    by_cases h : a.id ≤ b.id
    · have h2 : ¬ b.id ≤ a.id := by omega
      by_cases hac : a.id ≤ c.id <;> by_cases hbc : b.id ≤ c.id <;>
        first
        | (exfalso; omega)
        | simp [hac, hbc, h, h2, List.orderedInsert, ih]
    · have h2 : b.id ≤ a.id := by omega
      by_cases hac : a.id ≤ c.id <;> by_cases hbc : b.id ≤ c.id <;>
        first
        | (exfalso; omega)
        | simp [hac, hbc, h, h2, List.orderedInsert, ih]

theorem insertionSort_append_foldr (X Y : List Contact) :
    (X ++ Y).insertionSort (fun a b : Contact => a.id ≤ b.id) =
      X.foldr (List.orderedInsert (fun a b : Contact => a.id ≤ b.id))
        (Y.insertionSort (fun a b : Contact => a.id ≤ b.id)) := by
  induction X with
  | nil => rfl
  | cons x X ih =>
    show List.orderedInsert _ x ((X ++ Y).insertionSort _) = _
    rw [ih]
    rfl

/-- The query `ORDER BY id` after the same rows have been appended to two tables
holding the same rows: one answer. -/
theorem allLinked_perm_append {rA rB : List Contact} (hn : (rA.map (fun c => c.id)).Nodup)
    (hperm : rA.Perm rB) (E : List Contact) (pid : Nat) :
    allLinked (rA ++ E) pid = allLinked (rB ++ E) pid := by
  unfold allLinked
  rw [List.filter_append, List.filter_append, insertionSort_append_foldr,
    insertionSort_append_foldr]
  apply List.Perm.foldr_eq' (hperm.filter _)
  intro x hx y hy z
  by_cases hxy : x = y
  · rw [hxy]
  · apply orderedInsert_comm
    intro e
    exact hxy (eq_of_id_eq hn (List.mem_of_mem_filter hx) (List.mem_of_mem_filter hy) e.symm)

theorem allLinked_fillGap_perm {rA rB : List Contact} (hn : (rA.map (fun c => c.id)).Nodup)
    (hperm : rA.Perm rB) (ts n : Nat) (req : Request) (pid : Nat) :
    allLinked (fillGap ts ⟨rA, n⟩ req pid).rows pid =
      allLinked (fillGap ts ⟨rB, n⟩ req pid).rows pid := by
  unfold fillGap
  simp only [needNewSecondary_perm hperm req pid]
  split
  · exact allLinked_perm_append hn hperm _ pid
  · have := allLinked_perm_append hn hperm [] pid
    simpa using this

/-- The survivor of a call is the same for two tables with the same rows. -/
theorem survivor_perm {db1 db2 : Db} (hn : (db1.rows.map (fun c => c.id)).Nodup)
    (hperm : db1.rows.Perm db2.rows) {req : Request} {p0 q0 : Contact}
    {rest rest2 : List Contact} (hP : uniquePrimaries db1 req = p0 :: rest)
    (hQ : uniquePrimaries db2 req = q0 :: rest2) :
    sortPrimaries (p0 :: rest) = sortPrimaries (q0 :: rest2) ∧
    (p0 :: rest).length = (q0 :: rest2).length ∧
    finalPrimaryOf p0 rest = finalPrimaryOf q0 rest2 := by
  have hUP : (p0 :: rest).Perm (q0 :: rest2) := by
    rw [← hP, ← hQ]; exact uniquePrimaries_perm hn hperm req
  have hs : sortPrimaries (p0 :: rest) = sortPrimaries (q0 :: rest2) := by
    apply sortPrimaries_eq_of_perm hn _ hUP
    intro x hx
    rw [← hP] at hx
    exact (uniquePrimaries_rows hx).1
  exact ⟨hs, hUP.length_eq, finalPrimaryOf_eq_of_sorted hUP hs⟩

/-- C29: two tables that hold the same rows, with unique ids, in different
orders, get the same answer from a call (the same error, or the same consolidated
contact) and are left holding the same rows; in particular the survivor is the
same row. -/
theorem C29_row_order_irrelevant (clock : Nat → Nat) (db1 db2 : Db) (req : Request)
    (hn : (db1.rows.map (fun c => c.id)).Nodup)
    (hperm : db1.rows.Perm db2.rows) (hnext : db1.nextId = db2.nextId) :
    ((∃ e, identify clock db1 req = Except.error e ∧ identify clock db2 req = Except.error e) ∨
     (∃ resp d1 d2, identify clock db1 req = Except.ok (resp, d1) ∧
        identify clock db2 req = Except.ok (resp, d2) ∧
        d1.rows.Perm d2.rows ∧ d1.nextId = d2.nextId)) ∧
    (∀ p0 rest q0 rest2, uniquePrimaries db1 req = p0 :: rest →
      uniquePrimaries db2 req = q0 :: rest2 →
      finalPrimaryOf p0 rest = finalPrimaryOf q0 rest2) := by
  refine ⟨?_, fun p0 rest q0 rest2 hP hQ => (survivor_perm hn hperm hP hQ).2.2⟩
  obtain ⟨rows2, n2⟩ := db2
  simp only at hperm hnext
  subst hnext
  have hfm := @findMatches_perm db1 ⟨rows2, db1.nextId⟩ hperm req
  have hup := @uniquePrimaries_perm db1 ⟨rows2, db1.nextId⟩ hn hperm req
  by_cases hm : findMatches db1 req = []
  · have hm2 : findMatches ⟨rows2, db1.nextId⟩ req = [] := by
      apply List.length_eq_zero.1
      rw [← hfm.length_eq, hm]
      rfl
    refine Or.inr ⟨_, _, _, identify_noMatch clock hm, identify_noMatch clock hm2, ?_, rfl⟩
    exact hperm.append_right _
  · have hm2 : findMatches ⟨rows2, db1.nextId⟩ req ≠ [] := by
      intro e
      apply hm
      apply List.length_eq_zero.1
      rw [hfm.length_eq, e]
      rfl
    cases hP : uniquePrimaries db1 req with
    | nil =>
      have hQ : uniquePrimaries ⟨rows2, db1.nextId⟩ req = [] := by
        apply List.length_eq_zero.1
        rw [← hup.length_eq, hP]
        rfl
      exact Or.inl ⟨_, identify_noCandidate clock hm hP, identify_noCandidate clock hm2 hQ⟩
    | cons p0 rest =>
      cases hQ : uniquePrimaries ⟨rows2, db1.nextId⟩ req with
      | nil =>
        have := hup.length_eq
        rw [hP, hQ] at this
        simp at this
      | cons q0 rest2 =>
        obtain ⟨hs, hlen, hf⟩ := @survivor_perm db1 ⟨rows2, db1.nextId⟩ hn hperm req p0 q0 rest rest2 hP hQ
        have h1 : mergeAll clock db1 p0 rest =
            (db1.rows.map
              (mergeRow clock (finalPrimaryOf p0 rest).id (sortPrimaries (p0 :: rest)) 0),
             if (p0 :: rest).length > 1 then
               (mergeWrites (finalPrimaryOf p0 rest).id (sortPrimaries (p0 :: rest))).length
             else 0) :=
          Prod.ext (mergeAll_rows clock db1 p0 rest) (mergeAll_snd clock db1 p0 rest)
        have h2 : mergeAll clock ⟨rows2, db1.nextId⟩ q0 rest2 =
            (rows2.map
              (mergeRow clock (finalPrimaryOf p0 rest).id (sortPrimaries (p0 :: rest)) 0),
             if (p0 :: rest).length > 1 then
               (mergeWrites (finalPrimaryOf p0 rest).id (sortPrimaries (p0 :: rest))).length
             else 0) := by
          rw [hs, hf, hlen]
          exact Prod.ext (mergeAll_rows clock _ q0 rest2) (mergeAll_snd clock _ q0 rest2)
        have e1 := identify_candidates clock hP
        have e2 := identify_candidates clock hQ
        rw [h1] at e1
        rw [h2, ← hf] at e2
        simp only at e1 e2
        obtain ⟨hpr, hnx⟩ := fillGap_perm
          (hperm.map (mergeRow clock (finalPrimaryOf p0 rest).id (sortPrimaries (p0 :: rest)) 0))
          (clock (if (p0 :: rest).length > 1 then
               (mergeWrites (finalPrimaryOf p0 rest).id (sortPrimaries (p0 :: rest))).length
             else 0)) db1.nextId req (finalPrimaryOf p0 rest).id
        rw [← allLinked_fillGap_perm (by rw [map_mergeRow_ids]; exact hn)
          (hperm.map (mergeRow clock (finalPrimaryOf p0 rest).id (sortPrimaries (p0 :: rest)) 0))]
          at e2
        exact Or.inr ⟨_, _, _, e1, e2, hpr, hnx⟩

/-- C29 at a sample: `twoPrimaries` and the same table with its rows swapped. -/
theorem C29_row_order_irrelevant_witness :
    (twoPrimaries.rows.map (fun c => c.id)).Nodup ∧
    twoPrimaries.rows.Perm (Db.mk twoPrimaries.rows.reverse 3).rows ∧
    twoPrimaries.nextId = (Db.mk twoPrimaries.rows.reverse 3).nextId ∧
    (((∃ e, identify sampleClock twoPrimaries linkingRequest = Except.error e ∧
        identify sampleClock (Db.mk twoPrimaries.rows.reverse 3) linkingRequest
          = Except.error e) ∨
     (∃ resp d1 d2, identify sampleClock twoPrimaries linkingRequest = Except.ok (resp, d1) ∧
        identify sampleClock (Db.mk twoPrimaries.rows.reverse 3) linkingRequest
          = Except.ok (resp, d2) ∧
        d1.rows.Perm d2.rows ∧ d1.nextId = d2.nextId)) ∧
    (∀ p0 rest q0 rest2, uniquePrimaries twoPrimaries linkingRequest = p0 :: rest →
      uniquePrimaries (Db.mk twoPrimaries.rows.reverse 3) linkingRequest = q0 :: rest2 →
      finalPrimaryOf p0 rest = finalPrimaryOf q0 rest2)) :=
  ⟨by decide, (List.reverse_perm _).symm, rfl,
    C29_row_order_irrelevant sampleClock twoPrimaries (Db.mk twoPrimaries.rows.reverse 3)
      linkingRequest (by decide) (List.reverse_perm _).symm rfl⟩

/-- C27 at a sample: row 2 of `twoPrimaries`, the losing primary of the merge,
keeps its id, email, phone, creation time and `deletedAt`. -/
theorem C27_only_merge_changes_rows_witness :
    twoPrimaries.rows[1]? =
      some (newRow 2 (some "biffsucks@hillvalley.edu") (some "717171") none
        LinkPrecedence.primary 20) ∧
    ∃ c', (storeAfter sampleClock twoPrimaries linkingRequest).rows[1]? = some c' ∧
      c'.id = 2 ∧ c'.email = some "biffsucks@hillvalley.edu" ∧
      c'.phonenumber = some "717171" ∧ c'.createdat = 20 ∧ c'.deletedat = none ∧
      (c' ≠ newRow 2 (some "biffsucks@hillvalley.edu") (some "717171") none
          LinkPrecedence.primary 20 →
        ∃ p0 rest, uniquePrimaries twoPrimaries linkingRequest = p0 :: rest ∧
          ∃ P ∈ p0 :: rest, P.id ≠ (finalPrimaryOf p0 rest).id ∧
            ((newRow 2 (some "biffsucks@hillvalley.edu") (some "717171") none
                LinkPrecedence.primary 20).id = P.id ∨
             (newRow 2 (some "biffsucks@hillvalley.edu") (some "717171") none
                LinkPrecedence.primary 20).linkedid = some P.id)) ∧
      ((uniquePrimaries twoPrimaries linkingRequest).length = 1 →
        c' = newRow 2 (some "biffsucks@hillvalley.edu") (some "717171") none
          LinkPrecedence.primary 20) :=
  ⟨rfl, C27_only_merge_changes_rows sampleClock twoPrimaries linkingRequest 1
    (newRow 2 (some "biffsucks@hillvalley.edu") (some "717171") none
      LinkPrecedence.primary 20) rfl⟩

/-! ## The handler, statement by statement (C25) -/

theorem run_bind {α β : Type} (m : Run α) (f : α → Run β) (s : Session) :
    (m >>= f) s = match m s with
      | (Except.ok a, s1) => f a s1
      | (Except.error e, s1) => (Except.error e, s1) := rfl

theorem run_pure {α : Type} (a : α) (s : Session) : (pure a : Run α) s = (Except.ok a, s) := rfl

theorem resolveStmts_run (cs : List Contact) :
    ∀ (m : List Contact) (s : Session),
      resolveStmts cs m s = (Except.ok (cs.foldl (resolveStep s.store) m), s) := by
  induction cs with
  | nil => intro m s; rfl
  | cons c cs ih =>
    intro m s
    rw [List.foldl_cons]
    unfold resolveStmts resolveStep
    by_cases hp : c.linkprecedence = LinkPrecedence.primary
    · simp only [hp, if_true]
      exact ih _ s
    · simp only [hp, if_false]
      cases hl : c.linkedid with
      | none => exact ih _ s
      | some l =>
        by_cases hl0 : l = 0
        · simp only [hl0, ne_eq, not_true_eq_false, if_false]
          exact ih _ s
        · simp only [ne_eq, hl0, not_false_eq_true, if_true]
          rw [run_bind]
          simp only [select]
          cases findLiveById s.store l with
          | none => exact ih _ s
          | some p => exact ih _ s

theorem mergeStmts_run (clock : Nat → Nat) (survivor : Nat) (ps : List Contact) :
    ∀ (s : Session), mergeStmts clock survivor ps s =
      (Except.ok (),
       { store := ⟨(mergeLoop clock survivor ps s.issued s.store.rows).1, s.store.nextId⟩,
         issued := (mergeLoop clock survivor ps s.issued s.store.rows).2 }) := by
  induction ps with
  | nil => intro s; rfl
  | cons p ps ih =>
    intro s
    unfold mergeStmts mergeLoop
    by_cases hp : p.id = survivor
    · simp only [hp, ne_eq, not_true_eq_false, if_false]
      exact ih s
    · simp only [ne_eq, hp, not_false_eq_true, if_true]
      rw [run_bind]
      simp only [execute]
      rw [run_bind]
      simp only [execute]
      rw [ih]
      rfl

/-- The handler on the no-match path: one `INSERT`, then the answer. -/
theorem handler_noMatch (clock : Nat → Nat) {req : Request} {s : Session}
    (h : findMatches s.store req = []) :
    handler clock req s =
      (Except.ok { primaryContatctId := s.store.nextId, emails := asList req.email,
                   phoneNumbers := asList req.phoneNumber, secondaryContactIds := [] },
       { store := insertContact s.store (orNull req.email) (orNull req.phoneNumber) none
           LinkPrecedence.primary (clock s.issued),
         issued := s.issued + 1 }) := by
  unfold handler
  rw [run_bind]
  simp only [select, h, List.length_nil, if_true]
  rfl

/-- The handler when no matched row resolves: the `throw`, in the session the
handler was started in. -/
theorem handler_noCandidate (clock : Nat → Nat) {req : Request} {s : Session}
    (hm : findMatches s.store req ≠ []) (h : uniquePrimaries s.store req = []) :
    handler clock req s = (Except.error "No primary contact found", s) := by
  have hlen : ¬ (findMatches s.store req).length = 0 := fun e => hm (List.length_eq_zero.1 e)
  unfold handler
  rw [run_bind]
  simp only [select, hlen, if_false]
  rw [run_bind, resolveStmts_run]
  have : (uniqueContacts (findMatches s.store req)).foldl (resolveStep s.store) [] = [] := h
  simp only [this]
  rfl

/-- The session the merge loop leaves. -/
theorem handler_candidates (clock : Nat → Nat) {req : Request} {db : Db} {p0 : Contact}
    {rest : List Contact} (hm : findMatches db req ≠ [])
    (h : uniquePrimaries db req = p0 :: rest) :
    handler clock req ⟨db, 0⟩ =
      (Except.ok (buildResponse (finalPrimaryOf p0 rest)
          (allLinked (fillGap (clock (mergeAll clock db p0 rest).2)
            { rows := (mergeAll clock db p0 rest).1, nextId := db.nextId } req
            (finalPrimaryOf p0 rest).id).rows (finalPrimaryOf p0 rest).id)),
       { store := fillGap (clock (mergeAll clock db p0 rest).2)
            { rows := (mergeAll clock db p0 rest).1, nextId := db.nextId } req
            (finalPrimaryOf p0 rest).id,
         issued := (mergeAll clock db p0 rest).2 +
           (if needNewSecondary (mergeAll clock db p0 rest).1 req (finalPrimaryOf p0 rest).id
            then 1 else 0) }) := by
  have hlen : ¬ (findMatches db req).length = 0 := fun e => hm (List.length_eq_zero.1 e)
  have hfold : (uniqueContacts (findMatches db req)).foldl (resolveStep db) []
      = p0 :: rest := h
  unfold handler
  rw [run_bind]
  simp only [select, hlen, if_false]
  rw [run_bind, resolveStmts_run]
  simp only [hfold]
  unfold mergeAll fillGap
  by_cases hk : (p0 :: rest).length > 1
  · simp only [hk, if_true]
    rw [run_bind, mergeStmts_run]
    simp only
    rw [run_bind]
    simp only [select]
    cases hneed : needNewSecondary
        (mergeLoop clock (finalPrimaryOf p0 rest).id (sortPrimaries (p0 :: rest)) 0 db.rows).1
        req (finalPrimaryOf p0 rest).id
    · simp only [Bool.false_eq_true, if_false]
      rfl
    · simp only [if_true]
      rfl
  · simp only [hk, if_false]
    rw [run_bind, run_pure]
    simp only
    rw [run_bind]
    simp only [select]
    cases hneed : needNewSecondary db.rows req (finalPrimaryOf p0 rest).id
    · simp only [Bool.false_eq_true, if_false]
      rfl
    · simp only [if_true]
      rfl

/-- The statement-by-statement handler and `identify` are one program: the same
answer or the same error, and the table the run ends with is `storeAfter`. -/
theorem handler_agrees (clock : Nat → Nat) (db : Db) (req : Request) :
    (handler clock req ⟨db, 0⟩).1 = (identify clock db req).map Prod.fst ∧
    (handler clock req ⟨db, 0⟩).2.store = storeAfter clock db req := by
  by_cases hm : findMatches db req = []
  · rw [storeAfter_ok (identify_noMatch clock hm), identify_noMatch clock hm,
      @handler_noMatch clock req ⟨db, 0⟩ hm]
    exact ⟨rfl, rfl⟩
  · cases hP : uniquePrimaries db req with
    | nil =>
      rw [storeAfter_error (identify_noCandidate clock hm hP), identify_noCandidate clock hm hP,
        @handler_noCandidate clock req ⟨db, 0⟩ hm hP]
      exact ⟨rfl, rfl⟩
    | cons p0 rest =>
      rw [storeAfter_ok (identify_candidates clock hP), identify_candidates clock hP,
        handler_candidates clock hm hP]
      exact ⟨rfl, rfl⟩

/-- C25: when the call fails with the error `No primary contact found`, the run
of the handler, statement by statement, ends with that `throw` in the very session
it started in: no `INSERT` and no `UPDATE` has been issued before it, and the table
is the table before the call. -/
theorem C25_integrity_error_writes_nothing (clock : Nat → Nat) (db : Db) (req : Request)
    (h : identify clock db req = Except.error "No primary contact found") :
    handler clock req ⟨db, 0⟩ = (Except.error "No primary contact found", ⟨db, 0⟩) ∧
    ∀ s, handler clock req ⟨db, 0⟩ = (Except.error "No primary contact found", s) →
      s.store = db ∧ s.issued = 0 := by
  have key : handler clock req ⟨db, 0⟩ =
      (Except.error "No primary contact found", ⟨db, 0⟩) := by
    by_cases hm : findMatches db req = []
    · rw [identify_noMatch clock hm] at h
      cases h
    · cases hP : uniquePrimaries db req with
      | nil => exact @handler_noCandidate clock req ⟨db, 0⟩ hm hP
      | cons p0 rest =>
        rw [identify_candidates clock hP] at h
        cases h
  refine ⟨key, ?_⟩
  intro s hs
  rw [key] at hs
  have := (Prod.mk.inj hs).2
  rw [← this]
  exact ⟨rfl, rfl⟩

/-- C25 at a sample: the failing call on `allDanglingDb`. -/
theorem C25_integrity_error_writes_nothing_witness :
    identify sampleClock allDanglingDb phoneOnlyRequest
        = Except.error "No primary contact found" ∧
    handler sampleClock phoneOnlyRequest ⟨allDanglingDb, 0⟩ =
      (Except.error "No primary contact found", ⟨allDanglingDb, 0⟩) ∧
    ∀ s, handler sampleClock phoneOnlyRequest ⟨allDanglingDb, 0⟩ =
        (Except.error "No primary contact found", s) →
      s.store = allDanglingDb ∧ s.issued = 0 :=
  ⟨rfl, C25_integrity_error_writes_nothing sampleClock allDanglingDb phoneOnlyRequest rfl⟩

/-! ## Repeating a call (C10) -/

theorem foldl_foldSet_keep (g : Contact → Option Contact) (p : Contact) (l : List Contact)
    (h : ∀ c ∈ l, g c = some p ∨ g c = none) : l.foldl (foldSet g) [p] = [p] := by
  induction l with
  | nil => rfl
  | cons a l ih =>
    rw [List.foldl_cons]
    have : foldSet g [p] a = [p] := by
      unfold foldSet
      rcases h a (List.mem_cons_self _ _) with e | e
      · rw [e]; exact mapSet_single p
      · rw [e]
    rw [this]
    exact ih (fun c hc => h c (List.mem_cons_of_mem _ hc))

theorem foldl_foldSet_one (g : Contact → Option Contact) (p : Contact) (l : List Contact)
    (h : ∀ c ∈ l, g c = some p ∨ g c = none) (hex : ∃ c ∈ l, g c = some p) :
    l.foldl (foldSet g) [] = [p] := by
  induction l with
  | nil => obtain ⟨c, hc, _⟩ := hex; cases hc
  | cons a l ih =>
    rw [List.foldl_cons]
    cases hga : g a with
    | some x =>
      have hx : x = p := by
        rcases h a (List.mem_cons_self _ _) with e | e
        · rw [hga] at e; exact Option.some.inj e
        · rw [hga] at e; cases e
      have : foldSet g [] a = [p] := by
        unfold foldSet
        rw [hga, hx]
        rfl
      rw [this]
      exact foldl_foldSet_keep g p l (fun c hc => h c (List.mem_cons_of_mem _ hc))
    | none =>
      have : foldSet g [] a = [] := by
        unfold foldSet
        rw [hga]
      rw [this]
      apply ih (fun c hc => h c (List.mem_cons_of_mem _ hc))
      obtain ⟨c, hc, hgc⟩ := hex
      rcases List.mem_cons.1 hc with e | hc
      · rw [e, hga] at hgc; cases hgc
      · exact ⟨c, hc, hgc⟩

/-- When every matched row resolves to `p` or to nothing, and one does resolve to
`p`, the candidates are `p` alone. -/
theorem uniquePrimaries_single {db : Db} {req : Request} {p : Contact}
    (hn : (db.rows.map (fun c => c.id)).Nodup)
    (hall : ∀ c ∈ findMatches db req, resolve db c = some p ∨ resolve db c = none)
    (hex : ∃ c ∈ findMatches db req, resolve db c = some p) :
    uniquePrimaries db req = [p] := by
  rw [uniquePrimaries_eq]
  apply foldl_foldSet_one
  · intro c hc
    exact hall c (mem_uniqueContacts hc)
  · obtain ⟨c, hc, hr⟩ := hex
    obtain ⟨y, hy, hye⟩ := uniqueContacts_covers hc
    have hy' := mem_findMatches.1 (mem_uniqueContacts hy)
    have hc' := mem_findMatches.1 hc
    have hyc : y = c := eq_of_id_eq hn hy'.1 hc'.1 hye
    exact ⟨y, hy, by rw [hyc]; exact hr⟩

/-- A call whose matched rows resolve to the one primary `p`, when the gap filler
has nothing to add: the table is left as it was. -/
theorem identify_single (clock : Nat → Nat) {db : Db} {req : Request} {p : Contact}
    (hn : (db.rows.map (fun c => c.id)).Nodup)
    (hall : ∀ c ∈ findMatches db req, resolve db c = some p ∨ resolve db c = none)
    (hex : ∃ c ∈ findMatches db req, resolve db c = some p)
    (hneed : needNewSecondary db.rows req p.id = false) :
    identify clock db req = Except.ok (buildResponse p (allLinked db.rows p.id), db) := by
  rw [identify_candidates clock (uniquePrimaries_single hn hall hex)]
  simp only [finalPrimaryOf_single, mergeAll_single]
  rcases fillGap_cases (clock 0) { rows := db.rows, nextId := db.nextId } req p.id
    with ⟨_, h2⟩ | ⟨h1, _⟩
  · rw [h2]
  · rw [hneed] at h1; cases h1

/-- A secondary linked to the live row `f` resolves to `f`, or to nothing when
the id of `f` is 0. -/
theorem resolve_linked {db : Db} (hn : (db.rows.map (fun c => c.id)).Nodup) {f r : Contact}
    (hf : f ∈ db.rows) (hfl : live f = true)
    (hs : r.linkprecedence = LinkPrecedence.secondary) (hlk : r.linkedid = some f.id) :
    (resolve db r = some f ∨ resolve db r = none) ∧ (f.id ≠ 0 → resolve db r = some f) := by
  have hnp : r.linkprecedence ≠ LinkPrecedence.primary := by rw [hs]; decide
  unfold resolve
  simp only [hnp, if_false, hlk]
  by_cases h0 : f.id = 0
  · simp [h0]
  · simp only [ne_eq, h0, not_false_eq_true, if_true]
    rw [findLiveById_of_mem hn hf hfl]
    exact ⟨Or.inl rfl, fun _ => rfl⟩

theorem resolve_primary {db : Db} {r : Contact}
    (hp : r.linkprecedence = LinkPrecedence.primary) : resolve db r = some r := by
  simp [resolve, hp]

theorem resolve_zero {db : Db} {r : Contact}
    (hs : r.linkprecedence = LinkPrecedence.secondary) (hlk : r.linkedid = some 0) :
    resolve db r = none := by
  have hnp : r.linkprecedence ≠ LinkPrecedence.primary := by rw [hs]; decide
  simp [resolve, hnp, hlk]

/-- After the merge loop every row the request matched resolves to the survivor,
or to nothing (a secondary of a primary with id 0); a row that resolved to the
survivor still does. -/
theorem resolve_after_merge (clock : Nat → Nat) {db : Db} (hwf : WellFormed db) {req : Request}
    {p0 : Contact} {rest : List Contact} (hP : uniquePrimaries db req = p0 :: rest) {D : Db}
    (hD : (D.rows.map (fun c => c.id)).Nodup)
    (hsub : ∀ c ∈ db.rows,
      mergeRow clock (finalPrimaryOf p0 rest).id (sortPrimaries (p0 :: rest)) 0 c ∈ D.rows)
    {c : Contact} (hc : c ∈ findMatches db req) :
    (resolve D (mergeRow clock (finalPrimaryOf p0 rest).id (sortPrimaries (p0 :: rest)) 0 c)
        = some (finalPrimaryOf p0 rest) ∨
      resolve D (mergeRow clock (finalPrimaryOf p0 rest).id (sortPrimaries (p0 :: rest)) 0 c)
        = none) ∧
    (resolve db c = some (finalPrimaryOf p0 rest) →
      resolve D (mergeRow clock (finalPrimaryOf p0 rest).id (sortPrimaries (p0 :: rest)) 0 c)
        = some (finalPrimaryOf p0 rest)) := by
  have hf : finalPrimaryOf p0 rest ∈ uniquePrimaries db req := by
    rw [hP]; exact finalPrimaryOf_mem p0 rest
  have hfrows := uniquePrimaries_rows hf
  have hfprim := (uniquePrimaries_primary hwf hf).1
  have hfkeep := mergeRow_survivor clock hwf hP
  have hfD : finalPrimaryOf p0 rest ∈ D.rows := by
    have := hsub _ hfrows.1
    rw [hfkeep] at this
    exact this
  have hc' := mem_findMatches.1 hc
  have hcl := matchesRow_live hc'.2
  rcases hwf.2 c hc'.1 hcl with ⟨hcp, _⟩ | ⟨hcs, q, hq, hql, hqp, hlq⟩
  · -- a matched primary: the survivor itself, or a loser
    by_cases hcf : c.id = (finalPrimaryOf p0 rest).id
    · have hce : c = finalPrimaryOf p0 rest := eq_of_id_eq hwf.1 hc'.1 hfrows.1 hcf
      rw [hce, hfkeep]
      exact ⟨Or.inl (resolve_primary hfprim), fun _ => resolve_primary hfprim⟩
    · have hcand : c ∈ uniquePrimaries db req :=
        (mem_uniquePrimaries_iff hwf.1).2 ⟨c, hc, resolve_primary hcp⟩
      rw [hP] at hcand
      have hl := mergeRow_loser clock (finalPrimaryOf p0 rest).id (sortPrimaries (p0 :: rest)) 0 c
        ⟨c, mem_sortPrimaries.2 hcand, hcf, rfl⟩
      refine ⟨(resolve_linked hD hfD hfrows.2 hl.2 hl.1).1, ?_⟩
      intro hr
      rw [resolve_primary hcp] at hr
      exact absurd (congrArg (fun x => x.id) (Option.some.inj hr)) hcf
  · have hgs := mergeRow_secondary clock (finalPrimaryOf p0 rest).id (sortPrimaries (p0 :: rest))
      0 c hcs
    have hcnp : c.linkprecedence ≠ LinkPrecedence.primary := by rw [hcs]; decide
    constructor
    · rcases mergeRow_linkedid_or clock (finalPrimaryOf p0 rest).id (sortPrimaries (p0 :: rest))
        0 c with hsame | hnew
      · by_cases hq0 : q.id = 0
        · right
          apply resolve_zero hgs
          rw [hsame, hlq, hq0]
        · have hres : resolve db c = some q :=
            (resolve_linked hwf.1 hq hql hcs hlq).2 hq0
          have hqc : q ∈ p0 :: rest := by
            rw [← hP]
            exact (mem_uniquePrimaries_iff hwf.1).2 ⟨c, hc, hres⟩
          rcases inCluster_iff.1 (mergeRow_inCluster clock hc'.1 hcl hqc hres) with hid | hlk
          · exfalso
            rw [mergeRow_id] at hid
            have hce : c = finalPrimaryOf p0 rest := eq_of_id_eq hwf.1 hc'.1 hfrows.1 hid
            rw [hce] at hcnp
            exact hcnp hfprim
          · exact (resolve_linked hD hfD hfrows.2 hgs hlk).1
      · exact (resolve_linked hD hfD hfrows.2 hgs hnew).1
    · intro hr
      obtain ⟨_, _, hor⟩ := resolve_some hc'.1 hcl hr
      rcases hor with ⟨hcp, _⟩ | ⟨_, hlk, hf0⟩
      · exact absurd hcp hcnp
      · exact (resolve_linked hD hfD hfrows.2 hgs
          (mergeRow_stable clock _ _ 0 c hlk)).2 hf0

/-- In a well-formed table no live row belongs to the cluster of an id that no
row has. -/
theorem no_cluster_of_unused {db : Db} (hwf : WellFormed db) {i : Nat}
    (hfresh : ∀ c ∈ db.rows, c.id ≠ i) {c : Contact} (hc : c ∈ db.rows) (hcl : live c = true) :
    inCluster i c = false := by
  cases h : inCluster i c with
  | false => rfl
  | true =>
    exfalso
    rcases inCluster_iff.1 h with hid | hlk
    · exact hfresh c hc hid
    · rcases hwf.2 c hc hcl with h1 | ⟨_, q, hq, _, _, hlq⟩
      · rw [h1.2] at hlk; cases hlk
      · rw [hlk] at hlq
        exact hfresh q hq (Option.some.inj hlq).symm

/-- A call that finds no match, repeated: the answer is the same and nothing is
written the second time. -/
theorem second_call_noMatch (clock1 clock2 : Nat → Nat) {db : Db} {req : Request}
    (hwf : WellFormed db) (hfresh : ∀ c ∈ db.rows, c.id ≠ db.nextId)
    (hany : truthy req.email = true ∨ truthy req.phoneNumber = true)
    (hm : findMatches db req = []) :
    ∃ (resp : Response) (db1 : Db),
      identify clock1 db req = Except.ok (resp, db1) ∧
      identify clock2 db1 req = Except.ok (resp, db1) := by
  refine ⟨_, _, identify_noMatch clock1 hm, ?_⟩
  have hwf1 : WellFormed (insertContact db (orNull req.email) (orNull req.phoneNumber) none
      LinkPrecedence.primary (clock1 0)) :=
    wf_append_primary hwf (db.nextId + 1) hfresh rfl rfl
  have hnewmem : newRow db.nextId (orNull req.email) (orNull req.phoneNumber) none
      LinkPrecedence.primary (clock1 0) ∈
      (insertContact db (orNull req.email) (orNull req.phoneNumber) none
        LinkPrecedence.primary (clock1 0)).rows :=
    List.mem_append_right _ (List.mem_singleton.2 rfl)
  have hnewmatch : matchesRow req (newRow db.nextId (orNull req.email)
      (orNull req.phoneNumber) none LinkPrecedence.primary (clock1 0)) = true :=
    orNull_matches rfl rfl rfl hany
  have hall : ∀ m ∈ findMatches (insertContact db (orNull req.email) (orNull req.phoneNumber)
      none LinkPrecedence.primary (clock1 0)) req,
      resolve (insertContact db (orNull req.email) (orNull req.phoneNumber)
        none LinkPrecedence.primary (clock1 0)) m =
        some (newRow db.nextId (orNull req.email) (orNull req.phoneNumber) none
          LinkPrecedence.primary (clock1 0)) ∨
      resolve (insertContact db (orNull req.email) (orNull req.phoneNumber)
        none LinkPrecedence.primary (clock1 0)) m = none := by
    intro m hmm
    have hm' := mem_findMatches.1 hmm
    rcases List.mem_append.1 hm'.1 with hmr | hmr
    · have : m ∈ findMatches db req := mem_findMatches.2 ⟨hmr, hm'.2⟩
      rw [hm] at this
      cases this
    · rw [List.mem_singleton] at hmr
      rw [hmr]
      exact Or.inl (resolve_primary rfl)
  have hneed : needNewSecondary (insertContact db (orNull req.email) (orNull req.phoneNumber)
      none LinkPrecedence.primary (clock1 0)).rows req
      (newRow db.nextId (orNull req.email) (orNull req.phoneNumber) none
        LinkPrecedence.primary (clock1 0)).id = false := by
    rw [needNewSecondary_eq_false_iff]
    intro _
    exact ⟨_, hnewmem, rfl, inCluster_iff.2 (Or.inl rfl), fun h => orNull_of_truthy h,
      fun h => orNull_of_truthy h⟩
  rw [identify_single clock2 hwf1.1 hall
    ⟨_, mem_findMatches.2 ⟨hnewmem, hnewmatch⟩, resolve_primary rfl⟩ hneed]
  have hlinked : allLinked (insertContact db (orNull req.email) (orNull req.phoneNumber) none
      LinkPrecedence.primary (clock1 0)).rows
      (newRow db.nextId (orNull req.email) (orNull req.phoneNumber) none
        LinkPrecedence.primary (clock1 0)).id =
      [newRow db.nextId (orNull req.email) (orNull req.phoneNumber) none
        LinkPrecedence.primary (clock1 0)] := by
    unfold allLinked insertContact
    have hnil : db.rows.filter (fun c => inCluster db.nextId c && live c) = [] := by
      rw [List.filter_eq_nil_iff]
      intro c hc hcond
      rw [Bool.and_eq_true] at hcond
      rw [no_cluster_of_unused hwf hfresh hc hcond.2] at hcond
      cases hcond.1
    show List.insertionSort _ (List.filter (fun c => inCluster db.nextId c && live c)
      (db.rows ++ [_])) = _
    rw [List.filter_append, hnil]
    simp [inCluster, live, newRow]
  rw [hlinked]
  have hresp : buildResponse (newRow db.nextId (orNull req.email) (orNull req.phoneNumber) none
      LinkPrecedence.primary (clock1 0))
      [newRow db.nextId (orNull req.email) (orNull req.phoneNumber) none
        LinkPrecedence.primary (clock1 0)] =
      { primaryContatctId := db.nextId, emails := asList req.email,
        phoneNumbers := asList req.phoneNumber, secondaryContactIds := [] } := by
    unfold buildResponse
    simp [newRow, asList_orNull]
  rw [hresp]

/-- A call that finds candidates, repeated: the answer is the same and nothing is
written the second time. -/
theorem second_call_match (clock1 clock2 : Nat → Nat) {db : Db} {req : Request}
    (hwf : WellFormed db) (hfresh : ∀ c ∈ db.rows, c.id ≠ db.nextId)
    {p0 : Contact} {rest : List Contact} (hP : uniquePrimaries db req = p0 :: rest) :
    ∃ (resp : Response) (db1 : Db),
      identify clock1 db req = Except.ok (resp, db1) ∧
      identify clock2 db1 req = Except.ok (resp, db1) := by
  have hf : finalPrimaryOf p0 rest ∈ uniquePrimaries db req := by
    rw [hP]; exact finalPrimaryOf_mem p0 rest
  have hfrows := uniquePrimaries_rows hf
  obtain ⟨db2, hid, hcase⟩ := identify_shape clock1 hP
  refine ⟨_, db2, hid, ?_⟩
  have hwf2 : WellFormed db2 := by
    have := (storeAfter_wellFormed clock1 req hwf).2 hfresh
    rwa [storeAfter_ok hid] at this
  -- the table after the first call: the old rows after the loop, then at most a
  -- secondary of the survivor, and nothing left for the gap filler to add
  have hshape : ∃ extra, db2.rows = db.rows.map
        (mergeRow clock1 (finalPrimaryOf p0 rest).id (sortPrimaries (p0 :: rest)) 0) ++ extra ∧
      (∀ n ∈ extra, n.linkprecedence = LinkPrecedence.secondary ∧
        n.linkedid = some (finalPrimaryOf p0 rest).id) ∧
      needNewSecondary db2.rows req (finalPrimaryOf p0 rest).id = false := by
    rcases hcase with ⟨hneed, hdb2⟩ | ⟨_, ts, hdb2⟩
    · refine ⟨[], by rw [hdb2, List.append_nil], ?_, ?_⟩
      · intro n hn
        cases hn
      · rw [hdb2]
        exact hneed
    · refine ⟨_, by rw [hdb2], ?_, ?_⟩
      · intro n hn
        rw [List.mem_singleton] at hn
        rw [hn]
        exact ⟨rfl, rfl⟩
      · rw [hdb2, needNewSecondary_eq_false_iff]
        intro _
        exact ⟨_, List.mem_append_right _ (List.mem_singleton.2 rfl), rfl,
          inCluster_iff.2 (Or.inr rfl), fun h => orNull_of_truthy h,
          fun h => orNull_of_truthy h⟩
  obtain ⟨extra, hrows, hextra, hneed⟩ := hshape
  have hsub : ∀ c ∈ db.rows,
      mergeRow clock1 (finalPrimaryOf p0 rest).id (sortPrimaries (p0 :: rest)) 0 c
        ∈ db2.rows := by
    intro c hc
    rw [hrows]
    exact List.mem_append_left _ (List.mem_map_of_mem _ hc)
  have hfD : finalPrimaryOf p0 rest ∈ db2.rows := by
    have := hsub _ hfrows.1
    rw [mergeRow_survivor clock1 hwf hP] at this
    exact this
  apply identify_single clock2 hwf2.1 _ _ hneed
  · intro r hr
    have hr' := mem_findMatches.1 hr
    have hrm := hr'.1
    rw [hrows] at hrm
    rcases List.mem_append.1 hrm with h | h
    · obtain ⟨c, hc, hce⟩ := List.mem_map.1 h
      rw [← hce]
      apply (resolve_after_merge clock1 hwf hP hwf2.1 hsub _).1
      apply mem_findMatches.2 ⟨hc, ?_⟩
      rw [← matchesRow_mergeRow req clock1 (finalPrimaryOf p0 rest).id
        (sortPrimaries (p0 :: rest)) 0 c, hce]
      exact hr'.2
    · exact (resolve_linked hwf2.1 hfD hfrows.2 (hextra r h).1 (hextra r h).2).1
  · obtain ⟨c, hc, hres⟩ := mem_uniquePrimaries hf
    have hc' := mem_findMatches.1 hc
    refine ⟨_, mem_findMatches.2 ⟨hsub c hc'.1, ?_⟩,
      (resolve_after_merge clock1 hwf hP hwf2.1 hsub hc).2 hres⟩
    rw [matchesRow_mergeRow]
    exact hc'.2

/-- C10: in a well-formed table whose next id is unused, for a request with at
least one non-blank identifier, two calls in succession with the same request (at
any times) give the same answer, and the second leaves the table as the first
left it: both succeed with one answer and the second writes nothing, or the first
ends with its `throw` before any write and both fail with one error.  When no id
is 0 both calls succeed. -/
theorem C10_identify_idempotent (clock1 clock2 : Nat → Nat) (db : Db) (req : Request)
    (hwf : WellFormed db) (hfresh : ∀ c ∈ db.rows, c.id ≠ db.nextId)
    (hany : truthy req.email = true ∨ truthy req.phoneNumber = true) :
    ((∃ (resp : Response) (db1 : Db),
        identify clock1 db req = Except.ok (resp, db1) ∧
        identify clock2 db1 req = Except.ok (resp, db1)) ∨
     (∃ e, handler clock1 req ⟨db, 0⟩ = (Except.error e, ⟨db, 0⟩) ∧
        identify clock1 db req = Except.error e ∧
        identify clock2 db req = Except.error e)) ∧
    ((∀ c ∈ db.rows, c.id ≠ 0) →
      ∃ (resp : Response) (db1 : Db),
        identify clock1 db req = Except.ok (resp, db1) ∧
        identify clock2 db1 req = Except.ok (resp, db1)) := by
  by_cases hm : findMatches db req = []
  · exact ⟨Or.inl (second_call_noMatch clock1 clock2 hwf hfresh hany hm),
      fun _ => second_call_noMatch clock1 clock2 hwf hfresh hany hm⟩
  · cases hP : uniquePrimaries db req with
    | nil =>
      refine ⟨Or.inr ⟨_, @handler_noCandidate clock1 req ⟨db, 0⟩ hm hP,
        identify_noCandidate clock1 hm hP, identify_noCandidate clock2 hm hP⟩, ?_⟩
      intro hpos
      exact absurd hP
        (uniquePrimaries_ne_nil hwf (fun c hc => Nat.pos_of_ne_zero (hpos c hc)) hm)
    | cons p0 rest =>
      exact ⟨Or.inl (second_call_match clock1 clock2 hwf hfresh hP),
        fun _ => second_call_match clock1 clock2 hwf hfresh hP⟩

/-- C10 at a sample with the id 0: on `zeroPairDb` the request
`secondaryPairRequest` succeeds, sent twice. -/
theorem C10_identify_idempotent_witness :
    WellFormed zeroPairDb ∧ (∀ c ∈ zeroPairDb.rows, c.id ≠ zeroPairDb.nextId) ∧
    (truthy secondaryPairRequest.email = true ∨
      truthy secondaryPairRequest.phoneNumber = true) ∧
    ((∃ (resp : Response) (db1 : Db),
        identify sampleClock zeroPairDb secondaryPairRequest = Except.ok (resp, db1) ∧
        identify (fun k => 2000 + k) db1 secondaryPairRequest = Except.ok (resp, db1)) ∨
     (∃ e, handler sampleClock secondaryPairRequest ⟨zeroPairDb, 0⟩ =
          (Except.error e, ⟨zeroPairDb, 0⟩) ∧
        identify sampleClock zeroPairDb secondaryPairRequest = Except.error e ∧
        identify (fun k => 2000 + k) zeroPairDb secondaryPairRequest = Except.error e)) ∧
    ((∀ c ∈ zeroPairDb.rows, c.id ≠ 0) →
      ∃ (resp : Response) (db1 : Db),
        identify sampleClock zeroPairDb secondaryPairRequest = Except.ok (resp, db1) ∧
        identify (fun k => 2000 + k) db1 secondaryPairRequest = Except.ok (resp, db1)) :=
  ⟨by decide, by decide, by decide,
    C10_identify_idempotent sampleClock (fun k => 2000 + k) zeroPairDb secondaryPairRequest
      (by decide) (by decide) (by decide)⟩

/-! ## Tables with the id 0

The guard `else if (contact.linkedid)` of line 122 is a truthiness test: a
secondary whose `linkedid` is the number 0 is passed over as if it had no link.
The `SERIAL` column hands out ids from 1, so the handler itself never creates
such a row; a table holding a primary with id 0 is well-formed all the same. -/

/-- C6 as stated fails: `zeroDb` is well-formed, the request carries the email of
its secondary and a phone no row has, so a live contact matches and no row has
the pair; the secondary's link is 0, no candidate is found, and the call fails
instead of inserting a secondary. -/
theorem C6_zero_id_counterexample :
    WellFormed zeroDb ∧
    truthy (some "b@x.com") = true ∧ truthy (some "777") = true ∧
    findMatches zeroDb { email := some "b@x.com", phoneNumber := some "777" } ≠ [] ∧
    (∀ c ∈ zeroDb.rows, ¬ (c.email = some "b@x.com" ∧ c.phonenumber = some "777")) ∧
    identify sampleClock zeroDb { email := some "b@x.com", phoneNumber := some "777" } =
      Except.error "No primary contact found" :=
  ⟨by decide, by decide, by decide, by decide, by decide, rfl⟩

/-- C7 as stated fails: in the well-formed table `zeroPairDb` the live row 1 has
exactly the email and the phone of `secondaryPairRequest`, but its link is 0 and
it is passed over; the call resolves to the primary 5 alone, finds no row with the
pair in that cluster and inserts row 6. -/
theorem C7_zero_id_counterexample :
    WellFormed zeroPairDb ∧
    (∃ c ∈ zeroPairDb.rows, live c = true ∧ c.email = secondaryPairRequest.email ∧
      c.phonenumber = secondaryPairRequest.phoneNumber) ∧
    identify sampleClock zeroPairDb secondaryPairRequest =
      Except.ok
        ({ primaryContatctId := 5, emails := ["b@x.com"], phoneNumbers := ["999", "222"],
           secondaryContactIds := [6] },
         { rows := zeroPairDb.rows ++
             [newRow 6 (some "b@x.com") (some "222") (some 5) LinkPrecedence.secondary 1000],
           nextId := 7 }) ∧
    (storeAfter sampleClock zeroPairDb secondaryPairRequest).rows.map (fun c => c.id) ≠
      zeroPairDb.rows.map (fun c => c.id) :=
  ⟨by decide, by decide, rfl, by decide⟩

/-- C9 as stated fails: in the well-formed table `zeroDb` the email of
`secondaryEmailRequest` is carried by the live row 1 alone, which lies in the
cluster of the live primary 0; the call fails instead of returning that primary
and leaving the table as it was. -/
theorem C9_zero_id_counterexample :
    WellFormed zeroDb ∧
    (∃ p ∈ zeroDb.rows, p.id = 0 ∧ live p = true ∧
      p.linkprecedence = LinkPrecedence.primary ∧
      (∃ c ∈ zeroDb.rows, c.deletedat = none ∧ c.email = secondaryEmailRequest.email) ∧
      (∀ c ∈ zeroDb.rows, c.deletedat = none → c.email = secondaryEmailRequest.email →
        c.id = p.id ∨ c.linkedid = some p.id)) ∧
    truthy secondaryEmailRequest.email = true ∧
    truthy secondaryEmailRequest.phoneNumber = false ∧
    identify sampleClock zeroDb secondaryEmailRequest =
      Except.error "No primary contact found" :=
  ⟨by decide, by decide, by decide, by decide, rfl⟩

/-- C19 as stated fails: `zeroDb` is well-formed (unique ids, a live primary
with null link and a live secondary whose link is the id of that primary), and
the request with the phone of the secondary reaches the
`'No primary contact found'` branch. -/
theorem C19_zero_id_counterexample :
    WellFormed zeroDb ∧
    identify sampleClock zeroDb { email := none, phoneNumber := some "222" } =
      Except.error "No primary contact found" :=
  ⟨by decide, rfl⟩

/-- C26 as stated fails: in `zeroDb` the row matched by the phone `222` is a
secondary whose non-null link, 0, is the id of a live row, and the call fails all
the same. -/
theorem C26_zero_id_counterexample :
    (∃ m ∈ zeroDb.rows, live m = true ∧
      matchesRow { email := none, phoneNumber := some "222" } m = true ∧
      Resolvable zeroDb m) ∧
    identify sampleClock zeroDb { email := none, phoneNumber := some "222" } =
      Except.error "No primary contact found" ∧
    ¬ ((∃ e, identify sampleClock zeroDb { email := none, phoneNumber := some "222" }
            = Except.error e) ↔
      ((∃ m ∈ zeroDb.rows, live m = true ∧
          matchesRow { email := none, phoneNumber := some "222" } m = true) ∧
        ∀ m ∈ zeroDb.rows, matchesRow { email := none, phoneNumber := some "222" } m = true →
          ¬ Resolvable zeroDb m)) := by
  have h1 : ∃ m ∈ zeroDb.rows, live m = true ∧
      matchesRow { email := none, phoneNumber := some "222" } m = true ∧
      Resolvable zeroDb m := by decide
  refine ⟨h1, rfl, ?_⟩
  intro hiff
  obtain ⟨m, hm, _, hmm, hr⟩ := h1
  exact (hiff.1 ⟨_, rfl⟩).2 m hm hmm hr

end Bitespeed
